import Mathlib

/-!
# BOD-Dashboard: response cache, list query pipeline, auth session and enrichment

A shallow embedding of

* `src/api/jsonPlaceholder.js`: the response cache (`getCacheKey`,
  `getCachedData`, `setCachedData`, `invalidateCache`), the enrichment inside
  `getPosts` and `createPost`;
* `src/api/api.js`: `enhancePost` and `createPost`;
* `src/features/entries/entriesSlice.js`: the entries reducer and the selectors
  `selectFilteredEntries`, `selectPaginatedEntries`;
* `src/hooks/useTable.js`: `paginatedData` and `paginationInfo`;
* `src/features/auth/authSlice.js`: `encodeToken`, `decodeToken`, `authAPI`,
  the thunks `login`, `logout`, `checkAuth` and the auth reducer;
* `src/features/notifications/notificationsSlice.js` and
  `src/hooks/useNotifications.js`: the notification creators and reducers;
* `src/utils/validators.js`: `validatePassword`; `src/utils/formatDate.js`:
  `formatRelativeTime`.

JavaScript strings are sequences of UTF-16 code units, the `Map` that backs the
cache and `localStorage` are insertion-ordered lists of pairs, `Date.now()` and
the values of `Math.random()` are explicit arguments, products and differences
of numbers that need not be integers are rounded to doubles, `btoa`, `atob` and
`JSON.stringify` are defined, and the builtins whose tables are not part of the
repository (`String.prototype.toLowerCase`, `JSON.parse`, `Date.toISOString`)
are parameters of the definitions that call them.
-/

namespace BOD

/-! ## Strings -/

/-- A JavaScript string: the list of its UTF-16 code units. -/
abbrev JsString := List Nat

/-- The code units of an ASCII literal of the source text. -/
def lit (s : String) : JsString := s.toList.map Char.toNat

/-- The call `s.startsWith(p)`: the code units of `p` open `s`. -/
def startsWith : JsString → JsString → Bool
  | _, [] => true
  | [], _ :: _ => false
  | c :: s, d :: p => c == d && startsWith s p

/-- The call `s.includes(p)`: `p` occurs in `s` at some position. -/
def includes : JsString → JsString → Bool
  | [], p => startsWith [] p
  | c :: s, p => startsWith (c :: s) p || includes s p

/-! ## The `Map` behind the cache -/

/-- A JavaScript `Map` with string keys: its entries in insertion order.
The keys of a `Map` are pairwise distinct (`JsMap.WF`). -/
abbrev JsMap (β : Type) := List (JsString × β)

namespace JsMap

variable {β : Type}

/-- The representation invariant of a `Map`: no key occurs twice. -/
def WF (m : JsMap β) : Prop := (m.map Prod.fst).Nodup

/-- The call `m.has(key)`. -/
def has (m : JsMap β) (key : JsString) : Bool := m.any (fun e => e.1 == key)

/-- The call `m.get(key)`; `none` is `undefined`. -/
def get (m : JsMap β) (key : JsString) : Option β :=
  (m.find? (fun e => e.1 == key)).map Prod.snd

/-- The call `m.set(key, value)`: an existing key keeps its position and gets
the new value, a new key is appended. -/
def set (m : JsMap β) (key : JsString) (value : β) : JsMap β :=
  if m.has key then m.map (fun e => if e.1 == key then (key, value) else e)
  else m ++ [(key, value)]

/-- The call `m.delete(key)`: the entry of `key`, if any, is removed (keys are
unique, so this removes every pair carrying `key`). -/
def delete (m : JsMap β) (key : JsString) : JsMap β :=
  m.filter (fun e => !(e.1 == key))

/-- The call `m.keys()`, in insertion order. -/
def keys (m : JsMap β) : List JsString := m.map Prod.fst

/-- The call `m.clear()`. -/
def clear (_m : JsMap β) : JsMap β := []

end JsMap

/-! ## The response cache (`src/api/jsonPlaceholder.js`) -/

/-- The object `{ data, timestamp }` stored under a cache key. -/
structure CacheEntry (α : Type) where
  data : α
  timestamp : Int
deriving DecidableEq, Repr

/-- The module-level `cache = new Map()`. -/
abbrev Cache (α : Type) := JsMap (CacheEntry α)

/-- The constant `CACHE_DURATION = 5 * 60 * 1000`, five minutes in milliseconds. -/
def CACHE_DURATION : Int := 5 * 60 * 1000

/-- The function `getCachedData(key)` run at `Date.now() = now`: the returned value (`none`
is `null`) and the cache afterwards. A stored entry is an object, hence truthy,
so the test `cached && ...` only asks whether the key is present. -/
def getCachedData {α : Type} (key : JsString) (now : Int) (cache : Cache α) :
    Option α × Cache α :=
  match cache.get key with
  | some cached =>
    if now - cached.timestamp < CACHE_DURATION then (some cached.data, cache)
    else (none, cache.delete key)
  | none => (none, cache.delete key)

/-- The function `setCachedData(key, data)` run at `Date.now() = now`. -/
def setCachedData {α : Type} (key : JsString) (data : α) (now : Int) (cache : Cache α) :
    Cache α :=
  cache.set key { data := data, timestamp := now }

/-- The function `invalidateCache(pattern)`; `none` is a call without argument. A pattern is
truthy when it is a non-empty string; then the loop visits every key of the
cache and deletes the ones that include the pattern. -/
def invalidateCache {α : Type} (pattern : Option JsString) (cache : Cache α) : Cache α :=
  match pattern with
  | some (c :: p) =>
    (JsMap.keys cache).foldl
      (fun acc key => if includes key (c :: p) then acc.delete key else acc) cache
  | some [] => cache.clear
  | none => cache.clear

/-- One call on the cache, with the clock reading at which it runs. -/
inductive CacheOp (α : Type) where
  | set (key : JsString) (data : α) (now : Int)
  | get (key : JsString) (now : Int)
  | invalidate (pattern : Option JsString)

/-- The cache after one call. -/
def CacheOp.run {α : Type} (op : CacheOp α) (cache : Cache α) : Cache α :=
  match op with
  | .set key data now => setCachedData key data now cache
  | .get key now => (getCachedData key now cache).2
  | .invalidate pattern => invalidateCache pattern cache

/-- The call is no `set` on `key` and no invalidation that reaches `key`; a
read of `key` itself is allowed while the entry stored at `t0` is still fresh. -/
def CacheOp.keeps {α : Type} (key : JsString) (t0 : Int) : CacheOp α → Prop
  | .set k _ _ => k ≠ key
  | .get k now => k = key → now - t0 < CACHE_DURATION
  | .invalidate (some (c :: p)) => includes key (c :: p) = false
  | .invalidate _ => False

/-! ## Plain objects, `Object.keys`, `sort` and `JSON.stringify` -/

/-- A plain object with string keys: its own enumerable properties in the
order of their creation; the keys are pairwise distinct. -/
abbrev JsObject (V : Type) := List (JsString × V)

/-- The code unit is one of `0` .. `9`. -/
def isDigit (c : Nat) : Bool := decide (48 ≤ c) && decide (c ≤ 57)

/-- The number a string of decimal digits denotes. -/
def decimalValue (k : JsString) : Nat := k.foldl (fun acc c => 10 * acc + (c - 48)) 0

/-- The key is an array index: the canonical decimal form of an integer
below `2^32 - 1`. Such keys are listed first by every enumeration of an object. -/
def isArrayIndex (k : JsString) : Bool :=
  !k.isEmpty && k.all isDigit && (k.head? != some 48 || k.length == 1)
    && decide (decimalValue k < 2 ^ 32 - 1)

/-- The own property keys of an object in enumeration order: array indices in
ascending numeric order, then the other keys in creation order. This is
`Object.keys(o)`. -/
def ownKeys {V : Type} (o : JsObject V) : List JsString :=
  ((o.map Prod.fst).filter isArrayIndex).insertionSort
      (fun a b => decimalValue a ≤ decimalValue b)
    ++ (o.map Prod.fst).filter (fun k => !isArrayIndex k)

/-- The read `o[key]`; `none` is `undefined`. -/
def objGet {V : Type} (o : JsObject V) (key : JsString) : Option V :=
  (o.find? (fun e => e.1 == key)).map Prod.snd

/-- The assignment `o[key] = value` on an object created by `{}`: an existing
property is overwritten in place, a new one is created last. The key
`__proto__` reaches the accessor of `Object.prototype` and creates no own
property. -/
def objSet {V : Type} (o : JsObject V) (key : JsString) (value : V) : JsObject V :=
  if key = lit "__proto__" then o
  else if o.any (fun e => e.1 == key) then
    o.map (fun e => if e.1 == key then (key, value) else e)
  else o ++ [(key, value)]

/-- The default comparison of `Array.prototype.sort()` on strings: `a` is not
after `b` in the lexicographic order of code units. -/
def strLe : JsString → JsString → Bool
  | [], _ => true
  | _ :: _, [] => false
  | a :: s, b :: t => decide (a < b) || (a == b && strLe s t)

/-- The call `keys.sort()` with the default comparison. -/
def sortKeys (keys : List JsString) : List JsString :=
  keys.insertionSort (fun a b => strLe a b = true)

/-- The call `JSON.stringify(o)` for a plain object `o` whose property values may be
`undefined` (`none`). `quote` is the quoting of a property name and `ser` the
serialisation of a value, `none` for a value that `JSON.stringify` leaves out. -/
def jsonStringify {V : Type} (quote : JsString → JsString) (ser : V → Option JsString)
    (o : JsObject (Option V)) : JsString :=
  let partials := (ownKeys o).filterMap (fun k =>
    ((objGet o k).join.bind ser).map (fun str => quote k ++ lit ":" ++ str))
  lit "\x7b" ++ List.intercalate (lit ",") partials ++ lit "\x7d"

/-- The function `getCacheKey(url, params)`: the keys of `params` are sorted, copied in that
order into a fresh object, and the object is serialised after the url. -/
def getCacheKey {V : Type} (quote : JsString → JsString) (ser : V → Option JsString)
    (url : JsString) (params : JsObject V) : JsString :=
  let sortedParams : JsObject (Option V) :=
    (sortKeys (ownKeys params)).foldl
      (fun result key => objSet result key (objGet params key)) []
  url ++ lit "?" ++ jsonStringify quote ser sortedParams

/-! ## Numbers and arrays -/

/-- The values a quotient of a length by an integer takes after `Math.ceil`:
an integer (`-0` is identified with `0`), `Infinity`, or `NaN`. -/
inductive JsNum where
  | fin (i : Int)
  | inf
  | nan
deriving DecidableEq, Repr

/-- The expression `Math.ceil(n / d)` for an array length `n` and an integer
`d`. Lengths are below `2^32`, so the floating-point quotient rounds to the
exact ceiling; `n / 0` is `Infinity` for `n > 0` and `NaN` for `n = 0`. -/
def mathCeilDiv (n : Nat) (d : Int) : JsNum :=
  if d = 0 then (if n = 0 then .nan else .inf)
  else .fin (-(Int.fdiv (-(n : Int)) d))

/-- The index `Array.prototype.slice` derives from an integer argument: a
negative argument counts from the end, and the result is clamped to
`[0, len]`. -/
def relativeIndex (len : Nat) (i : Int) : Nat :=
  if i < 0 then Int.toNat ((len : Int) + i) else min (Int.toNat i) len

/-- The call `xs.slice(start, final)`. -/
def slice {α : Type} (xs : List α) (start final : Int) : List α :=
  let k := relativeIndex xs.length start
  let e := relativeIndex xs.length final
  (xs.drop k).take (e - k)

/-! ## The entries slice (`src/features/entries/entriesSlice.js`) -/

/-- An entry of the collection (`Entry` of `src/types/index.js`): a numeric id,
the two string fields the search reads, and the remaining properties. -/
structure Entry (ρ : Type) where
  id : Int
  title : JsString
  body : JsString
  rest : ρ
deriving DecidableEq, Repr

/-- The state of the entries slice (`EntriesState`). -/
structure EntriesState (ρ : Type) where
  items : List (Entry ρ)
  loading : Bool
  error : Option JsString
  searchTerm : JsString
  currentPage : Int
  itemsPerPage : Int
deriving DecidableEq, Repr

/-- The `initialState` of `createSlice`. -/
def initialState {ρ : Type} : EntriesState ρ :=
  { items := [], loading := false, error := none, searchTerm := [],
    currentPage := 1, itemsPerPage := 10 }

/-- The actions the slice has a case for. -/
inductive EntriesAction (ρ : Type) where
  | setSearchTerm (payload : JsString)
  | setCurrentPage (payload : Int)
  | setItemsPerPage (payload : Int)
  | clearError
  | fetchEntriesPending
  | fetchEntriesFulfilled (payload : List (Entry ρ))
  | fetchEntriesRejected (payload : Option JsString)
  | addEntryFulfilled (payload : Entry ρ)
  | updateEntryFulfilled (payload : Entry ρ)
  | deleteEntryFulfilled (payload : Int)

/-- The reducer `setSearchTerm`. -/
def setSearchTerm {ρ : Type} (state : EntriesState ρ) (payload : JsString) : EntriesState ρ :=
  { state with searchTerm := payload, currentPage := 1 }

/-- The reducer `setCurrentPage`. -/
def setCurrentPage {ρ : Type} (state : EntriesState ρ) (payload : Int) : EntriesState ρ :=
  { state with currentPage := payload }

/-- The reducer `setItemsPerPage`. -/
def setItemsPerPage {ρ : Type} (state : EntriesState ρ) (payload : Int) : EntriesState ρ :=
  { state with itemsPerPage := payload, currentPage := 1 }

/-- The reducer `clearError`. -/
def clearError {ρ : Type} (state : EntriesState ρ) : EntriesState ρ :=
  { state with error := none }

/-- The case `updateEntry.fulfilled`: the first item with the id of the payload
is replaced by the payload; without such an item nothing changes. -/
def updateEntryFulfilled {ρ : Type} (state : EntriesState ρ) (payload : Entry ρ) :
    EntriesState ρ :=
  match state.items.findIdx? (fun item => item.id == payload.id) with
  | some index => { state with items := state.items.set index payload }
  | none => state

/-- The slice reducer: `reducers` and `extraReducers` together. -/
def entriesReducer {ρ : Type} (state : EntriesState ρ) : EntriesAction ρ → EntriesState ρ
  | .setSearchTerm payload => setSearchTerm state payload
  | .setCurrentPage payload => setCurrentPage state payload
  | .setItemsPerPage payload => setItemsPerPage state payload
  | .clearError => clearError state
  | .fetchEntriesPending => { state with loading := true, error := none }
  | .fetchEntriesFulfilled payload => { state with loading := false, items := payload }
  | .fetchEntriesRejected payload => { state with loading := false, error := payload }
  | .addEntryFulfilled payload => { state with items := payload :: state.items }
  | .updateEntryFulfilled payload => updateEntryFulfilled state payload
  | .deleteEntryFulfilled payload =>
    { state with items := state.items.filter (fun item => item.id != payload) }

/-- The result function of `selectFilteredEntries`; `toLowerCase` is
`String.prototype.toLowerCase`. The empty search term is falsy. -/
def filterEntries {ρ : Type} (toLowerCase : JsString → JsString)
    (items : List (Entry ρ)) (searchTerm : JsString) : List (Entry ρ) :=
  if searchTerm.isEmpty then items
  else items.filter (fun item =>
    includes (toLowerCase item.title) (toLowerCase searchTerm) ||
    includes (toLowerCase item.body) (toLowerCase searchTerm))

/-- The selector `selectFilteredEntries`. -/
def selectFilteredEntries {ρ : Type} (toLowerCase : JsString → JsString)
    (state : EntriesState ρ) : List (Entry ρ) :=
  filterEntries toLowerCase state.items state.searchTerm

/-- The object `selectPaginatedEntries` returns (`PaginationData`). -/
structure PaginationData (ρ : Type) where
  entries : List (Entry ρ)
  totalPages : JsNum
  totalItems : Nat
deriving DecidableEq, Repr

/-- The result function of `selectPaginatedEntries`. -/
def paginateEntries {ρ : Type} (filteredEntries : List (Entry ρ))
    (currentPage itemsPerPage : Int) : PaginationData ρ :=
  let startIndex := (currentPage - 1) * itemsPerPage
  let endIndex := startIndex + itemsPerPage
  { entries := slice filteredEntries startIndex endIndex
    totalPages := mathCeilDiv filteredEntries.length itemsPerPage
    totalItems := filteredEntries.length }

/-- The selector `selectPaginatedEntries`. -/
def selectPaginatedEntries {ρ : Type} (toLowerCase : JsString → JsString)
    (state : EntriesState ρ) : PaginationData ρ :=
  paginateEntries (selectFilteredEntries toLowerCase state) state.currentPage
    state.itemsPerPage

/-! ## The table hook (`src/hooks/useTable.js`) -/

/-- The memoised `paginatedData` of `useTable`. -/
def paginatedData {α : Type} (filteredData : List α) (currentPage itemsPerPage : Int) :
    List α :=
  let startIndex := (currentPage - 1) * itemsPerPage
  let endIndex := startIndex + itemsPerPage
  slice filteredData startIndex endIndex

/-- The object `paginationInfo` of `useTable`. -/
structure PaginationInfo where
  currentPage : Int
  totalPages : JsNum
  totalItems : Nat
  startIndex : Int
  endIndex : Int
deriving DecidableEq, Repr

/-- The memoised `paginationInfo` of `useTable`. -/
def paginationInfo {α : Type} (filteredData : List α) (currentPage itemsPerPage : Int) :
    PaginationInfo :=
  { currentPage := currentPage
    totalPages := mathCeilDiv filteredData.length itemsPerPage
    totalItems := filteredData.length
    startIndex := (currentPage - 1) * itemsPerPage + 1
    endIndex := min (currentPage * itemsPerPage) filteredData.length }

/-! ## Properties in the words of the specification -/

/-- The text contains the term as a substring when letter case is ignored:
the lower-cased term is a contiguous part of the lower-cased text. -/
def ContainsIgnoringCase (toLowerCase : JsString → JsString) (text term : JsString) :
    Prop :=
  ∃ front back, toLowerCase text = front ++ toLowerCase term ++ back

/-- The search term is present in the item: in its title or in its body. -/
def TermPresent {ρ : Type} (toLowerCase : JsString → JsString) (term : JsString)
    (item : Entry ρ) : Prop :=
  ContainsIgnoringCase toLowerCase item.title term ∨
    ContainsIgnoringCase toLowerCase item.body term

/-- The page bound of the query state:
`1 <= currentPage <= max(1, ceil(filteredCount / itemsPerPage))`. -/
def PageInRange {ρ : Type} (toLowerCase : JsString → JsString) (state : EntriesState ρ) :
    Prop :=
  1 ≤ state.currentPage ∧
    state.currentPage ≤
      max 1 ⌈((selectFilteredEntries toLowerCase state).length : ℚ) / (state.itemsPerPage : ℚ)⌉

/-! ## Concrete inputs -/

/-- The lower-casing of ASCII letters, the behaviour of `toLowerCase` on ASCII
strings; it instantiates the parameter at concrete inputs. -/
def toLowerCaseAscii (s : JsString) : JsString :=
  s.map (fun c => if 65 ≤ c ∧ c ≤ 90 then c + 32 else c)

/-- An entry with the given id, title and body and no further properties. -/
def sampleEntry (id : Int) (title body : String) : Entry Unit :=
  { id := id, title := lit title, body := lit body, rest := () }

/-- A state with three entries, an empty search term and two items per page. -/
def sampleState : EntriesState Unit :=
  { items := [sampleEntry 1 "Alpha" "first post", sampleEntry 2 "Beta" "second POST",
      sampleEntry 3 "Gamma" "third"]
    loading := false, error := none, searchTerm := [], currentPage := 1, itemsPerPage := 2 }

/-- The scenario collection: twelve entries with the ids 1 to 12. -/
def twelveEntries : List (Entry Unit) :=
  (List.range 12).map (fun i => sampleEntry ((i : Int) + 1) "Title" "body")

/-- The scenario state: twelve entries, no search term, page 2 of page size 10. -/
def twelveState : EntriesState Unit :=
  { items := twelveEntries, loading := false, error := none, searchTerm := [],
    currentPage := 2, itemsPerPage := 10 }

/-! ## JavaScript values -/

/-- A JavaScript value as far as the data of this program goes: `undefined`,
`null`, booleans, integral numbers (ids, counters, timestamps), strings, arrays
and plain objects. The properties of an object are listed in the order in which
the engine enumerates them. The results of `JSON.parse` are such values. -/
inductive JsVal where
  | undefined
  | null
  | bool (b : Bool)
  | num (n : Int)
  | str (s : JsString)
  | arr (items : List JsVal)
  | obj (fields : List (JsString × JsVal))

/-- The conversion `ToBoolean`. -/
def JsVal.truthy : JsVal → Bool
  | .undefined => false
  | .null => false
  | .bool b => b
  | .num n => n != 0
  | .str s => !s.isEmpty
  | .arr _ => true
  | .obj _ => true

/-- The read `v.key` on a value other than `undefined` and `null`, for a key
that no builtin prototype defines (`exp`, `userId`, `email`, `role`, ...): an
own property of an object, else `undefined`. -/
def JsVal.prop (v : JsVal) (key : JsString) : JsVal :=
  match v with
  | .obj fields => (objGet fields key).getD .undefined
  | _ => .undefined

/-- The decimal digits of a natural number. -/
def natToString (n : Nat) : JsString := (Nat.toDigits 10 n).map Char.toNat

/-- The conversion `Number::toString` on an integer within the safe range. -/
def numberToString (n : Int) : JsString :=
  if n < 0 then 45 :: natToString n.natAbs else natToString n.natAbs

/-- A lower-case hexadecimal digit. -/
def hexDigit (n : Nat) : Nat := if n < 10 then 48 + n else 87 + n

/-- The escape `\uXXXX` of a code unit. -/
def unicodeEscape (c : Nat) : JsString :=
  [92, 117, hexDigit (c / 4096 % 16), hexDigit (c / 256 % 16), hexDigit (c / 16 % 16),
    hexDigit (c % 16)]

/-- The code unit is a leading surrogate. -/
def isHighSurrogate (c : Nat) : Bool := decide (55296 ≤ c) && decide (c ≤ 56319)

/-- The code unit is a trailing surrogate. -/
def isLowSurrogate (c : Nat) : Bool := decide (56320 ≤ c) && decide (c ≤ 57343)

/-- The text `QuoteJSONString` writes for one code unit that is not part of a
surrogate pair: the short escapes, `\uXXXX` for the other control characters
and for a lone surrogate, the unit itself otherwise. -/
def escapeUnit (c : Nat) : JsString :=
  if c = 8 then [92, 98]
  else if c = 9 then [92, 116]
  else if c = 10 then [92, 110]
  else if c = 12 then [92, 102]
  else if c = 13 then [92, 114]
  else if c = 34 then [92, 34]
  else if c = 92 then [92, 92]
  else if c < 32 ∨ (55296 ≤ c ∧ c ≤ 57343) then unicodeEscape c
  else [c]

/-- The text of `QuoteJSONString` between the quotes. -/
def quoteBody : JsString → JsString
  | [] => []
  | [c] => escapeUnit c
  | c :: d :: rest =>
    if isHighSurrogate c && isLowSurrogate d then c :: d :: quoteBody rest
    else escapeUnit c ++ quoteBody (d :: rest)

/-- The operation `QuoteJSONString`. -/
def quoteJSON (s : JsString) : JsString := [34] ++ quoteBody s ++ [34]

mutual
/-- The string `String(JSON.stringify(v))`: the serialisation of `v`, and the
text `undefined` where `JSON.stringify` returns `undefined`. -/
def JsVal.stringify : JsVal → JsString
  | .undefined => lit "undefined"
  | .null => lit "null"
  | .bool true => lit "true"
  | .bool false => lit "false"
  | .num n => numberToString n
  | .str s => quoteJSON s
  | .arr items => [91] ++ List.intercalate [44] (stringifyElements items) ++ [93]
  | .obj fields => [123] ++ List.intercalate [44] (stringifyMembers fields) ++ [125]
/-- The serialised elements of an array; `undefined` is written `null`. -/
def stringifyElements : List JsVal → List JsString
  | [] => []
  | .undefined :: rest => lit "null" :: stringifyElements rest
  | x :: rest => JsVal.stringify x :: stringifyElements rest
/-- The serialised members of an object; a property whose value is `undefined`
is left out. -/
def stringifyMembers : List (JsString × JsVal) → List JsString
  | [] => []
  | (_, .undefined) :: rest => stringifyMembers rest
  | (k, x) :: rest => (quoteJSON k ++ [58] ++ JsVal.stringify x) :: stringifyMembers rest
end

mutual
/-- The conversion `ToString`, as a template literal applies it. -/
def JsVal.toStr : JsVal → JsString
  | .undefined => lit "undefined"
  | .null => lit "null"
  | .bool true => lit "true"
  | .bool false => lit "false"
  | .num n => numberToString n
  | .str s => s
  | .arr items => List.intercalate [44] (toStrElements items)
  | .obj _ => lit "[object Object]"
/-- The elements of an array as `Array.prototype.join` writes them. -/
def toStrElements : List JsVal → List JsString
  | [] => []
  | .undefined :: rest => [] :: toStrElements rest
  | .null :: rest => [] :: toStrElements rest
  | x :: rest => JsVal.toStr x :: toStrElements rest
end

/-- The builtins whose tables are not part of the repository. -/
structure Builtins where
  /-- The function `JSON.parse`; `none` is a thrown `SyntaxError`. -/
  jsonParse : JsString → Option JsVal
  /-- The comparison `v < n` for a string, array or object `v`, which converts
  `v` to a number first. -/
  lessThanNumber : JsVal → Int → Bool
  /-- The method `toISOString` of the date with the given time value. -/
  toISOString : Int → JsString

/-! ## Base64 (`btoa`, `atob`) and `split` -/

/-- The character of a six-bit value in the base64 alphabet. -/
def b64Char (v : Nat) : Nat :=
  if v < 26 then 65 + v
  else if v < 52 then 97 + (v - 26)
  else if v < 62 then 48 + (v - 52)
  else if v = 62 then 43
  else 47

/-- The six-bit value of a character of the base64 alphabet. -/
def b64Value (c : Nat) : Option Nat :=
  if 65 ≤ c ∧ c ≤ 90 then some (c - 65)
  else if 97 ≤ c ∧ c ≤ 122 then some (c - 97 + 26)
  else if 48 ≤ c ∧ c ≤ 57 then some (c - 48 + 52)
  else if c = 43 then some 62
  else if c = 47 then some 63
  else none

/-- The six-bit groups of a sequence of bytes, the last group filled with
zero bits. -/
def sextets : List Nat → List Nat
  | [] => []
  | [a] => [a / 4, a % 4 * 16]
  | [a, b] => [a / 4, a % 4 * 16 + b / 16, b % 16 * 4]
  | a :: b :: c :: rest =>
    [a / 4, a % 4 * 16 + b / 16, b % 16 * 4 + c / 64, c % 64] ++ sextets rest

/-- The bytes of a sequence of six-bit groups; the surplus bits of an incomplete
last group are dropped. -/
def octets : List Nat → List Nat
  | v0 :: v1 :: v2 :: v3 :: rest =>
    [v0 * 4 + v1 / 16, v1 % 16 * 16 + v2 / 4, v2 % 4 * 64 + v3] ++ octets rest
  | [v0, v1, v2] => [v0 * 4 + v1 / 16, v1 % 16 * 16 + v2 / 4]
  | [v0, v1] => [v0 * 4 + v1 / 16]
  | _ => []

/-- The function `btoa`; `none` is the `InvalidCharacterError` thrown for a
code unit above 255. -/
def btoa (data : JsString) : Option JsString :=
  if data.all (fun c => decide (c < 256)) then
    some ((sextets data).map b64Char ++ List.replicate ((3 - data.length % 3) % 3) 61)
  else none

/-- The code unit is ASCII whitespace: tab, line feed, form feed, carriage
return or space. -/
def isAsciiWhitespace (c : Nat) : Bool :=
  c == 9 || c == 10 || c == 12 || c == 13 || c == 32

/-- The removal of one or two trailing `=` signs. -/
def stripPadding (data : JsString) : JsString :=
  match data.reverse with
  | 61 :: 61 :: rest => rest.reverse
  | 61 :: rest => rest.reverse
  | _ => data

/-- The six-bit values of a text; `none` when a character is outside the
base64 alphabet. -/
def b64Values : JsString → Option (List Nat)
  | [] => some []
  | c :: s =>
    match b64Value c, b64Values s with
    | some v, some vs => some (v :: vs)
    | _, _ => none

/-- The function `atob` (forgiving base64 decoding); `none` is the thrown
`InvalidCharacterError`. -/
def atob (data : JsString) : Option JsString :=
  let stripped := data.filter (fun c => !isAsciiWhitespace c)
  let unpadded := if stripped.length % 4 = 0 then stripPadding stripped else stripped
  if unpadded.length % 4 = 1 then none
  else (b64Values unpadded).map octets

/-- The call `s.split(sep)` for a separator of one code unit. -/
def split (sep : Nat) : JsString → List JsString
  | [] => [[]]
  | c :: s =>
    if c = sep then [] :: split sep s
    else
      match split sep s with
      | segment :: rest => (c :: segment) :: rest
      | [] => [[c]]

/-! ## The auth slice (`src/features/auth/authSlice.js`) -/

/-- The constant `JWT_SECRET`. -/
def JWT_SECRET : JsString := lit "your-secret-key-change-in-production"

/-- The function `encodeToken`; `none` is an exception of `btoa`. -/
def encodeToken (payload : JsVal) : Option JsString :=
  let header := JsVal.obj [(lit "alg", .str (lit "HS256")), (lit "typ", .str (lit "JWT"))]
  match btoa header.stringify with
  | none => none
  | some encodedHeader =>
    match btoa payload.stringify with
    | none => none
    | some encodedPayload =>
      match btoa (encodedHeader ++ encodedPayload ++ JWT_SECRET) with
      | none => none
      | some signature =>
        some (encodedHeader ++ lit "." ++ encodedPayload ++ lit "." ++ signature)

/-- The second element of `token.split('.')` as `atob` receives it: a missing
segment is `undefined`, which `atob` reads as the text `undefined`. -/
def payloadSegment (token : JsString) : JsString :=
  match (split 46 token)[1]? with
  | some payload => payload
  | none => lit "undefined"

/-- The function `decodeToken`: every exception of `atob` or `JSON.parse` is
replaced by the error `Invalid token`. -/
def decodeToken (env : Builtins) (token : JsString) : Except JsString JsVal :=
  match atob (payloadSegment token) with
  | none => .error (lit "Invalid token")
  | some text =>
    match env.jsonParse text with
    | none => .error (lit "Invalid token")
    | some decodedPayload => .ok decodedPayload

/-- The user object of a session. The fields read from a token may be any
value, `undefined` included. -/
structure User where
  id : JsVal
  email : JsVal
  name : JsString
  role : JsVal
  avatar : JsString

/-- The object `{ user, token }` a login or a restored session yields. -/
structure Session where
  user : User
  token : JsString

/-- The credentials of the login form. -/
structure Credentials where
  email : JsString
  password : JsString

/-- The payload `authAPI.login` embeds in the token at time `now`. -/
def loginPayload (email : JsString) (now : Int) : JsVal :=
  .obj [(lit "userId", .num 1), (lit "email", .str email), (lit "role", .str (lit "admin")),
    (lit "exp", .num (now + 24 * 60 * 60 * 1000))]

/-- The function `authAPI.login` at `Date.now() = now`; the error is the
message of the thrown `Error`. -/
def authAPI.login (credentials : Credentials) (now : Int) : Except JsString Session :=
  if credentials.email = lit "admin@example.com" ∧ credentials.password = lit "password" then
    let user : User :=
      { id := .num 1, email := .str credentials.email, name := lit "Admin User",
        role := .str (lit "admin"), avatar := lit "https://i.pravatar.cc/150?img=1" }
    match encodeToken (loginPayload credentials.email now) with
    | some token => .ok { user := user, token := token }
    | none => .error (lit "InvalidCharacterError")
  else .error (lit "Invalid credentials")

/-- The function `authAPI.logout`: it returns `true` and has no failure. -/
def authAPI.logout : Bool := true

/-- The comparison `v < now` of the expiry test. -/
def lessThanNow (env : Builtins) (v : JsVal) (now : Int) : Bool :=
  match v with
  | .num n => decide (n < now)
  | .bool b => decide ((if b then 1 else 0) < now)
  | .null => decide (0 < now)
  | .undefined => false
  | other => env.lessThanNumber other now

/-- The function `authAPI.validateToken` at `Date.now() = now`. Reading `exp`
from `null` throws; every exception ends as `Invalid or expired token`. -/
def authAPI.validateToken (env : Builtins) (token : JsString) (now : Int) :
    Except JsString User :=
  match decodeToken env token with
  | .error _ => .error (lit "Invalid or expired token")
  | .ok .undefined => .error (lit "Invalid or expired token")
  | .ok .null => .error (lit "Invalid or expired token")
  | .ok decoded =>
    if (decoded.prop (lit "exp")).truthy && lessThanNow env (decoded.prop (lit "exp")) now then
      .error (lit "Invalid or expired token")
    else
      .ok { id := decoded.prop (lit "userId"), email := decoded.prop (lit "email"),
            name := lit "Admin User", role := decoded.prop (lit "role"),
            avatar := lit "https://i.pravatar.cc/150?img=1" }

/-- The browser storage `localStorage`: string values under string keys. -/
abbrev Storage := JsMap JsString

/-- The state of the auth slice (`AuthState`). -/
structure AuthState where
  user : Option User
  token : Option JsString
  isAuthenticated : Bool
  loading : Bool
  error : Option JsString

/-- The `initialState` of the auth slice. -/
def authSlice.initialState : AuthState :=
  { user := none, token := none, isAuthenticated := false, loading := false, error := none }

/-- The actions of the auth slice; a rejected thunk carries the message given
to `rejectWithValue`. -/
inductive AuthAction where
  | clearError
  | clearAuth
  | loginPending
  | loginFulfilled (payload : Session)
  | loginRejected (payload : JsString)
  | logoutPending
  | logoutFulfilled
  | logoutRejected (payload : JsString)
  | checkAuthPending
  | checkAuthFulfilled (payload : Session)
  | checkAuthRejected (payload : JsString)

/-- The reducer of the auth slice; `logout.pending` and `logout.rejected`
have no case. -/
def authReducer (state : AuthState) : AuthAction → AuthState
  | .clearError => { state with error := none }
  | .clearAuth => { state with user := none, token := none, isAuthenticated := false, error := none }
  | .loginPending => { state with loading := true, error := none }
  | .loginFulfilled payload =>
    { state with loading := false, user := some payload.user, token := some payload.token,
                 isAuthenticated := true, error := none }
  | .loginRejected payload =>
    { state with loading := false, error := some payload, isAuthenticated := false }
  | .logoutPending => state
  | .logoutFulfilled =>
    { user := none, token := none, isAuthenticated := false, loading := false, error := none }
  | .logoutRejected _ => state
  | .checkAuthPending => { state with loading := true }
  | .checkAuthFulfilled payload =>
    { state with loading := false, user := some payload.user, token := some payload.token,
                 isAuthenticated := true, error := none }
  | .checkAuthRejected _ =>
    { state with loading := false, user := none, token := none, isAuthenticated := false,
                 error := none }

/-- The user object as `JSON.stringify` sees it. -/
def User.toJsVal (user : User) : JsVal :=
  .obj [(lit "id", user.id), (lit "email", user.email), (lit "name", .str user.name),
    (lit "role", user.role), (lit "avatar", .str user.avatar)]

/-- The thunk `login` at `Date.now() = now`: the storage afterwards and the
action dispatched when it settles. -/
def login (credentials : Credentials) (now : Int) (storage : Storage) : Storage × AuthAction :=
  match authAPI.login credentials now with
  | .ok response =>
    ((storage.set (lit "authToken") response.token).set (lit "user")
        response.user.toJsVal.stringify,
      .loginFulfilled response)
  | .error message => (storage, .loginRejected message)

/-- The thunk `logout`: `authAPI.logout` cannot throw, so the branch that
rejects is never taken. -/
def logout (storage : Storage) : Storage × AuthAction :=
  ((storage.delete (lit "authToken")).delete (lit "user"), .logoutFulfilled)

/-- The thunk `checkAuth` at `Date.now() = now`. A missing or empty token is
falsy. -/
def checkAuth (env : Builtins) (now : Int) (storage : Storage) : Storage × AuthAction :=
  match storage.get (lit "authToken") with
  | none =>
    ((storage.delete (lit "authToken")).delete (lit "user"),
      .checkAuthRejected (lit "No auth token found"))
  | some [] =>
    ((storage.delete (lit "authToken")).delete (lit "user"),
      .checkAuthRejected (lit "No auth token found"))
  | some token =>
    match authAPI.validateToken env token now with
    | .ok user => (storage, .checkAuthFulfilled { user := user, token := token })
    | .error message =>
      ((storage.delete (lit "authToken")).delete (lit "user"), .checkAuthRejected message)

/-! ## Properties of tokens in the words of the specification -/

/-- Every code unit of the string is ASCII. -/
def IsAscii (s : JsString) : Prop := ∀ c ∈ s, c < 128

/-- The property is named by an ASCII string and holds an ASCII string or an
integer. -/
def IsAsciiField (e : JsString × JsVal) : Prop :=
  IsAscii e.1 ∧ ((∃ s, e.2 = .str s ∧ IsAscii s) ∨ ∃ n, e.2 = .num n)

/-- The value is a payload of ASCII string and integer fields. -/
def IsAsciiPayload (p : JsVal) : Prop :=
  ∃ fields, p = .obj fields ∧ ∀ e ∈ fields, IsAsciiField e

/-- The anonymous session: no user, no token, not authenticated. -/
def IsAnonymous (state : AuthState) : Prop :=
  state.user = none ∧ state.token = none ∧ state.isAuthenticated = false

/-! ## Concrete inputs for the auth slice -/

/-- The credentials the demo accepts. -/
def adminCredentials : Credentials :=
  { email := lit "admin@example.com", password := lit "password" }

/-- The user object of the demo administrator. -/
def adminUser : User :=
  { id := .num 1, email := .str (lit "admin@example.com"), name := lit "Admin User",
    role := .str (lit "admin"), avatar := lit "https://i.pravatar.cc/150?img=1" }

/-- A stand-in for the builtins at concrete inputs: `jsonParse` knows the texts
of the login payload minted at time 1000, of an object whose only property is
`exp` with value 0 or 500, and of the empty object, and agrees with
`JSON.parse` on them. -/
def sampleBuiltins : Builtins :=
  { jsonParse := fun text =>
      if text = (loginPayload (lit "admin@example.com") 1000).stringify then
        some (loginPayload (lit "admin@example.com") 1000)
      else if text = lit "\x7b\"exp\":0\x7d" then some (.obj [(lit "exp", .num 0)])
      else if text = lit "\x7b\"exp\":500\x7d" then some (.obj [(lit "exp", .num 500)])
      else if text = lit "\x7b\x7d" then some (.obj [])
      else none
    lessThanNumber := fun _ _ => false
    toISOString := fun t => numberToString t }

/-! ## Object literals -/

/-- The definition of one property by an object literal (`CreateDataProperty`):
an existing property is overwritten in place, a new one is created last. -/
def defineProp (o : JsObject JsVal) (key : JsString) (value : JsVal) : JsObject JsVal :=
  if o.any (fun e => e.1 == key) then o.map (fun e => if e.1 == key then (key, value) else e)
  else o ++ [(key, value)]

/-- The spread `...source` inside an object literal: the own properties of
`source` are defined on the object under construction, in enumeration order. -/
def spreadInto (target source : JsObject JsVal) : JsObject JsVal :=
  (ownKeys source).foldl
    (fun acc key => defineProp acc key ((objGet source key).getD .undefined)) target

/-- The read `o.key` of a plain object; a missing property reads `undefined`. -/
def readProp (o : JsObject JsVal) (key : JsString) : JsVal :=
  (objGet o key).getD .undefined

/-- The element `xs[i]` of an array literal; `undefined` outside the array. -/
def indexArray (xs : List JsVal) (i : Int) : JsVal :=
  if i < 0 then .undefined else xs.getD i.toNat .undefined

/-- The integer time value of `new Date(t)`: the fraction is cut off. -/
def timeClip (t : ℚ) : Int := if 0 ≤ t then ⌊t⌋ else ⌈t⌉

/-! ## Double-precision arithmetic -/

/-- The integer nearest to `q`; of two nearest integers the even one. -/
def roundHalfEven (q : ℚ) : Int :=
  if q - ⌊q⌋ < 1 / 2 then ⌊q⌋
  else if 1 / 2 < q - ⌊q⌋ then ⌊q⌋ + 1
  else if ⌊q⌋ % 2 = 0 then ⌊q⌋ else ⌊q⌋ + 1

/-- The double nearest to the real number `x` (IEEE 754 binary64, round to
nearest, ties to even), for `x` below the overflow threshold: a multiple of
`2^(e - 52)` where `2^e <= |x| < 2^(e + 1)`, and of `2^-1074` for `|x|` below
`2^-1022`; of two nearest multiples the even one. The result of an arithmetic
operation on numbers is the double nearest to the exact result. -/
def toDouble (x : ℚ) : ℚ :=
  (roundHalfEven (x / 2 ^ (max (Int.log 2 |x|) (-1022) - 52)) : ℚ) *
    2 ^ (max (Int.log 2 |x|) (-1022) - 52)

/-- The rational number is the value of a double. -/
def IsDouble (x : ℚ) : Prop := toDouble x = x

/-- The product `a * b` of two numbers. -/
def mulDouble (a b : ℚ) : ℚ := toDouble (a * b)

/-- The difference `a - b` of two numbers. -/
def subDouble (a b : ℚ) : ℚ := toDouble (a - b)

/-- The values of the calls of `Math.random()` of one enrichment, in the order
of the properties they feed. Each is a double `r` with `0 <= r < 1`; every
product and difference with them is rounded to a double. -/
structure Draws where
  createdAt : ℚ
  updatedAt : ℚ
  status : ℚ
  views : ℚ
  likes : ℚ
  tags : ℚ

/-- The expression `v || fallback`. -/
def orElse (v fallback : JsVal) : JsVal := if v.truthy then v else fallback

/-! ## Data enrichment and the resource client (`src/api/api.js`) -/

namespace api

/-- The expression `body?.substring(0, 150) + '...' || ''`: `undefined` and
`null` stop the optional chain, so the sum is the text `undefined...`; a string
gives its first 150 code units and the dots; any other value has no method
`substring` and the call throws (`none`). The sum is never empty, so the
fallback `''` is never taken. -/
def excerptOf (body : JsVal) : Option JsVal :=
  match body with
  | .undefined => some (orElse (.str (JsVal.toStr .undefined ++ lit "...")) (.str []))
  | .null => some (orElse (.str (JsVal.toStr .undefined ++ lit "...")) (.str []))
  | .str s => some (orElse (.str (s.take 150 ++ lit "...")) (.str []))
  | _ => none

/-- The function `enhancePost` at `Date.now() = now` with the given random
draws; `none` is a thrown `TypeError`. -/
def enhancePost (env : Builtins) (now : Int) (r : Draws) (post : JsObject JsVal) :
    Option (JsObject JsVal) :=
  match excerptOf (readProp post (lit "body")) with
  | none => none
  | some excerpt =>
    let o := spreadInto [] post
    let o := defineProp o (lit "createdAt")
      (.str (env.toISOString (timeClip (subDouble now
        (mulDouble (mulDouble (mulDouble (mulDouble (mulDouble r.createdAt 365) 24) 60) 60)
          1000)))))
    let o := defineProp o (lit "updatedAt")
      (.str (env.toISOString (timeClip (subDouble now
        (mulDouble (mulDouble (mulDouble (mulDouble (mulDouble r.updatedAt 30) 24) 60) 60)
          1000)))))
    let o := defineProp o (lit "status")
      (indexArray [.str (lit "published"), .str (lit "draft"), .str (lit "archived")]
        ⌊mulDouble r.status 3⌋)
    let o := defineProp o (lit "views") (.num ⌊mulDouble r.views 10000⌋)
    let o := defineProp o (lit "likes") (.num ⌊mulDouble r.likes 500⌋)
    let o := defineProp o (lit "tags")
      (indexArray [.str (lit "technology"), .str (lit "programming"),
        .str (lit "web development"), .str (lit "react"), .str (lit "javascript"),
        .str (lit "tutorial")] ⌊mulDouble r.tags 6⌋)
    let o := defineProp o (lit "excerpt") excerpt
    let o := defineProp o (lit "author")
      (.obj [(lit "id", readProp post (lit "userId")),
        (lit "name", .str (lit "User " ++ (readProp post (lit "userId")).toStr)),
        (lit "email", .str (lit "user" ++ (readProp post (lit "userId")).toStr ++
          lit "@example.com")),
        (lit "avatar", .str (lit "https://i.pravatar.cc/150?img=" ++
          (readProp post (lit "userId")).toStr))])
    some o

/-- The function `postsAPI.createPost` of `api.js` at `Date.now() = now`: the
record of `{ data: newPost }`; `none` is a thrown `TypeError`. -/
def createPost (env : Builtins) (now : Int) (postData : JsObject JsVal) :
    Option (JsObject JsVal) :=
  match excerptOf (readProp postData (lit "body")) with
  | none => none
  | some excerpt =>
    let o := defineProp [] (lit "id") (.num now)
    let o := spreadInto o postData
    let o := defineProp o (lit "userId") (.num 1)
    let o := defineProp o (lit "createdAt") (.str (env.toISOString now))
    let o := defineProp o (lit "updatedAt") (.str (env.toISOString now))
    let o := defineProp o (lit "status") (.str (lit "published"))
    let o := defineProp o (lit "views") (.num 0)
    let o := defineProp o (lit "likes") (.num 0)
    let o := defineProp o (lit "tags") (orElse (readProp postData (lit "tags")) (.arr []))
    let o := defineProp o (lit "excerpt") excerpt
    let o := defineProp o (lit "author")
      (.obj [(lit "id", .num 1), (lit "name", .str (lit "Current User")),
        (lit "email", .str (lit "user@example.com")),
        (lit "avatar", .str (lit "https://i.pravatar.cc/150?img=1"))])
    some o

end api

/-! ## The resource client with cache (`src/api/jsonPlaceholder.js`) -/

namespace jsonPlaceholder

/-- The expression `post.body.substring(0, 150) + '...'` of `getPosts`: reading
`substring` from `undefined` or `null` throws, as does calling it on a value
that is no string (`none`). -/
def excerptOf (body : JsVal) : Option JsVal :=
  match body with
  | .str s => some (.str (s.take 150 ++ lit "..."))
  | _ => none

/-- The enrichment of one post inside `postsAPI.getPosts` at `Date.now() = now`
with the given random draws; `none` is a thrown `TypeError`. -/
def enhancePost (env : Builtins) (now : Int) (r : Draws) (post : JsObject JsVal) :
    Option (JsObject JsVal) :=
  match excerptOf (readProp post (lit "body")) with
  | none => none
  | some excerpt =>
    let o := spreadInto [] post
    let o := defineProp o (lit "createdAt")
      (.str (env.toISOString (timeClip (subDouble now
        (mulDouble (mulDouble (mulDouble (mulDouble (mulDouble r.createdAt 365) 24) 60) 60)
          1000)))))
    let o := defineProp o (lit "updatedAt")
      (.str (env.toISOString (timeClip (subDouble now
        (mulDouble (mulDouble (mulDouble (mulDouble (mulDouble r.updatedAt 30) 24) 60) 60)
          1000)))))
    let o := defineProp o (lit "status")
      (indexArray [.str (lit "published"), .str (lit "draft"), .str (lit "archived")]
        ⌊mulDouble r.status 3⌋)
    let o := defineProp o (lit "views") (.num ⌊mulDouble r.views 10000⌋)
    let o := defineProp o (lit "likes") (.num ⌊mulDouble r.likes 500⌋)
    let o := defineProp o (lit "tags")
      (indexArray [.str (lit "technology"), .str (lit "programming"),
        .str (lit "web development"), .str (lit "react"), .str (lit "javascript"),
        .str (lit "tutorial")] ⌊mulDouble r.tags 6⌋)
    let o := defineProp o (lit "excerpt") excerpt
    let o := defineProp o (lit "author")
      (.obj [(lit "id", readProp post (lit "userId")),
        (lit "name", .str (lit "User " ++ (readProp post (lit "userId")).toStr)),
        (lit "email", .str (lit "user" ++ (readProp post (lit "userId")).toStr ++
          lit "@example.com")),
        (lit "avatar", .str (lit "https://i.pravatar.cc/150?img=" ++
          (readProp post (lit "userId")).toStr))])
    some o

/-- The expression `body ? body.substring(0, 150) + '...' : ''` of
`createPost`: a falsy body gives the empty string, a non-empty string its first
150 code units and the dots, and any other truthy value throws (`none`). -/
def draftExcerptOf (body : JsVal) : Option JsVal :=
  if body.truthy then
    match body with
    | .str s => some (.str (s.take 150 ++ lit "..."))
    | _ => none
  else some (.str [])

/-- The function `postsAPI.createPost` of `jsonPlaceholder.js` at
`Date.now() = now`: the record of `{ data: newPost }` and the cache after
`invalidateCache('/posts')`; `none` is a thrown `TypeError`, which leaves the
cache as it was. -/
def createPost {α : Type} (env : Builtins) (now : Int) (postData : JsObject JsVal)
    (cache : Cache α) : Option (JsObject JsVal × Cache α) :=
  match draftExcerptOf (readProp postData (lit "body")) with
  | none => none
  | some excerpt =>
    let o := defineProp [] (lit "id") (.num now)
    let o := spreadInto o postData
    let o := defineProp o (lit "userId") (.num 1)
    let o := defineProp o (lit "createdAt") (.str (env.toISOString now))
    let o := defineProp o (lit "updatedAt") (.str (env.toISOString now))
    let o := defineProp o (lit "status") (.str (lit "published"))
    let o := defineProp o (lit "views") (.num 0)
    let o := defineProp o (lit "likes") (.num 0)
    let o := defineProp o (lit "tags") (orElse (readProp postData (lit "tags")) (.arr []))
    let o := defineProp o (lit "excerpt") excerpt
    let o := defineProp o (lit "author")
      (.obj [(lit "id", .num 1), (lit "name", .str (lit "Current User")),
        (lit "email", .str (lit "user@example.com")),
        (lit "avatar", .str (lit "https://i.pravatar.cc/150?img=1"))])
    some (o, invalidateCache (some (lit "/posts")) cache)

end jsonPlaceholder

/-- The entry the store holds for a record with a numeric id and string title
and body; the record itself is kept whole. -/
def entryOfRecord (record : JsObject JsVal) : Option (Entry (JsObject JsVal)) :=
  match readProp record (lit "id"), readProp record (lit "title"),
      readProp record (lit "body") with
  | .num id, .str title, .str body =>
    some { id := id, title := title, body := body, rest := record }
  | _, _, _ => none

/-- A raw post as the mock service returns it. -/
def samplePost : JsObject JsVal :=
  [(lit "userId", .num 3), (lit "id", .num 7), (lit "title", .str (lit "Hello")),
    (lit "body", .str (lit "A short body"))]

/-- The draft of the scenario: title `T`, body `B`, and fields of its own for
status, views and likes. -/
def sampleDraft : JsObject JsVal :=
  [(lit "title", .str (lit "T")), (lit "body", .str (lit "B")),
    (lit "status", .str (lit "draft")), (lit "views", .num 99), (lit "likes", .num 5)]

/-- Random draws for the concrete inputs: the doubles 0.5, 0.25,
0.6666666666666666 (the double nearest to 2/3), 0.125, 0 and 0.999 (the double
nearest to 999/1000). -/
def sampleDraws : Draws :=
  { createdAt := 1 / 2, updatedAt := 1 / 4,
    status := 6004799503160661 / 9007199254740992, views := 1 / 8, likes := 0,
    tags := 8998192055486251 / 9007199254740992 }

/-- The record keeps the title and the body of the draft and has `views = 0`,
`likes = 0` and `status = "published"`. -/
def IsCreatedFrom (draft record : JsObject JsVal) : Prop :=
  objGet record (lit "title") = objGet draft (lit "title") ∧
  objGet record (lit "body") = objGet draft (lit "body") ∧
  objGet record (lit "views") = some (.num 0) ∧
  objGet record (lit "likes") = some (.num 0) ∧
  objGet record (lit "status") = some (.str (lit "published"))


/-! ## Updating a post (`src/api/api.js`, `src/features/entries/entriesSlice.js`) -/

/-- The rest pattern `{ key, ...rest }`: the own properties of the object other
than `key`. -/
def objWithout (o : JsObject JsVal) (key : JsString) : JsObject JsVal :=
  o.filter (fun e => !(e.1 == key))

namespace api

/-- The function `postsAPI.updatePost` of `api.js` at `Date.now() = now`: the
record of `{ data: { id, ...postData, updatedAt } }`. -/
def updatePost (env : Builtins) (now : Int) (id : JsVal) (postData : JsObject JsVal) :
    JsObject JsVal :=
  let o := defineProp [] (lit "id") id
  let o := spreadInto o postData
  defineProp o (lit "updatedAt") (.str (env.toISOString now))

end api

/-- The payload creator of the thunk `updateEntry` on the argument
`{ id, ...entryData }`: the record `postsAPI.updatePost(id, entryData)` returns,
which is the payload of `updateEntry.fulfilled`. -/
def updateEntry (env : Builtins) (now : Int) (arg : JsObject JsVal) : JsObject JsVal :=
  api.updatePost env now (readProp arg (lit "id")) (objWithout arg (lit "id"))

/-- The argument `{ id: id, ...patch }` the pages pass to `updateEntry`. -/
def updateArgument (id : JsVal) (patch : JsObject JsVal) : JsObject JsVal :=
  spreadInto (defineProp [] (lit "id") id) patch

/-- The comparison `a === b` on primitive values; two objects or arrays made by
different literals are never the same. -/
def strictEq : JsVal → JsVal → Bool
  | .undefined, .undefined => true
  | .null, .null => true
  | .bool a, .bool b => a == b
  | .num a, .num b => a == b
  | .str a, .str b => a == b
  | _, _ => false

/-- The case `updateEntry.fulfilled` on the items as the records the store
holds: the first item whose `id` is strictly equal to the `id` of the payload is
replaced by the payload; without such an item nothing changes. The reducer
`updateEntryFulfilled` above is this case on entries with a numeric id. -/
def updateEntryFulfilledRecords (items : List (JsObject JsVal)) (payload : JsObject JsVal) :
    List (JsObject JsVal) :=
  match items.findIdx?
      (fun item => strictEq (readProp item (lit "id")) (readProp payload (lit "id"))) with
  | some index => items.set index payload
  | none => items

/-! ## Messages for HTTP errors (`src/api/jsonPlaceholder.js`) -/

/-- The function `getErrorMessage`: a `switch` over the status. -/
def getErrorMessage (status : Int) : JsString :=
  if status = 400 then lit "Bad request - please check your input"
  else if status = 401 then lit "Unauthorized - please log in again"
  else if status = 403 then
    lit "Forbidden - you do not have permission to perform this action"
  else if status = 404 then lit "Resource not found"
  else if status = 429 then lit "Too many requests - please try again later"
  else if status = 500 then lit "Server error - please try again later"
  else if status = 502 then lit "Bad gateway - service temporarily unavailable"
  else if status = 503 then lit "Service unavailable - please try again later"
  else lit "An error occurred"

/-- The value the response interceptor gives to `new Error(..)` for a response
with the given status whose body has the given `message` property:
`error.response.data?.message || getErrorMessage(status)`. -/
def responseErrorMessage (dataMessage : JsVal) (status : Int) : JsVal :=
  orElse dataMessage (.str (getErrorMessage status))

/-! ## Notifications (`src/features/notifications/notificationsSlice.js`) -/

/-- The properties a spread `...v` copies: those of an object, the elements of
an array and the code units of a string under their indices, and none of any
other value. -/
def spreadSource : JsVal → JsObject JsVal
  | .obj fields => fields
  | .arr items => items.enum.map (fun e => (natToString e.1, e.2))
  | .str s => s.enum.map (fun e => (natToString e.1, JsVal.str [e.2]))
  | _ => []

/-- What one of the four thunks does when it is dispatched: the payload of the
action `addNotification` it dispatches, and the timer it starts, which
dispatches `removeNotification(removeId)` after `delay` milliseconds. -/
structure Shown where
  payload : JsObject JsVal
  removeId : JsVal
  delay : Int

/-- The common body of the four action creators at `Date.now() = now`, with the
type a creator falls back to and the delay it passes to `setTimeout`. Reading
`message` from `undefined` or `null` throws (`none`). -/
def showNotification (defaultType : JsString) (delay : Int) (notification : JsVal)
    (now : Int) : Option Shown :=
  match notification with
  | .undefined => none
  | .null => none
  | .str s =>
    let o := defineProp [] (lit "id") (.num now)
    let o := defineProp o (lit "type") (.str defaultType)
    let o := defineProp o (lit "message") (.str s)
    some { payload := spreadInto o (spreadSource (.str s)), removeId := .num now,
           delay := delay }
  | v =>
    let o := defineProp [] (lit "id") (.num now)
    let o := defineProp o (lit "type") (orElse (v.prop (lit "type")) (.str defaultType))
    let o := defineProp o (lit "message") (v.prop (lit "message"))
    some { payload := spreadInto o (spreadSource v), removeId := .num now, delay := delay }

/-- The action creator `showSuccessNotification`. -/
def showSuccessNotification (notification : JsVal) (now : Int) : Option Shown :=
  showNotification (lit "success") 5000 notification now

/-- The action creator `showErrorNotification`. -/
def showErrorNotification (notification : JsVal) (now : Int) : Option Shown :=
  showNotification (lit "error") 7000 notification now

/-- The action creator `showInfoNotification`. -/
def showInfoNotification (notification : JsVal) (now : Int) : Option Shown :=
  showNotification (lit "info") 5000 notification now

/-- The action creator `showWarningNotification`. -/
def showWarningNotification (notification : JsVal) (now : Int) : Option Shown :=
  showNotification (lit "warning") 6000 notification now

/-- The reducer `addNotification` at `Date.now() = now`, on the list
`state.notifications`. -/
def addNotification (env : Builtins) (now : Int) (notifications : List (JsObject JsVal))
    (payload : JsObject JsVal) : List (JsObject JsVal) :=
  let o := defineProp [] (lit "id") (.num now)
  let o := defineProp o (lit "timestamp") (.str (env.toISOString now))
  notifications ++ [spreadInto o payload]

/-- The reducer `removeNotification`. -/
def removeNotification (notifications : List (JsObject JsVal)) (payload : JsVal) :
    List (JsObject JsVal) :=
  notifications.filter (fun notification => !strictEq (readProp notification (lit "id")) payload)

namespace useNotifications

/-- The callback `showSuccess` of the hook `useNotifications`. -/
def showSuccess (message : JsVal) (now : Int) : Option Shown :=
  showSuccessNotification (.obj [(lit "type", .str (lit "success")), (lit "message", message)]) now

/-- The callback `showError` of the hook. -/
def showError (message : JsVal) (now : Int) : Option Shown :=
  showErrorNotification (.obj [(lit "type", .str (lit "error")), (lit "message", message)]) now

/-- The callback `showInfo` of the hook; it dispatches `showSuccessNotification`. -/
def showInfo (message : JsVal) (now : Int) : Option Shown :=
  showSuccessNotification (.obj [(lit "type", .str (lit "info")), (lit "message", message)]) now

/-- The callback `showWarning` of the hook; it dispatches
`showSuccessNotification`. -/
def showWarning (message : JsVal) (now : Int) : Option Shown :=
  showSuccessNotification (.obj [(lit "type", .str (lit "warning")), (lit "message", message)]) now

end useNotifications

/-- The notification argument has no property `id` of its own to spread: it is
a string, or an object without the key `id`. -/
def HasNoOwnId : JsVal → Prop
  | .str _ => True
  | .obj fields => objGet fields (lit "id") = none
  | _ => False

/-- The timer removes what was added: the notification `addNotification`
appends for the payload has the id the timer passes to `removeNotification`,
and that removal takes it out of the list again. -/
def RemovesAdded (env : Builtins) (added : Int) (notifications : List (JsObject JsVal))
    (shown : Shown) : Prop :=
  ∃ n, addNotification env added notifications shown.payload = notifications ++ [n] ∧
    readProp n (lit "id") = shown.removeId ∧
    removeNotification (notifications ++ [n]) shown.removeId =
      removeNotification notifications shown.removeId

/-! ## Validation of a password (`src/utils/validators.js`) -/

/-- The result object `{ isValid, message }`. -/
structure ValidationResult where
  isValid : Bool
  message : JsString
deriving DecidableEq, Repr

/-- The function `validatePassword` on a string; the empty string is falsy. -/
def validatePassword (password : JsString) : ValidationResult :=
  if password.isEmpty then
    { isValid := false, message := lit "Password is required" }
  else if password.length < 6 then
    { isValid := false, message := lit "Password must be at least 6 characters long" }
  else if password.length > 128 then
    { isValid := false, message := lit "Password must be less than 128 characters" }
  else { isValid := true, message := lit "Password is valid" }

/-! ## Relative time (`src/utils/formatDate.js`) -/

/-- The argument of `formatRelativeTime` as the function tells its cases apart:
a falsy value; a value that is no valid date (a string `new Date` cannot read,
an invalid `Date`, any other truthy value); a `Date` or date string with the
given time value in milliseconds. -/
inductive DateArg where
  | missing
  | invalid
  | valid (time : Int)

/-- The text `n unit(s) ago` of the template literals. -/
def agoText (n : Int) (unit : JsString) : JsString :=
  numberToString n ++ lit " " ++ unit ++ (if n = 1 then [] else lit "s") ++ lit " ago"

/-- The function `formatRelativeTime` at `new Date() = now`; `Math.floor` of a
quotient by a positive constant is the floor division of integers. -/
def formatRelativeTime (date : DateArg) (now : Int) : JsString :=
  match date with
  | .missing => lit "No date"
  | .invalid => lit "Invalid Date"
  | .valid time =>
    let diffInSeconds := (now - time).fdiv 1000
    if diffInSeconds < 60 then lit "Just now"
    else
      let diffInMinutes := diffInSeconds.fdiv 60
      if diffInMinutes < 60 then agoText diffInMinutes (lit "minute")
      else
        let diffInHours := diffInMinutes.fdiv 60
        if diffInHours < 24 then agoText diffInHours (lit "hour")
        else
          let diffInDays := diffInHours.fdiv 24
          if diffInDays < 7 then agoText diffInDays (lit "day")
          else
            let diffInWeeks := diffInDays.fdiv 7
            if diffInWeeks < 4 then agoText diffInWeeks (lit "week")
            else
              let diffInMonths := diffInDays.fdiv 30
              if diffInMonths < 12 then agoText diffInMonths (lit "month")
              else agoText (diffInDays.fdiv 365) (lit "year")

/-! ## The table hook (`src/hooks/useTable.js`) -/

/-- The memo `filteredData` of `useTable`: with a falsy search term the data
itself, else the items one of whose search fields holds a truthy value whose
text contains the term, both in lower case. -/
def filteredData (toLowerCase : JsString → JsString) (searchFields : List JsString)
    (data : List (JsObject JsVal)) (searchTerm : JsString) : List (JsObject JsVal) :=
  if searchTerm.isEmpty then data
  else data.filter (fun item => searchFields.any (fun field =>
    (readProp item field).truthy &&
      includes (toLowerCase (readProp item field).toStr) (toLowerCase searchTerm)))

/-! ## Concrete inputs for the later sections -/

/-- An enriched entry with id 7, as the store holds it after loading. -/
def enrichedRecord : JsObject JsVal :=
  [(lit "userId", .num 3), (lit "id", .num 7), (lit "title", .str (lit "Hello")),
    (lit "body", .str (lit "A short body")), (lit "createdAt", .str (lit "100")),
    (lit "updatedAt", .str (lit "200")), (lit "status", .str (lit "draft")),
    (lit "views", .num 12), (lit "likes", .num 3)]

/-- The argument the edit form passes to `updateEntry` for entry 7. -/
def sampleUpdate : JsObject JsVal :=
  [(lit "id", .num 7), (lit "title", .str (lit "New title")),
    (lit "body", .str (lit "New body"))]

/-- The record of entry 1: an empty title. -/
def recordOne : JsObject JsVal :=
  [(lit "id", .num 1), (lit "title", .str []), (lit "body", .str (lit "b"))]

/-- The record of entry 9: the body says hello. -/
def recordNine : JsObject JsVal :=
  [(lit "id", .num 9), (lit "title", .str (lit "c")), (lit "body", .str (lit "say hello"))]

/-- A patch that changes the status only; it has no title and no body. -/
def statusPatch : JsObject JsVal := [(lit "status", .str (lit "archived"))]

/-- A state of the entries slice that holds the enriched entry 7 between two
other entries. -/
def storeWithSeven : EntriesState (JsObject JsVal) :=
  { (initialState : EntriesState (JsObject JsVal)) with
    items := [{ id := 1, title := [], body := lit "b", rest := recordOne },
      { id := 7, title := lit "Hello", body := lit "A short body", rest := enrichedRecord },
      { id := 9, title := lit "c", body := lit "say hello", rest := recordNine }] }

/-- The same state with the search term `HELLO`. -/
def searchState : EntriesState (JsObject JsVal) :=
  { storeWithSeven with searchTerm := lit "HELLO" }

/-- The session of the demo administrator. -/
def adminSession : Session :=
  { user := adminUser, token := lit "token" }

/-! ## Strings: `includes` is the substring relation -/

theorem startsWith_iff (s p : JsString) : startsWith s p = true ↔ ∃ t, s = p ++ t := by
  induction p generalizing s with
  | nil => simp [startsWith]
  | cons d p ih =>
    cases s with
    | nil => simp [startsWith]
    | cons c s =>
      simp only [startsWith, Bool.and_eq_true, beq_iff_eq, ih, List.cons_append, List.cons.injEq]
      constructor
      · rintro ⟨h, t, ht⟩
        exact ⟨t, h, ht⟩
      · rintro ⟨t, h, ht⟩
        exact ⟨h, t, ht⟩

theorem includes_iff (s p : JsString) :
    includes s p = true ↔ ∃ front back, s = front ++ p ++ back := by
  induction s with
  | nil =>
    simp only [includes, startsWith_iff]
    constructor
    · rintro ⟨t, h⟩
      exact ⟨[], t, by simpa using h⟩
    · rintro ⟨front, back, h⟩
      have h2 : front ++ p ++ back = [] := h.symm
      simp only [List.append_eq_nil] at h2
      exact ⟨[], by simp [h2.1.2]⟩
  | cons c s ih =>
    simp only [includes, Bool.or_eq_true, startsWith_iff, ih]
    constructor
    · rintro (⟨t, h⟩ | ⟨front, back, h⟩)
      · exact ⟨[], t, by simpa using h⟩
      · exact ⟨c :: front, back, by simp [h]⟩
    · rintro ⟨front, back, h⟩
      cases front with
      | nil => exact Or.inl ⟨back, by simpa using h⟩
      | cons a front =>
        simp only [List.cons_append, List.cons.injEq] at h
        exact Or.inr ⟨front, back, by simpa using h.2⟩

theorem includes_nil (s : JsString) : includes s [] = true :=
  (includes_iff s []).2 ⟨[], s, rfl⟩

/-! ## The `Map` operations -/

namespace JsMap

variable {β : Type}

theorem get_cons (e : JsString × β) (m : JsMap β) (key : JsString) :
    get (e :: m) key = if e.1 = key then some e.2 else get m key := by
  unfold get
  by_cases h : e.1 = key <;> simp [List.find?_cons, h]

theorem get_eq_none_of_has_false (m : JsMap β) (key : JsString) (h : m.has key = false) :
    m.get key = none := by
  induction m with
  | nil => rfl
  | cons e m ih =>
    simp only [has, List.any_cons, Bool.or_eq_false_iff, beq_eq_false_iff_ne, ne_eq] at h
    rw [get_cons, if_neg h.1]
    exact ih h.2

theorem get_map_update (m : JsMap β) (key k : JsString) (value : β) :
    get (m.map (fun e => if e.1 == key then (key, value) else e)) k =
      if k = key then (if m.has key then some value else none) else get m k := by
  induction m with
  | nil => simp [get, has]
  | cons e m ih =>
    rw [List.map_cons, get_cons, get_cons, ih]
    by_cases he : e.1 = key
    · by_cases hk : k = key
      · simp [he, hk, has]
      · have hk2 : ¬ key = k := fun h => hk h.symm
        simp [he, hk, hk2]
    · by_cases hk : k = key
      · subst hk
        have hb : (e.1 == k) = false := by simpa using he
        simp only [has, List.any_cons, hb, Bool.false_or, if_true, if_false, Bool.false_eq_true]
        rw [if_neg he]
      · simp [he, hk]

theorem get_append_single (m : JsMap β) (key k : JsString) (value : β) :
    get (m ++ [(key, value)]) k =
      match get m k with
      | some v => some v
      | none => if key = k then some value else none := by
  induction m with
  | nil => simp [get, List.find?_cons]; split <;> simp_all
  | cons e m ih =>
    rw [List.cons_append, get_cons, get_cons, ih]
    by_cases he : e.1 = k <;> simp [he]

theorem get_set_self (m : JsMap β) (key : JsString) (value : β) :
    (m.set key value).get key = some value := by
  unfold set
  by_cases h : m.has key = true
  · rw [if_pos h, get_map_update]
    simp [h]
  · rw [if_neg h, get_append_single, get_eq_none_of_has_false m key (by simpa using h)]
    simp

theorem get_set_of_ne (m : JsMap β) {key other : JsString} (value : β) (h : other ≠ key) :
    (m.set other value).get key = m.get key := by
  unfold set
  have h2 : ¬ key = other := fun e => h e.symm
  by_cases hh : m.has other = true
  · rw [if_pos hh, get_map_update, if_neg h2]
  · rw [if_neg hh, get_append_single]
    cases hg : get m key <;> simp [h]

theorem get_filter_keys (m : JsMap β) (q : JsString → Bool) (key : JsString) :
    get (m.filter (fun e => q e.1)) key = if q key then get m key else none := by
  induction m with
  | nil => simp [get]
  | cons e m ih =>
    by_cases hq : q e.1 = true
    · rw [List.filter_cons_of_pos (by simpa using hq), get_cons, get_cons, ih]
      by_cases he : e.1 = key
      · subst he
        simp [hq]
      · simp [he]
    · rw [List.filter_cons_of_neg (by simpa using hq), get_cons, ih]
      by_cases he : e.1 = key
      · subst he
        simp [hq]
      · simp [he]

theorem get_delete_self (m : JsMap β) (key : JsString) : (m.delete key).get key = none := by
  unfold delete
  rw [get_filter_keys m (fun k => !(k == key)) key]
  simp

theorem get_delete_of_ne (m : JsMap β) {key other : JsString} (h : other ≠ key) :
    (m.delete other).get key = m.get key := by
  unfold delete
  rw [get_filter_keys m (fun k => !(k == other)) key]
  have : (key == other) = false := by simpa using (Ne.symm h)
  simp [this]

theorem delete_eq_self_of_get_none (m : JsMap β) (key : JsString) (h : m.get key = none) :
    m.delete key = m := by
  induction m with
  | nil => rfl
  | cons e m ih =>
    rw [get_cons] at h
    by_cases he : e.1 = key
    · simp [he] at h
    · simp only [he, if_false] at h
      unfold delete at ih ⊢
      rw [List.filter_cons_of_pos (by simpa using he), ih h]

end JsMap

/-! ## The response cache -/

namespace JsMap

variable {β : Type}

theorem keys_map_update (m : JsMap β) (key : JsString) (value : β) :
    (m.map (fun e => if e.1 == key then (key, value) else e)).map Prod.fst = m.map Prod.fst := by
  induction m with
  | nil => rfl
  | cons e m ih =>
    rw [List.map_cons, List.map_cons, List.map_cons, ih]
    by_cases he : e.1 = key <;> simp [he]

theorem wf_set (m : JsMap β) (key : JsString) (value : β) (h : m.WF) : (m.set key value).WF := by
  unfold set WF
  by_cases hh : m.has key = true
  · rw [if_pos hh, keys_map_update]
    exact h
  · rw [if_neg hh, List.map_append]
    have hk : key ∉ m.map Prod.fst := by
      intro hmem
      apply hh
      obtain ⟨e, he, hek⟩ := List.mem_map.1 hmem
      exact List.any_eq_true.2 ⟨e, he, by simpa using hek⟩
    simpa [List.nodup_append, WF] using And.intro h hk

theorem delete_set (m : JsMap β) (key : JsString) (value : β) :
    (m.set key value).delete key = m.delete key := by
  unfold set delete
  by_cases hh : m.has key = true
  · rw [if_pos hh]
    clear hh
    induction m with
    | nil => rfl
    | cons e m ih =>
      by_cases he : e.1 = key
      · simpa [he] using ih
      · simpa [he] using ih
  · rw [if_neg hh]
    simp

end JsMap

theorem foldl_delete_eq_filter {α : Type} (pat : JsString) (ks : List JsString) (m : Cache α) :
    ks.foldl (fun acc key => if includes key pat then acc.delete key else acc) m =
      m.filter (fun e => !(ks.any (fun k => k == e.1 && includes k pat))) := by
  induction ks generalizing m with
  | nil => simp
  | cons k ks ih =>
    rw [List.foldl_cons, ih]
    by_cases hk : includes k pat = true
    · rw [if_pos hk]
      unfold JsMap.delete
      rw [List.filter_filter]
      apply List.filter_congr
      intro e _
      by_cases hek : e.1 = k
      · subst hek
        simp [hk]
      · have h1 : (e.1 == k) = false := by simpa using hek
        have h2 : (k == e.1) = false := by simpa using fun h : k = e.1 => hek h.symm
        simp only [List.any_cons, h1, h2, Bool.false_and, Bool.false_or, Bool.not_false,
          Bool.and_true]
    · rw [if_neg hk]
      apply List.filter_congr
      intro e _
      have hk2 : includes k pat = false := by simpa using hk
      simp [hk2]

theorem invalidateCache_cons {α : Type} (c : Nat) (p : JsString) (cache : Cache α) :
    invalidateCache (some (c :: p)) cache =
      cache.filter (fun e => !includes e.1 (c :: p)) := by
  unfold invalidateCache
  simp only []
  rw [foldl_delete_eq_filter]
  apply List.filter_congr
  intro e he
  congr 1
  by_cases hi : includes e.1 (c :: p) = true
  · rw [hi]
    exact List.any_eq_true.2 ⟨e.1, List.mem_map_of_mem _ he, by simp [hi]⟩
  · have hi2 : includes e.1 (c :: p) = false := by simpa using hi
    rw [hi2]
    apply Bool.eq_false_iff.2
    intro hany
    obtain ⟨k, _, hk⟩ := List.any_eq_true.1 hany
    simp only [Bool.and_eq_true, beq_iff_eq] at hk
    rw [hk.1, hi2] at hk
    exact Bool.false_ne_true hk.2

theorem invalidateCache_some {α : Type} (s : JsString) (cache : Cache α) :
    invalidateCache (some s) cache = cache.filter (fun e => !includes e.1 s) := by
  cases s with
  | nil => simp [invalidateCache, JsMap.clear, includes_nil]
  | cons c p => exact invalidateCache_cons c p cache

theorem run_keeps_entry {α : Type} (key : JsString) (t0 : Int) (entry : CacheEntry α)
    (ht : entry.timestamp = t0) (op : CacheOp α) (cache : Cache α)
    (hop : op.keeps key t0) (h : cache.get key = some entry) :
    (op.run cache).get key = some entry := by
  cases op with
  | set k data now =>
    simp only [CacheOp.keeps] at hop
    simp only [CacheOp.run, setCachedData]
    rw [JsMap.get_set_of_ne _ _ hop]
    exact h
  | get k now =>
    simp only [CacheOp.keeps] at hop
    simp only [CacheOp.run, getCachedData]
    by_cases hk : k = key
    · subst hk
      rw [h]
      simp only [ht, hop rfl, if_true]
      exact h
    · cases hg : cache.get k with
      | none =>
        simp only []
        rw [JsMap.get_delete_of_ne _ hk]
        exact h
      | some cached =>
        simp only []
        split
        · exact h
        · simp only []
          rw [JsMap.get_delete_of_ne _ hk]
          exact h
  | invalidate pattern =>
    match pattern, hop with
    | some (c :: p), hop =>
      simp only [CacheOp.keeps] at hop
      simp only [CacheOp.run]
      rw [invalidateCache_cons, JsMap.get_filter_keys cache (fun k => !includes k (c :: p)) key]
      simp [hop, h]

theorem foldl_run_keeps_entry {α : Type} (key : JsString) (t0 : Int) (entry : CacheEntry α)
    (ht : entry.timestamp = t0) (ops : List (CacheOp α)) (cache : Cache α)
    (hops : ∀ op ∈ ops, op.keeps key t0) (h : cache.get key = some entry) :
    (ops.foldl (fun c op => op.run c) cache).get key = some entry := by
  induction ops generalizing cache with
  | nil => exact h
  | cons op ops ih =>
    rw [List.foldl_cons]
    apply ih
    · intro o ho
      exact hops o (List.mem_cons_of_mem _ ho)
    · exact run_keeps_entry key t0 entry ht op cache (hops op (List.mem_cons_self _ _)) h

/-- C1. After `setCachedData(k, p)` at time `t0` the cache holds `p` with
timestamp `t0` under `k`, the other entries are the prior ones and the keys stay
unique; and after any calls that are no `set` on `k` and no invalidation
reaching `k`, `getCachedData(k)` at a time `t` with `t - t0 < 300000` returns
exactly `p` and leaves the cache as it was. -/
theorem getCachedData_after_setCachedData {α : Type} (cache : Cache α) (k : JsString)
    (p : α) (t0 t : Int) (ops : List (CacheOp α))
    (hfresh : t - t0 < 300000) (hops : ∀ op ∈ ops, op.keeps k t0) :
    (setCachedData k p t0 cache).get k = some { data := p, timestamp := t0 } ∧
    (setCachedData k p t0 cache).delete k = cache.delete k ∧
    (cache.WF → (setCachedData k p t0 cache).WF) ∧
    getCachedData k t (ops.foldl (fun c op => op.run c) (setCachedData k p t0 cache)) =
      (some p, ops.foldl (fun c op => op.run c) (setCachedData k p t0 cache)) := by
  have hset : (setCachedData k p t0 cache).get k = some { data := p, timestamp := t0 } :=
    JsMap.get_set_self cache k _
  refine ⟨hset, JsMap.delete_set cache k _, JsMap.wf_set cache k _, ?_⟩
  have hget := foldl_run_keeps_entry k t0 { data := p, timestamp := t0 } rfl ops _ hops hset
  unfold getCachedData
  rw [hget]
  have : t - t0 < CACHE_DURATION := by
    unfold CACHE_DURATION
    omega
  simp [this]

/-- C2. A read of `k` at a time `t` at which the entry of `k`, if there is one,
is at least 300000 ms old returns `null`; afterwards the cache has no entry for
`k` and every other entry is where and what it was. -/
theorem getCachedData_expired {α : Type} (cache : Cache α) (k : JsString) (t : Int)
    (hold : ∀ entry, cache.get k = some entry → 300000 ≤ t - entry.timestamp) :
    (getCachedData k t cache).1 = none ∧
    (getCachedData k t cache).2.get k = none ∧
    (getCachedData k t cache).2 = cache.filter (fun e => !(e.1 == k)) ∧
    ∀ other, other ≠ k → (getCachedData k t cache).2.get other = cache.get other := by
  have hres : getCachedData k t cache = (none, cache.delete k) := by
    unfold getCachedData
    cases hg : cache.get k with
    | none => rfl
    | some cached =>
      have := hold cached hg
      have hn : ¬ t - cached.timestamp < CACHE_DURATION := by
        unfold CACHE_DURATION
        omega
      simp [hn]
  rw [hres]
  refine ⟨rfl, JsMap.get_delete_self cache k, rfl, ?_⟩
  intro other hne
  exact JsMap.get_delete_of_ne cache (Ne.symm hne)

/-- C3. After `invalidateCache(s)` the cache is the prior cache without the
entries whose key contains `s`, the kept entries unchanged and in order; a
call without argument empties the cache. -/
theorem invalidateCache_spec {α : Type} (cache : Cache α) :
    (∀ s : JsString,
      invalidateCache (some s) cache = cache.filter (fun e => !includes e.1 s) ∧
      ∀ e, e ∈ invalidateCache (some s) cache ↔
        e ∈ cache ∧ ¬ ∃ front back, e.1 = front ++ s ++ back) ∧
    invalidateCache none cache = [] := by
  refine ⟨fun s => ⟨invalidateCache_some s cache, fun e => ?_⟩, rfl⟩
  rw [invalidateCache_some, List.mem_filter, ← includes_iff]
  simp

/-- Witness for C1: the posts list is stored at 1000 ms next to the users list,
the users list is read and rewritten, and the posts list is read 299999 ms
after it was stored. -/
theorem getCachedData_after_setCachedData_witness :
    ((300999 : Int) - 1000 < 300000) ∧
    getCachedData (lit "/posts?\x7b\x7d") 300999
        ([CacheOp.get (lit "/users?\x7b\x7d") 2000,
          CacheOp.set (lit "/users?\x7b\x7d") 5 3000].foldl (fun c op => op.run c)
          (setCachedData (lit "/posts?\x7b\x7d") 42 1000
            [(lit "/users?\x7b\x7d", { data := 7, timestamp := 0 })])) =
      (some 42,
        [(lit "/users?\x7b\x7d", { data := 5, timestamp := 3000 }),
         (lit "/posts?\x7b\x7d", { data := 42, timestamp := 1000 })]) :=
  ⟨by decide,
   (getCachedData_after_setCachedData
      [(lit "/users?\x7b\x7d", { data := 7, timestamp := 0 })] (lit "/posts?\x7b\x7d")
      (42 : Nat) 1000 300999
      [CacheOp.get (lit "/users?\x7b\x7d") 2000, CacheOp.set (lit "/users?\x7b\x7d") 5 3000]
      (by decide)
      (by
        intro op hop
        simp only [List.mem_cons, List.mem_singleton, List.not_mem_nil, or_false] at hop
        rcases hop with rfl | rfl
        · simp only [CacheOp.keeps]
          intro h
          exact absurd h (by decide)
        · simp only [CacheOp.keeps]
          decide)).2.2.2.trans (by decide)⟩

/-- Witness for C2: an entry stored at 1000 ms is read exactly 300000 ms later;
it is evicted and the other entry stays. -/
theorem getCachedData_expired_witness :
    getCachedData (lit "/posts?\x7b\x7d") 301000
        ([(lit "/posts?\x7b\x7d", { data := 42, timestamp := 1000 }),
          (lit "/users?\x7b\x7d", { data := 7, timestamp := 2000 })] : Cache Nat) =
      (none, [(lit "/users?\x7b\x7d", { data := 7, timestamp := 2000 })]) := by
  have h := getCachedData_expired
    ([(lit "/posts?\x7b\x7d", { data := 42, timestamp := 1000 }),
      (lit "/users?\x7b\x7d", { data := 7, timestamp := 2000 })] : Cache Nat)
    (lit "/posts?\x7b\x7d") 301000
    (by
      intro entry he
      have hg : JsMap.get
          ([(lit "/posts?\x7b\x7d", { data := 42, timestamp := 1000 }),
            (lit "/users?\x7b\x7d", { data := 7, timestamp := 2000 })] : Cache Nat)
          (lit "/posts?\x7b\x7d") = some { data := 42, timestamp := 1000 } := by decide
      rw [hg] at he
      rw [← Option.some.inj he]
      decide)
  exact Prod.ext h.1 (h.2.2.1.trans (by decide))

/-- Witness for C3: invalidating `"/posts"` removes the posts list entry and
leaves the users list entry untouched. -/
theorem invalidateCache_spec_witness :
    invalidateCache (some (lit "/posts"))
        ([(getCacheKey (fun s => s) (fun n : Nat => some [48 + n]) (lit "/posts") [],
            { data := 42, timestamp := 1000 }),
          (getCacheKey (fun s => s) (fun n : Nat => some [48 + n]) (lit "/users") [],
            { data := 7, timestamp := 2000 })] : Cache Nat) =
      [(lit "/users?\x7b\x7d", { data := 7, timestamp := 2000 })] :=
  ((invalidateCache_spec _).1 (lit "/posts")).1.trans (by decide)

/-! ## The cache key -/

theorem strLe_cons (a b : Nat) (s t : JsString) :
    strLe (a :: s) (b :: t) = true ↔ a < b ∨ (a = b ∧ strLe s t = true) := by
  simp [strLe]

theorem strLe_total (s t : JsString) : strLe s t = true ∨ strLe t s = true := by
  induction s generalizing t with
  | nil => exact Or.inl (by simp [strLe])
  | cons a s ih =>
    cases t with
    | nil => exact Or.inr (by simp [strLe])
    | cons b t =>
      rw [strLe_cons, strLe_cons]
      rcases Nat.lt_trichotomy a b with h | h | h
      · exact Or.inl (Or.inl h)
      · rcases ih t with h2 | h2
        · exact Or.inl (Or.inr ⟨h, h2⟩)
        · exact Or.inr (Or.inr ⟨h.symm, h2⟩)
      · exact Or.inr (Or.inl h)

theorem strLe_antisymm (s t : JsString) (h1 : strLe s t = true) (h2 : strLe t s = true) :
    s = t := by
  induction s generalizing t with
  | nil =>
    cases t with
    | nil => rfl
    | cons b t => simp [strLe] at h2
  | cons a s ih =>
    cases t with
    | nil => simp [strLe] at h1
    | cons b t =>
      rw [strLe_cons] at h1 h2
      rcases h1 with h1 | ⟨h1, h1s⟩
      · rcases h2 with h2 | ⟨h2, _⟩ <;> omega
      · rcases h2 with h2 | ⟨_, h2s⟩
        · omega
        · rw [h1, ih t h1s h2s]

theorem strLe_trans (s t u : JsString) (h1 : strLe s t = true) (h2 : strLe t u = true) :
    strLe s u = true := by
  induction s generalizing t u with
  | nil => simp [strLe]
  | cons a s ih =>
    cases t with
    | nil => simp [strLe] at h1
    | cons b t =>
      cases u with
      | nil => simp [strLe] at h2
      | cons c u =>
        rw [strLe_cons] at h1 h2 ⊢
        rcases h1 with h1 | ⟨h1, h1s⟩
        · rcases h2 with h2 | ⟨h2, _⟩
          · exact Or.inl (by omega)
          · exact Or.inl (by omega)
        · rcases h2 with h2 | ⟨h2, h2s⟩
          · exact Or.inl (by omega)
          · exact Or.inr ⟨by omega, ih t u h1s h2s⟩

theorem ownKeys_perm {V : Type} (o : JsObject V) : (ownKeys o).Perm (o.map Prod.fst) := by
  unfold ownKeys
  refine ((List.perm_insertionSort _ _).append_right _).trans ?_
  exact List.filter_append_perm isArrayIndex (o.map Prod.fst)

theorem sortKeys_ownKeys_eq_of_perm {V : Type} (p1 p2 : JsObject V) (h : p1.Perm p2) :
    sortKeys (ownKeys p1) = sortKeys (ownKeys p2) := by
  haveI : IsTotal JsString (fun a b => strLe a b = true) := ⟨strLe_total⟩
  haveI : IsTrans JsString (fun a b => strLe a b = true) := ⟨strLe_trans⟩
  haveI : IsAntisymm JsString (fun a b => strLe a b = true) := ⟨strLe_antisymm⟩
  unfold sortKeys
  apply List.eq_of_perm_of_sorted _ (List.sorted_insertionSort _ _) (List.sorted_insertionSort _ _)
  exact (List.perm_insertionSort _ _).trans
    (((ownKeys_perm p1).trans ((h.map Prod.fst).trans (ownKeys_perm p2).symm)).trans
      (List.perm_insertionSort _ _).symm)

theorem objGet_cons {V : Type} (e : JsString × V) (o : JsObject V) (key : JsString) :
    objGet (e :: o) key = if e.1 = key then some e.2 else objGet o key := by
  unfold objGet
  by_cases h : e.1 = key <;> simp [List.find?_cons, h]

theorem objGet_eq_some_iff {V : Type} (o : JsObject V) (hkeys : (o.map Prod.fst).Nodup)
    (key : JsString) (v : V) : objGet o key = some v ↔ (key, v) ∈ o := by
  induction o with
  | nil => simp [objGet]
  | cons e o ih =>
    rw [List.map_cons, List.nodup_cons] at hkeys
    rw [objGet_cons, List.mem_cons]
    by_cases he : e.1 = key
    · rw [if_pos he]
      constructor
      · intro h
        left
        rw [← he, ← Option.some.inj h]
      · rintro (h | h)
        · rw [← h]
        · exact absurd (List.mem_map_of_mem Prod.fst h) (by simpa [he] using hkeys.1)
    · rw [if_neg he, ih hkeys.2]
      constructor
      · exact Or.inr
      · rintro (h | h)
        · exact absurd (by rw [← h]) he
        · exact h

theorem objGet_eq_of_perm {V : Type} (p1 p2 : JsObject V) (hkeys : (p1.map Prod.fst).Nodup)
    (h : p1.Perm p2) (key : JsString) : objGet p1 key = objGet p2 key := by
  have hkeys2 : (p2.map Prod.fst).Nodup := (h.map Prod.fst).nodup_iff.1 hkeys
  apply Option.ext
  intro v
  rw [Option.mem_def, Option.mem_def, objGet_eq_some_iff p1 hkeys,
    objGet_eq_some_iff p2 hkeys2]
  exact h.mem_iff

/-- C4. The cache key does not depend on the order in which the properties of
the parameter object were created: two objects with pairwise distinct keys that
hold the same key/value pairs give the same key for every resource path. -/
theorem getCacheKey_order_independent {V : Type} (quote : JsString → JsString)
    (ser : V → Option JsString) (url : JsString) (p1 p2 : JsObject V)
    (hkeys : (p1.map Prod.fst).Nodup) (hperm : p1.Perm p2) :
    getCacheKey quote ser url p1 = getCacheKey quote ser url p2 := by
  unfold getCacheKey
  have hget : objGet p1 = objGet p2 := funext (objGet_eq_of_perm p1 p2 hkeys hperm)
  rw [sortKeys_ownKeys_eq_of_perm p1 p2 hperm, hget]

/-- Witness for C4: `getCacheKey("/posts", {a:1,b:2})` and
`getCacheKey("/posts", {b:2,a:1})` are the same string. -/
theorem getCacheKey_order_independent_witness :
    getCacheKey (fun s => [34] ++ s ++ [34]) (fun n : Nat => some [48 + n]) (lit "/posts")
        [(lit "a", 1), (lit "b", 2)] =
      getCacheKey (fun s => [34] ++ s ++ [34]) (fun n : Nat => some [48 + n]) (lit "/posts")
        [(lit "b", 2), (lit "a", 1)] ∧
    getCacheKey (fun s => [34] ++ s ++ [34]) (fun n : Nat => some [48 + n]) (lit "/posts")
        [(lit "b", 2), (lit "a", 1)] = lit "/posts?\x7b\"a\":1,\"b\":2\x7d" :=
  ⟨getCacheKey_order_independent _ _ _ [(lit "a", 1), (lit "b", 2)] [(lit "b", 2), (lit "a", 1)]
    (by decide) (List.Perm.swap _ _ _), by decide⟩

/-! ## Page count and page slices -/

/-- For a positive divisor the code's `Math.ceil(n / d)` is a finite integer `c`
with `n ≤ c * d` that is below every other such integer. -/
theorem mathCeilDiv_pos (n : Nat) (d : Int) (hd : 0 < d) :
    ∃ c : Int, mathCeilDiv n d = .fin c ∧ (n : Int) ≤ c * d ∧
      ∀ j : Int, (n : Int) ≤ j * d → c ≤ j := by
  refine ⟨-((-(n : Int)) / d), ?_, ?_, ?_⟩
  · unfold mathCeilDiv
    rw [if_neg (ne_of_gt hd), Int.fdiv_eq_ediv _ (le_of_lt hd)]
  · have h := Int.ediv_mul_le (-(n : Int)) (ne_of_gt hd)
    have h2 : -(-(n : Int) / d) * d = -(-(n : Int) / d * d) := by ring
    rw [h2]
    omega
  · intro j hj
    have h : -j ≤ -(n : Int) / d := by
      apply Int.le_ediv_of_mul_le hd
      have h2 : -j * d = -(j * d) := by ring
      rw [h2]
      omega
    omega

/-- An integer `c` that is least with `n ≤ c * d` is the ceiling of the
quotient `n / d`. -/
theorem ceil_eq_of_least (n : Nat) (d c : Int) (hd : 0 < d) (h1 : (n : Int) ≤ c * d)
    (h2 : ∀ j : Int, (n : Int) ≤ j * d → c ≤ j) : ⌈((n : ℚ) / (d : ℚ))⌉ = c := by
  have hdq : (0 : ℚ) < (d : ℚ) := by exact_mod_cast hd
  rw [Int.ceil_eq_iff]
  constructor
  · rw [lt_div_iff₀ hdq]
    have h3 : (c - 1) * d < (n : Int) := by
      by_contra hcon
      have := h2 (c - 1) (not_lt.1 hcon)
      omega
    exact_mod_cast h3
  · rw [div_le_iff₀ hdq]
    exact_mod_cast h1

theorem relativeIndex_natCast (len s : Nat) : relativeIndex len (s : Int) = min s len := by
  unfold relativeIndex
  rw [if_neg (by omega)]
  simp

theorem slice_natCast {α : Type} (xs : List α) (s e : Nat) :
    slice xs (s : Int) (e : Int) = (xs.drop s).take (e - s) := by
  unfold slice
  simp only [relativeIndex_natCast]
  by_cases hs : xs.length ≤ s
  · rw [Nat.min_eq_right hs, List.drop_eq_nil_of_le (le_refl _), List.drop_eq_nil_of_le hs]
    simp
  · have hs2 : s ≤ xs.length := by omega
    rw [Nat.min_eq_left hs2]
    by_cases he : e ≤ xs.length
    · rw [Nat.min_eq_left he]
    · have he2 : xs.length ≤ e := by omega
      rw [Nat.min_eq_right he2, List.take_of_length_le (by simp),
        List.take_of_length_le (by simp; omega)]

/-- The slice of page `i + 1` for page size `p`. -/
theorem slice_page {α : Type} (xs : List α) (i p : Nat) :
    slice xs ((((i : Int) + 1) - 1) * (p : Int)) ((((i : Int) + 1) - 1) * (p : Int) + (p : Int)) =
      (xs.drop (i * p)).take p := by
  have h1 : (((i : Int) + 1) - 1) * (p : Int) = ((i * p : Nat) : Int) := by
    push_cast
    ring
  have h2 : (((i : Int) + 1) - 1) * (p : Int) + (p : Int) = ((i * p + p : Nat) : Int) := by
    push_cast
    ring
  rw [h2, h1, slice_natCast]
  simp

theorem flatten_pages {α : Type} (xs : List α) (p m : Nat) :
    ((List.range m).map (fun i => (xs.drop (i * p)).take p)).flatten = xs.take (m * p) := by
  induction m with
  | zero => simp
  | succ m ih =>
    rw [List.range_succ, List.map_append, List.flatten_append, ih, Nat.succ_mul,
      List.take_add]
    simp

/-- The pages `1 .. m` of a list, for a positive page size `p` with
`length ≤ m * p`, concatenate to the list. -/
theorem flatten_slices {α : Type} (xs : List α) (p m : Nat) (hm : xs.length ≤ m * p) :
    ((List.range m).map (fun i : Nat =>
      slice xs ((((i : Int) + 1) - 1) * (p : Int))
        ((((i : Int) + 1) - 1) * (p : Int) + (p : Int)))).flatten = xs := by
  have h : (fun i : Nat =>
      slice xs ((((i : Int) + 1) - 1) * (p : Int))
        ((((i : Int) + 1) - 1) * (p : Int) + (p : Int))) =
      fun i => (xs.drop (i * p)).take p := funext (fun i => slice_page xs i p)
  rw [h, flatten_pages, List.take_of_length_le hm]

/-- A slice that starts at or after the end of the list is empty. -/
theorem slice_eq_nil_of_le {α : Type} (xs : List α) (start final : Int)
    (h : (xs.length : Int) ≤ start) : slice xs start final = [] := by
  unfold slice
  have hk : relativeIndex xs.length start = xs.length := by
    unfold relativeIndex
    rw [if_neg (by omega)]
    omega
  simp only [hk, List.drop_length, List.take_nil]

/-- C5. For a positive page size the reported page count is a natural number
`m`, the ceiling of `N / P`, and the slices of the pages `1 .. m` concatenate to
the filtered collection itself, so their lengths sum to its length `N`; the
same holds for the slices `paginatedData` of the table hook. -/
theorem selectPaginatedEntries_pages_cover {ρ : Type} (toLowerCase : JsString → JsString)
    (state : EntriesState ρ) (hP : 0 < state.itemsPerPage) :
    ∃ m : Nat,
      (selectPaginatedEntries toLowerCase state).totalPages = .fin m ∧
      (m : Int) = ⌈(((selectFilteredEntries toLowerCase state).length : ℚ) /
        (state.itemsPerPage : ℚ))⌉ ∧
      ((List.range m).map (fun i : Nat =>
          (selectPaginatedEntries toLowerCase
            (setCurrentPage state ((i : Int) + 1))).entries)).flatten =
        selectFilteredEntries toLowerCase state ∧
      ((List.range m).map (fun i : Nat =>
          (selectPaginatedEntries toLowerCase
            (setCurrentPage state ((i : Int) + 1))).entries.length)).sum =
        (selectFilteredEntries toLowerCase state).length ∧
      ((List.range m).map (fun i : Nat =>
          paginatedData (selectFilteredEntries toLowerCase state) ((i : Int) + 1)
            state.itemsPerPage)).flatten =
        selectFilteredEntries toLowerCase state := by
  obtain ⟨c, hc, h1, h2⟩ :=
    mathCeilDiv_pos (selectFilteredEntries toLowerCase state).length state.itemsPerPage hP
  have hceil := ceil_eq_of_least _ _ c hP h1 h2
  have hc0 : 0 ≤ c := by
    by_contra hneg
    have := Int.mul_neg_of_neg_of_pos (not_le.1 hneg) hP
    omega
  obtain ⟨m, rfl⟩ := Int.eq_ofNat_of_zero_le hc0
  obtain ⟨p, hp⟩ := Int.eq_ofNat_of_zero_le (le_of_lt hP)
  have hm : (selectFilteredEntries toLowerCase state).length ≤ m * p := by
    rw [hp] at h1
    exact_mod_cast h1
  have hcover := flatten_slices (selectFilteredEntries toLowerCase state) p m hm
  have hfun : (fun i : Nat =>
      (selectPaginatedEntries toLowerCase (setCurrentPage state ((i : Int) + 1))).entries) =
      fun i : Nat => slice (selectFilteredEntries toLowerCase state)
        ((((i : Int) + 1) - 1) * (p : Int)) ((((i : Int) + 1) - 1) * (p : Int) + (p : Int)) := by
    funext i
    simp only [selectPaginatedEntries, paginateEntries, setCurrentPage, selectFilteredEntries,
      hp]
  have hfun2 : (fun i : Nat =>
      paginatedData (selectFilteredEntries toLowerCase state) ((i : Int) + 1)
        state.itemsPerPage) =
      fun i : Nat => slice (selectFilteredEntries toLowerCase state)
        ((((i : Int) + 1) - 1) * (p : Int)) ((((i : Int) + 1) - 1) * (p : Int) + (p : Int)) := by
    funext i
    simp only [paginatedData, hp]
  refine ⟨m, hc, hceil.symm, ?_, ?_, ?_⟩
  · rw [hfun, hcover]
  · have hlen : (fun i : Nat =>
        (selectPaginatedEntries toLowerCase
          (setCurrentPage state ((i : Int) + 1))).entries.length) =
        List.length ∘ (fun i : Nat =>
          (selectPaginatedEntries toLowerCase
            (setCurrentPage state ((i : Int) + 1))).entries) := rfl
    rw [hlen, ← List.map_map, ← List.length_flatten, hfun, hcover]
  · rw [hfun2, hcover]

/-- Witness for C5: three entries and two items per page give two pages whose
slices concatenate to the three entries. -/
theorem selectPaginatedEntries_pages_cover_witness :
    (0 : Int) < sampleState.itemsPerPage ∧
    ∃ m : Nat,
      (selectPaginatedEntries toLowerCaseAscii sampleState).totalPages = .fin m ∧
      ((List.range m).map (fun i : Nat =>
          (selectPaginatedEntries toLowerCaseAscii
            (setCurrentPage sampleState ((i : Int) + 1))).entries)).flatten =
        selectFilteredEntries toLowerCaseAscii sampleState :=
  ⟨by decide,
   (selectPaginatedEntries_pages_cover toLowerCaseAscii sampleState (by decide)).imp
     (fun _ h => ⟨h.1, h.2.2.1⟩)⟩

/-- C7. For a positive page size, a current page beyond the last page
`ceil(N / P)` gives an empty slice, and the total is still the number of
filtered items. -/
theorem selectPaginatedEntries_beyond_last_page {ρ : Type}
    (toLowerCase : JsString → JsString) (state : EntriesState ρ)
    (hP : 0 < state.itemsPerPage)
    (hpage : ⌈(((selectFilteredEntries toLowerCase state).length : ℚ) /
      (state.itemsPerPage : ℚ))⌉ < state.currentPage) :
    (selectPaginatedEntries toLowerCase state).entries = [] ∧
    (selectPaginatedEntries toLowerCase state).totalItems =
      (selectFilteredEntries toLowerCase state).length := by
  obtain ⟨c, -, h1, h2⟩ :=
    mathCeilDiv_pos (selectFilteredEntries toLowerCase state).length state.itemsPerPage hP
  rw [ceil_eq_of_least _ _ c hP h1 h2] at hpage
  refine ⟨?_, rfl⟩
  simp only [selectPaginatedEntries, paginateEntries]
  apply slice_eq_nil_of_le
  have h3 : c * state.itemsPerPage ≤ (state.currentPage - 1) * state.itemsPerPage :=
    Int.mul_le_mul_of_nonneg_right (by omega) (le_of_lt hP)
  omega

/-- C8. For a positive page size the reported `totalPages` is the ceiling of
`n / P`, which is the least integer `k` with `k * P >= n`, and `totalItems` is
`n`; for `n = 0` it is `0`; and `paginationInfo` of the table hook reports the
same two values for every list of the same length. -/
theorem selectPaginatedEntries_totalPages {ρ : Type} (toLowerCase : JsString → JsString)
    (state : EntriesState ρ) (hP : 0 < state.itemsPerPage) :
    (selectPaginatedEntries toLowerCase state).totalPages =
      .fin ⌈(((selectFilteredEntries toLowerCase state).length : ℚ) /
        (state.itemsPerPage : ℚ))⌉ ∧
    IsLeast {k : Int | ((selectFilteredEntries toLowerCase state).length : Int) ≤
        k * state.itemsPerPage}
      ⌈(((selectFilteredEntries toLowerCase state).length : ℚ) /
        (state.itemsPerPage : ℚ))⌉ ∧
    (selectPaginatedEntries toLowerCase state).totalItems =
      (selectFilteredEntries toLowerCase state).length ∧
    ((selectFilteredEntries toLowerCase state).length = 0 →
      (selectPaginatedEntries toLowerCase state).totalPages = .fin 0) ∧
    ∀ (α : Type) (data : List α) (page : Int),
      data.length = (selectFilteredEntries toLowerCase state).length →
      (paginationInfo data page state.itemsPerPage).totalPages =
        (selectPaginatedEntries toLowerCase state).totalPages ∧
      (paginationInfo data page state.itemsPerPage).totalItems =
        (selectPaginatedEntries toLowerCase state).totalItems := by
  obtain ⟨c, hc, h1, h2⟩ :=
    mathCeilDiv_pos (selectFilteredEntries toLowerCase state).length state.itemsPerPage hP
  have hceil := ceil_eq_of_least _ _ c hP h1 h2
  have htp : (selectPaginatedEntries toLowerCase state).totalPages = .fin c := hc
  rw [hceil]
  refine ⟨htp, ⟨h1, fun j hj => h2 j hj⟩, rfl, ?_, ?_⟩
  · intro hn
    rw [htp]
    have hle : c ≤ 0 := h2 0 (by rw [hn]; simp)
    have hge : 0 ≤ c := by
      by_contra hneg
      have := Int.mul_neg_of_neg_of_pos (not_le.1 hneg) hP
      omega
    rw [le_antisymm hle hge]
  · intro α data page hlen
    simp only [paginationInfo, selectPaginatedEntries, paginateEntries, hlen, and_self]

/-- Witness for C7: with three entries and two items per page there are two
pages, and page 3 is empty while the total stays 3. -/
theorem selectPaginatedEntries_beyond_last_page_witness :
    (selectPaginatedEntries toLowerCaseAscii (setCurrentPage sampleState 3)).entries = [] ∧
    (selectPaginatedEntries toLowerCaseAscii (setCurrentPage sampleState 3)).totalItems = 3 := by
  have hlen : (selectFilteredEntries toLowerCaseAscii (setCurrentPage sampleState 3)).length = 3 := by
    decide
  have h := selectPaginatedEntries_beyond_last_page toLowerCaseAscii
    (setCurrentPage sampleState 3) (by decide)
    (by
      rw [hlen]
      have h2 : ⌈(((3 : Nat) : ℚ) / (((setCurrentPage sampleState 3).itemsPerPage : Int) : ℚ))⌉ ≤ 2 := by
        rw [Int.ceil_le]
        simp only [setCurrentPage, sampleState]
        norm_num
      have h3 : (setCurrentPage sampleState 3).currentPage = 3 := rfl
      omega)
  exact ⟨h.1, h.2.trans hlen⟩

/-- Witness for C8: three entries and two items per page are reported as two
pages and three items. -/
theorem selectPaginatedEntries_totalPages_witness :
    (0 : Int) < sampleState.itemsPerPage ∧
    (selectPaginatedEntries toLowerCaseAscii sampleState).totalPages =
      .fin ⌈(((selectFilteredEntries toLowerCaseAscii sampleState).length : ℚ) /
        (sampleState.itemsPerPage : ℚ))⌉ ∧
    (selectPaginatedEntries toLowerCaseAscii sampleState).totalPages = .fin 2 ∧
    (selectPaginatedEntries toLowerCaseAscii sampleState).totalItems = 3 :=
  ⟨by decide, (selectPaginatedEntries_totalPages toLowerCaseAscii sampleState (by decide)).1,
    by decide, by decide⟩

/-! ## Search -/

theorem includes_iff_containsIgnoringCase (toLowerCase : JsString → JsString)
    (text term : JsString) :
    includes (toLowerCase text) (toLowerCase term) = true ↔
      ContainsIgnoringCase toLowerCase text term :=
  includes_iff _ _

/-- C6. The filtered collection is the collection filtered, in its order, by a
test that holds exactly for the items whose title or body contains the search
term when letter case is ignored; the reported `totalItems` is the number of
those items for every current page and page size; and the empty term gives the
collection itself. Lower-casing maps the empty string to itself. -/
theorem selectFilteredEntries_spec {ρ : Type} (toLowerCase : JsString → JsString)
    (hempty : toLowerCase [] = []) (state : EntriesState ρ) :
    (∃ keep : Entry ρ → Bool,
      (∀ item, keep item = true ↔ TermPresent toLowerCase state.searchTerm item) ∧
      selectFilteredEntries toLowerCase state = state.items.filter keep ∧
      ∀ page perPage : Int,
        (selectPaginatedEntries toLowerCase
          (setCurrentPage (setItemsPerPage state perPage) page)).totalItems =
            state.items.countP keep) ∧
    (selectFilteredEntries toLowerCase state).Sublist state.items ∧
    (state.searchTerm = [] → selectFilteredEntries toLowerCase state = state.items) := by
  have hkeep : ∀ item : Entry ρ,
      (includes (toLowerCase item.title) (toLowerCase state.searchTerm) ||
        includes (toLowerCase item.body) (toLowerCase state.searchTerm)) = true ↔
      TermPresent toLowerCase state.searchTerm item := by
    intro item
    rw [Bool.or_eq_true, includes_iff_containsIgnoringCase, includes_iff_containsIgnoringCase]
    rfl
  have hfilter : selectFilteredEntries toLowerCase state =
      state.items.filter (fun item =>
        includes (toLowerCase item.title) (toLowerCase state.searchTerm) ||
        includes (toLowerCase item.body) (toLowerCase state.searchTerm)) := by
    unfold selectFilteredEntries filterEntries
    by_cases hterm : state.searchTerm = []
    · rw [hterm, hempty]
      simp [includes_nil]
    · have hne : state.searchTerm.isEmpty = false := by
        cases hs : state.searchTerm with
        | nil => exact absurd hs hterm
        | cons c s => rfl
      rw [hne]
      rfl
  refine ⟨⟨_, hkeep, hfilter, ?_⟩, ?_, ?_⟩
  · intro page perPage
    rw [List.countP_eq_length_filter, ← hfilter]
    rfl
  · rw [hfilter]
    exact List.filter_sublist _
  · intro hterm
    unfold selectFilteredEntries filterEntries
    rw [hterm]
    rfl

/-- Witness for C6: the term `"post"` is present in two of the three sample
entries, whatever the letter case, and `totalItems` is 2 on page 7 with 5 items
per page. -/
theorem selectFilteredEntries_spec_witness :
    toLowerCaseAscii [] = [] ∧
    selectFilteredEntries toLowerCaseAscii (setSearchTerm sampleState (lit "Post")) =
      [sampleEntry 1 "Alpha" "first post", sampleEntry 2 "Beta" "second POST"] ∧
    (selectPaginatedEntries toLowerCaseAscii
      (setCurrentPage (setItemsPerPage (setSearchTerm sampleState (lit "Post")) 5) 7)).totalItems
        = 2 := by
  obtain ⟨⟨keep, -, hfilter, htotal⟩, -, -⟩ :=
    selectFilteredEntries_spec toLowerCaseAscii rfl (setSearchTerm sampleState (lit "Post"))
  refine ⟨rfl, by decide, ?_⟩
  rw [htotal 7 5, List.countP_eq_length_filter, ← hfilter]
  decide

/-! ## The query state -/

/-- C9. The reducer `setSearchTerm` sets the search term to the payload and the
current page to 1, the reducer `setItemsPerPage` sets the page size to the
payload and the current page to 1, and each leaves every other field of the
state as it was. -/
theorem setSearchTerm_setItemsPerPage_frame {ρ : Type} (state : EntriesState ρ) :
    (∀ payload : JsString,
      (entriesReducer state (.setSearchTerm payload)).searchTerm = payload ∧
      (entriesReducer state (.setSearchTerm payload)).currentPage = 1 ∧
      (entriesReducer state (.setSearchTerm payload)).items = state.items ∧
      (entriesReducer state (.setSearchTerm payload)).loading = state.loading ∧
      (entriesReducer state (.setSearchTerm payload)).error = state.error ∧
      (entriesReducer state (.setSearchTerm payload)).itemsPerPage = state.itemsPerPage) ∧
    (∀ payload : Int,
      (entriesReducer state (.setItemsPerPage payload)).itemsPerPage = payload ∧
      (entriesReducer state (.setItemsPerPage payload)).currentPage = 1 ∧
      (entriesReducer state (.setItemsPerPage payload)).items = state.items ∧
      (entriesReducer state (.setItemsPerPage payload)).loading = state.loading ∧
      (entriesReducer state (.setItemsPerPage payload)).error = state.error ∧
      (entriesReducer state (.setItemsPerPage payload)).searchTerm = state.searchTerm) :=
  ⟨fun _ => ⟨rfl, rfl, rfl, rfl, rfl, rfl⟩, fun _ => ⟨rfl, rfl, rfl, rfl, rfl, rfl⟩⟩

theorem filterEntries_length_le_cons {ρ : Type} (toLowerCase : JsString → JsString)
    (items : List (Entry ρ)) (payload : Entry ρ) (term : JsString) :
    (filterEntries toLowerCase items term).length ≤
      (filterEntries toLowerCase (payload :: items) term).length := by
  unfold filterEntries
  cases term.isEmpty with
  | true => simp
  | false =>
    simp only [Bool.false_eq_true, if_false, List.filter_cons]
    split <;> simp

theorem ceil_div_mono (a b : Nat) (d : Int) (hd : 0 < d) (hab : a ≤ b) :
    ⌈((a : ℚ) / (d : ℚ))⌉ ≤ ⌈((b : ℚ) / (d : ℚ))⌉ := by
  apply Int.ceil_le_ceil
  apply div_le_div_of_nonneg_right
  · exact_mod_cast hab
  · exact_mod_cast le_of_lt hd

/-- Counterexample for C10: the initial state satisfies the page bound, and the
state after `setCurrentPage(5)` does not: the collection is empty, so the bound
is 1, and the reducer stores 5. -/
theorem pageInRange_not_preserved_by_setCurrentPage :
    PageInRange toLowerCaseAscii (initialState : EntriesState Unit) ∧
    ¬ PageInRange toLowerCaseAscii
      (entriesReducer (initialState : EntriesState Unit) (.setCurrentPage 5)) := by
  constructor
  · simp [PageInRange, initialState, selectFilteredEntries, filterEntries]
  · simp [PageInRange, entriesReducer, setCurrentPage, initialState, selectFilteredEntries,
      filterEntries]

/-- C10, amended. The page bound holds in the initial state; from a state with
a positive page size that satisfies it, it holds again after `setSearchTerm`,
after `setItemsPerPage` with a positive payload and after the fulfilled add
action; and after `setCurrentPage` it holds exactly when the payload itself
lies within the bound, since the reducer stores the payload as it is. -/
theorem pageInRange_preserved {ρ : Type} (toLowerCase : JsString → JsString)
    (state : EntriesState ρ) (hP : 0 < state.itemsPerPage)
    (hinv : PageInRange toLowerCase state) :
    PageInRange toLowerCase (initialState : EntriesState ρ) ∧
    (∀ payload : JsString,
      PageInRange toLowerCase (entriesReducer state (.setSearchTerm payload))) ∧
    (∀ payload : Int, 0 < payload →
      PageInRange toLowerCase (entriesReducer state (.setItemsPerPage payload))) ∧
    (∀ payload : Entry ρ,
      PageInRange toLowerCase (entriesReducer state (.addEntryFulfilled payload))) ∧
    (∀ payload : Int,
      PageInRange toLowerCase (entriesReducer state (.setCurrentPage payload)) ↔
        1 ≤ payload ∧
        payload ≤ max 1 ⌈(((selectFilteredEntries toLowerCase state).length : ℚ) /
          (state.itemsPerPage : ℚ))⌉) := by
  refine ⟨?_, ?_, ?_, ?_, ?_⟩
  · simp [PageInRange, initialState, selectFilteredEntries, filterEntries]
  · intro payload
    exact ⟨le_refl _, le_max_left _ _⟩
  · intro payload _
    exact ⟨le_refl _, le_max_left _ _⟩
  · intro payload
    refine ⟨hinv.1, le_trans hinv.2 (max_le_max (le_refl _) ?_)⟩
    exact ceil_div_mono _ _ _ hP
      (filterEntries_length_le_cons toLowerCase state.items payload state.searchTerm)
  · intro payload
    exact Iff.rfl

/-- Witness for C10, amended: the sample state has page size 2 and is on page 1
of 2; after a fulfilled add it is still within the bound, and `setCurrentPage(2)`
keeps the bound because 2 is within it. -/
theorem pageInRange_preserved_witness :
    (0 : Int) < sampleState.itemsPerPage ∧
    PageInRange toLowerCaseAscii sampleState ∧
    PageInRange toLowerCaseAscii
      (entriesReducer sampleState (.addEntryFulfilled (sampleEntry 4 "Delta" "fourth"))) ∧
    PageInRange toLowerCaseAscii (entriesReducer sampleState (.setCurrentPage 2)) := by
  have hin : PageInRange toLowerCaseAscii sampleState :=
    ⟨by decide, le_max_left _ _⟩
  have h := pageInRange_preserved toLowerCaseAscii sampleState (by decide) hin
  refine ⟨by decide, hin, h.2.2.2.1 _, (h.2.2.2.2 2).2 ⟨by decide, ?_⟩⟩
  apply le_max_of_le_right
  have hlen : (selectFilteredEntries toLowerCaseAscii sampleState).length = 3 := by decide
  rw [hlen, Int.le_ceil_iff]
  simp only [sampleState]
  norm_num

/-! ## Deleting an entry -/

theorem filter_id_ne_of_not_mem {ρ : Type} (xs : List (Entry ρ)) (x : Int)
    (h : x ∉ xs.map (fun e => e.id)) : xs.filter (fun item => item.id != x) = xs := by
  rw [List.filter_eq_self]
  intro e he
  have hne : e.id ≠ x := fun heq => h (List.mem_map.2 ⟨e, he, heq⟩)
  simpa using hne

theorem length_slice_page_two {α : Type} (xs : List α) (h : xs.length = 11) :
    (slice xs ((2 - 1) * 10) ((2 - 1) * 10 + 10)).length = 1 := by
  have h1 : ((2 : Int) - 1) * 10 = ((10 : Nat) : Int) := by norm_num
  have h2 : ((2 : Int) - 1) * 10 + 10 = ((20 : Nat) : Int) := by norm_num
  rw [h2, h1, slice_natCast, List.length_take, List.length_drop, h]
  decide

/-- C11. In a state whose items have pairwise distinct ids, the fulfilled
`deleteEntry(x)` for an id `x` of the collection removes exactly the entry with
id `x` and keeps the others in order; with an empty search term `totalItems`
drops by one; and for 12 items, page size 10 and current page 2 the page then
holds 1 item and `totalItems` is 11. -/
theorem deleteEntryFulfilled_removes_entry {ρ : Type} (toLowerCase : JsString → JsString)
    (state : EntriesState ρ) (x : Int)
    (hids : (state.items.map (fun e => e.id)).Nodup)
    (hx : x ∈ state.items.map (fun e => e.id)) :
    (∃ front entry back,
      state.items = front ++ entry :: back ∧ entry.id = x ∧
      (entriesReducer state (.deleteEntryFulfilled x)).items = front ++ back) ∧
    (state.searchTerm = [] →
      (selectPaginatedEntries toLowerCase
          (entriesReducer state (.deleteEntryFulfilled x))).totalItems + 1 =
        (selectPaginatedEntries toLowerCase state).totalItems) ∧
    (state.searchTerm = [] → state.items.length = 12 → state.itemsPerPage = 10 →
      state.currentPage = 2 →
      (selectPaginatedEntries toLowerCase
          (entriesReducer state (.deleteEntryFulfilled x))).entries.length = 1 ∧
      (selectPaginatedEntries toLowerCase
          (entriesReducer state (.deleteEntryFulfilled x))).totalItems = 11) := by
  obtain ⟨entry, hmem, hid⟩ := List.mem_map.1 hx
  obtain ⟨front, back, hsplit⟩ := List.append_of_mem hmem
  have hitems : (entriesReducer state (.deleteEntryFulfilled x)).items = front ++ back := by
    show state.items.filter (fun item => item.id != x) = front ++ back
    rw [hsplit] at hids ⊢
    rw [List.map_append, List.map_cons, List.nodup_append] at hids
    obtain ⟨-, hback, hdisj⟩ := hids
    rw [List.nodup_cons] at hback
    have hfront : x ∉ front.map (fun e => e.id) := by
      intro hin
      exact hdisj hin (by rw [hid]; exact List.mem_cons_self _ _)
    have hback2 : x ∉ back.map (fun e => e.id) := by
      rw [← hid]
      exact hback.1
    rw [List.filter_append, List.filter_cons_of_neg (by simp [hid]),
      filter_id_ne_of_not_mem front x hfront, filter_id_ne_of_not_mem back x hback2]
  have hlen : (front ++ back).length + 1 = state.items.length := by
    rw [hsplit]
    simp
    omega
  have hterm : ∀ s : EntriesState ρ, s.searchTerm = [] →
      selectFilteredEntries toLowerCase s = s.items := by
    intro s hs
    unfold selectFilteredEntries filterEntries
    rw [hs]
    rfl
  have hsame : (entriesReducer state (.deleteEntryFulfilled x)).searchTerm = state.searchTerm :=
    rfl
  refine ⟨⟨front, entry, back, hsplit, hid, hitems⟩, ?_, ?_⟩
  · intro hs
    show (selectFilteredEntries toLowerCase _).length + 1 =
      (selectFilteredEntries toLowerCase state).length
    rw [hterm _ (hsame.trans hs), hterm _ hs, hitems]
    exact hlen
  · intro hs h12 hP hpage
    have hfilt := hterm _ (hsame.trans hs)
    have h11 : (selectFilteredEntries toLowerCase
        (entriesReducer state (.deleteEntryFulfilled x))).length = 11 := by
      rw [hfilt, hitems]
      omega
    refine ⟨?_, h11⟩
    show (slice (selectFilteredEntries toLowerCase _)
      (((entriesReducer state (.deleteEntryFulfilled x)).currentPage - 1) *
        (entriesReducer state (.deleteEntryFulfilled x)).itemsPerPage) _).length = 1
    have hcp : (entriesReducer state (.deleteEntryFulfilled x)).currentPage = 2 := hpage
    have hip : (entriesReducer state (.deleteEntryFulfilled x)).itemsPerPage = 10 := hP
    rw [hcp, hip]
    exact length_slice_page_two _ h11

/-- Witness for C11: deleting id 5 from the twelve entries with ids 1 to 12,
shown ten per page on page 2, leaves that page with one item and 11 in total. -/
theorem deleteEntryFulfilled_removes_entry_witness :
    (selectPaginatedEntries toLowerCaseAscii
        (entriesReducer twelveState (.deleteEntryFulfilled 5))).entries.length = 1 ∧
    (selectPaginatedEntries toLowerCaseAscii
        (entriesReducer twelveState (.deleteEntryFulfilled 5))).totalItems = 11 ∧
    (selectPaginatedEntries toLowerCaseAscii
        (entriesReducer twelveState (.deleteEntryFulfilled 5))).entries =
      [sampleEntry 12 "Title" "body"] :=
  ⟨((deleteEntryFulfilled_removes_entry toLowerCaseAscii twelveState 5 (by decide)
      (by decide)).2.2 rfl (by decide) rfl rfl).1,
   ((deleteEntryFulfilled_removes_entry toLowerCaseAscii twelveState 5 (by decide)
      (by decide)).2.2 rfl (by decide) rfl rfl).2,
   by decide⟩

/-! ## Base64 -/

theorem b64Value_b64Char (v : Nat) (h : v < 64) : b64Value (b64Char v) = some v := by
  unfold b64Value b64Char
  split_ifs <;> (congr 1; omega)

theorem b64Char_facts (v : Nat) (h : v < 64) :
    b64Char v ≠ 61 ∧ b64Char v ≠ 46 ∧ b64Char v < 128 ∧ isAsciiWhitespace (b64Char v) = false := by
  have hb : 43 ≤ b64Char v ∧ b64Char v ≤ 122 ∧ b64Char v ≠ 61 ∧ b64Char v ≠ 46 := by
    unfold b64Char
    split_ifs <;> omega
  refine ⟨hb.2.2.1, hb.2.2.2, by omega, ?_⟩
  have h9 : b64Char v ≠ 9 := by omega
  have h10 : b64Char v ≠ 10 := by omega
  have h12 : b64Char v ≠ 12 := by omega
  have h13 : b64Char v ≠ 13 := by omega
  have h32 : b64Char v ≠ 32 := by omega
  simp [isAsciiWhitespace, h9, h10, h12, h13, h32]

theorem sextets_lt (s : List Nat) (h : ∀ c ∈ s, c < 256) : ∀ v ∈ sextets s, v < 64 := by
  induction s using sextets.induct with
  | case1 => simp [sextets]
  | case2 a =>
    have ha := h a (by simp)
    intro v hv
    simp only [sextets, List.mem_cons, List.mem_singleton, List.not_mem_nil, or_false] at hv
    rcases hv with rfl | rfl <;> omega
  | case3 a b =>
    have ha := h a (by simp)
    have hb := h b (by simp)
    intro v hv
    simp only [sextets, List.mem_cons, List.mem_singleton, List.not_mem_nil, or_false] at hv
    rcases hv with rfl | rfl | rfl <;> omega
  | case4 a b c rest ih =>
    have ha := h a (by simp)
    have hb := h b (by simp)
    have hc := h c (by simp)
    intro v hv
    simp only [sextets, List.cons_append, List.nil_append, List.mem_cons] at hv
    rcases hv with rfl | rfl | rfl | rfl | hv
    · omega
    · omega
    · omega
    · omega
    · exact ih (fun x hx => h x (by simp [hx])) v hv

theorem octets_sextets (s : List Nat) (h : ∀ c ∈ s, c < 256) : octets (sextets s) = s := by
  induction s using sextets.induct with
  | case1 => simp [sextets, octets]
  | case2 a =>
    simp only [sextets, octets, List.cons.injEq, and_true]
    omega
  | case3 a b =>
    have hb := h b (by simp)
    simp only [sextets, octets, List.cons.injEq, and_true]
    omega
  | case4 a b c rest ih =>
    have hb := h b (by simp)
    have hc := h c (by simp)
    simp only [sextets, List.cons_append, List.nil_append, octets, List.cons.injEq]
    refine ⟨by omega, by omega, by omega, ih (fun x hx => h x (by simp [hx]))⟩

theorem length_sextets (s : List Nat) :
    (sextets s).length % 4 ≠ 1 ∧
      ((sextets s).length + (3 - s.length % 3) % 3) % 4 = 0 := by
  induction s using sextets.induct with
  | case1 => simp [sextets]
  | case2 a => simp [sextets]
  | case3 a b => simp [sextets]
  | case4 a b c rest ih =>
    simp only [sextets, List.cons_append, List.nil_append, List.length_cons]
    omega

theorem b64Values_map_b64Char (vs : List Nat) (h : ∀ v ∈ vs, v < 64) :
    b64Values (vs.map b64Char) = some vs := by
  induction vs with
  | nil => rfl
  | cons v vs ih =>
    rw [List.map_cons, b64Values, b64Value_b64Char v (h v (by simp)),
      ih (fun x hx => h x (by simp [hx]))]

theorem stripPadding_append_replicate (core : JsString) (hcore : ∀ c ∈ core, c ≠ 61)
    (k : Nat) (hk : k ≤ 2) : stripPadding (core ++ List.replicate k 61) = core := by
  have hrev : ∀ x r, core.reverse = x :: r → x ≠ 61 := by
    intro x r hxr
    apply hcore
    rw [← List.mem_reverse, hxr]
    exact List.mem_cons_self _ _
  unfold stripPadding
  rw [List.reverse_append, List.reverse_replicate]
  rcases hr : core.reverse with _ | ⟨x, r⟩
  · have hnil : core = [] := by simpa using hr
    subst hnil
    interval_cases k <;> simp [List.replicate]
  · have hx := hrev x r hr
    have hcr : core = (x :: r).reverse := by rw [← hr, List.reverse_reverse]
    interval_cases k
    · simp only [List.replicate, List.nil_append]
      split
      · rename_i heq
        simp only [List.cons.injEq] at heq
        exact absurd heq.1 hx
      · rename_i heq
        simp only [List.cons.injEq] at heq
        exact absurd heq.1 hx
      · simp
    · simp only [List.replicate, List.cons_append, List.nil_append]
      split
      · rename_i heq
        simp only [List.cons.injEq] at heq
        exact absurd heq.2.1 hx
      · rename_i heq
        simp only [List.cons.injEq] at heq
        rw [hcr, ← heq.2]
      · rename_i _ hno
        exact absurd rfl (hno _)
    · simp only [List.replicate, List.cons_append, List.nil_append]
      exact hcr.symm

/-- Decoding undoes encoding: `atob(btoa(s))` is `s` whenever `btoa(s)`
returns. -/
theorem atob_btoa (s out : JsString) (h : btoa s = some out) : atob out = some s := by
  unfold btoa at h
  split at h
  · rename_i hall
    have hbytes : ∀ c ∈ s, c < 256 := by
      intro c hc
      simpa using (List.all_eq_true.1 hall) c hc
    have hout := (Option.some.inj h).symm
    have hsext := sextets_lt s hbytes
    have hcore : ∀ c ∈ (sextets s).map b64Char, c ≠ 61 := by
      intro c hc
      obtain ⟨v, hv, rfl⟩ := List.mem_map.1 hc
      exact (b64Char_facts v (hsext v hv)).1
    have hws : ∀ c ∈ out, (!isAsciiWhitespace c) = true := by
      intro c hc
      rw [hout, List.mem_append] at hc
      rcases hc with hc | hc
      · obtain ⟨v, hv, rfl⟩ := List.mem_map.1 hc
        simp [(b64Char_facts v (hsext v hv)).2.2.2]
      · rw [List.eq_of_mem_replicate hc]
        decide
    have hlen := length_sextets s
    unfold atob
    simp only []
    rw [List.filter_eq_self.2 hws]
    have hl4 : out.length % 4 = 0 := by
      rw [hout, List.length_append, List.length_map, List.length_replicate]
      exact hlen.2
    rw [if_pos hl4]
    have hstrip : stripPadding out = (sextets s).map b64Char := by
      rw [hout]
      exact stripPadding_append_replicate _ hcore _ (by omega)
    rw [hstrip, List.length_map, if_neg hlen.1, b64Values_map_b64Char _ hsext]
    simp [octets_sextets s hbytes]
  · exact absurd h (by simp)

theorem btoa_isSome (s : JsString) (h : ∀ c ∈ s, c < 256) : ∃ out, btoa s = some out := by
  unfold btoa
  rw [if_pos]
  · exact ⟨_, rfl⟩
  · exact List.all_eq_true.2 (fun c hc => by simpa using h c hc)

/-- The output of `btoa` is ASCII and holds no dot. -/
theorem btoa_chars (s out : JsString) (h : btoa s = some out) :
    ∀ c ∈ out, c < 128 ∧ c ≠ 46 := by
  unfold btoa at h
  split at h
  · rename_i hall
    have hbytes : ∀ c ∈ s, c < 256 := by
      intro c hc
      simpa using (List.all_eq_true.1 hall) c hc
    have hsext := sextets_lt s hbytes
    intro c hc
    rw [← Option.some.inj h, List.mem_append] at hc
    rcases hc with hc | hc
    · obtain ⟨v, hv, rfl⟩ := List.mem_map.1 hc
      exact ⟨(b64Char_facts v (hsext v hv)).2.2.1, (b64Char_facts v (hsext v hv)).2.1⟩
    · rw [List.eq_of_mem_replicate hc]
      decide
  · exact absurd h (by simp)

/-! ## Splitting a token -/

theorem split_append_sep (sep : Nat) (a rest : JsString) (h : sep ∉ a) :
    split sep (a ++ sep :: rest) = a :: split sep rest := by
  induction a with
  | nil => simp [split]
  | cons c a ih =>
    have hc : c ≠ sep := fun heq => h (by simp [heq])
    have ha : sep ∉ a := fun hmem => h (List.mem_cons_of_mem _ hmem)
    rw [List.cons_append, split, if_neg hc, ih ha]

theorem payloadSegment_of_segments (header payload rest : JsString) (hh : 46 ∉ header)
    (hp : 46 ∉ payload) : payloadSegment (header ++ 46 :: (payload ++ 46 :: rest)) = payload := by
  unfold payloadSegment
  rw [split_append_sep 46 header _ hh, split_append_sep 46 payload _ hp]
  simp

/-! ## The serialisation of ASCII data is ASCII -/

theorem isAscii_append {a b : JsString} (ha : IsAscii a) (hb : IsAscii b) : IsAscii (a ++ b) := by
  intro c hc
  rcases List.mem_append.1 hc with h | h
  · exact ha c h
  · exact hb c h

theorem isAscii_cons {c : Nat} {s : JsString} (hc : c < 128) (hs : IsAscii s) :
    IsAscii (c :: s) := by
  intro x hx
  rcases List.mem_cons.1 hx with h | h
  · rw [h]; exact hc
  · exact hs x h

theorem isAscii_nil : IsAscii [] := fun _ h => absurd h (List.not_mem_nil _)

theorem isAscii_intercalate (sep : JsString) (xs : List JsString) (hsep : IsAscii sep)
    (hxs : ∀ x ∈ xs, IsAscii x) : IsAscii (List.intercalate sep xs) := by
  induction xs with
  | nil => exact isAscii_nil
  | cons x xs ih =>
    cases xs with
    | nil =>
      have : List.intercalate sep [x] = x := by simp [List.intercalate]
      rw [this]
      exact hxs x (by simp)
    | cons y ys =>
      have : List.intercalate sep (x :: y :: ys) = x ++ sep ++ List.intercalate sep (y :: ys) := by
        simp [List.intercalate, List.intersperse]
      rw [this]
      exact isAscii_append (isAscii_append (hxs x (by simp)) hsep)
        (ih (fun z hz => hxs z (List.mem_cons_of_mem _ hz)))

theorem digitChar_lt (k : Nat) (h : k < 10) : (Nat.digitChar k).toNat < 128 := by
  interval_cases k <;> decide

theorem toDigitsCore_ascii (fuel n : Nat) (ds : List Char)
    (hds : ∀ c ∈ ds, c.toNat < 128) : ∀ c ∈ Nat.toDigitsCore 10 fuel n ds, c.toNat < 128 := by
  induction fuel generalizing n ds with
  | zero => simpa [Nat.toDigitsCore] using hds
  | succ fuel ih =>
    have hcons : ∀ c ∈ Nat.digitChar (n % 10) :: ds, c.toNat < 128 := by
      intro c hc
      rcases List.mem_cons.1 hc with h | h
      · rw [h]
        exact digitChar_lt _ (Nat.mod_lt _ (by decide))
      · exact hds c h
    unfold Nat.toDigitsCore
    simp only []
    split
    · exact hcons
    · exact ih _ _ hcons

theorem isAscii_natToString (n : Nat) : IsAscii (natToString n) := by
  intro c hc
  unfold natToString Nat.toDigits at hc
  obtain ⟨d, hd, rfl⟩ := List.mem_map.1 hc
  exact toDigitsCore_ascii _ _ [] (fun _ h => absurd h (List.not_mem_nil _)) d hd

theorem isAscii_numberToString (n : Int) : IsAscii (numberToString n) := by
  unfold numberToString
  split
  · exact isAscii_cons (by decide) (isAscii_natToString _)
  · exact isAscii_natToString _

theorem hexDigit_lt (n : Nat) (h : n < 16) : hexDigit n < 128 := by
  unfold hexDigit
  split <;> omega

theorem isAscii_escapeUnit (c : Nat) (hc : c < 128) : IsAscii (escapeUnit c) := by
  unfold escapeUnit
  have h16 : ∀ x : Nat, hexDigit (x % 16) < 128 := fun x => hexDigit_lt _ (Nat.mod_lt _ (by decide))
  split_ifs
  all_goals first
    | (intro x hx
       simp only [List.mem_cons, List.mem_singleton, List.not_mem_nil, or_false] at hx
       omega)
    | (intro x hx
       simp only [unicodeEscape, List.mem_cons, List.mem_singleton, List.not_mem_nil,
         or_false] at hx
       rcases hx with rfl | rfl | rfl | rfl | rfl | rfl
       · decide
       · decide
       · exact h16 _
       · exact h16 _
       · exact h16 _
       · exact h16 _)

theorem isAscii_quoteBody (s : JsString) (hs : IsAscii s) : IsAscii (quoteBody s) := by
  induction s using quoteBody.induct with
  | case1 => exact isAscii_nil
  | case2 c =>
    unfold quoteBody
    exact isAscii_escapeUnit c (hs c (by simp))
  | case3 c d rest hpair ih =>
    have hc : c < 128 := hs c (by simp)
    exfalso
    simp only [isHighSurrogate, Bool.and_eq_true, decide_eq_true_eq] at hpair
    omega
  | case4 c d rest hpair ih =>
    unfold quoteBody
    rw [if_neg hpair]
    exact isAscii_append (isAscii_escapeUnit c (hs c (by simp)))
      (ih (fun x hx => hs x (List.mem_cons_of_mem _ hx)))

theorem isAscii_quoteJSON (s : JsString) (hs : IsAscii s) : IsAscii (quoteJSON s) := by
  unfold quoteJSON
  exact isAscii_append (isAscii_append (isAscii_cons (by decide) isAscii_nil)
    (isAscii_quoteBody s hs)) (isAscii_cons (by decide) isAscii_nil)

theorem isAscii_stringifyMembers (fields : List (JsString × JsVal))
    (h : ∀ e ∈ fields, IsAsciiField e) : ∀ m ∈ stringifyMembers fields, IsAscii m := by
  induction fields with
  | nil => simp [stringifyMembers]
  | cons e fields ih =>
    obtain ⟨k, v⟩ := e
    have he := h (k, v) (by simp)
    have hrest := ih (fun x hx => h x (List.mem_cons_of_mem _ hx))
    rcases he.2 with ⟨s, hv, hs⟩ | ⟨n, hv⟩
    · simp only at hv
      subst hv
      intro m hm
      simp only [stringifyMembers, List.mem_cons] at hm
      rcases hm with rfl | hm
      · simp only [JsVal.stringify]
        exact isAscii_append (isAscii_append (isAscii_quoteJSON k he.1)
          (isAscii_cons (by decide) isAscii_nil)) (isAscii_quoteJSON s hs)
      · exact hrest m hm
    · simp only at hv
      subst hv
      intro m hm
      simp only [stringifyMembers, List.mem_cons] at hm
      rcases hm with rfl | hm
      · simp only [JsVal.stringify]
        exact isAscii_append (isAscii_append (isAscii_quoteJSON k he.1)
          (isAscii_cons (by decide) isAscii_nil)) (isAscii_numberToString n)
      · exact hrest m hm

theorem isAscii_stringify_payload (p : JsVal) (hp : IsAsciiPayload p) : IsAscii p.stringify := by
  obtain ⟨fields, rfl, hfields⟩ := hp
  simp only [JsVal.stringify]
  exact isAscii_append (isAscii_append (isAscii_cons (by decide) isAscii_nil)
    (isAscii_intercalate _ _ (isAscii_cons (by decide) isAscii_nil)
      (isAscii_stringifyMembers fields hfields))) (isAscii_cons (by decide) isAscii_nil)

theorem btoa_isSome_of_isAscii (s : JsString) (h : IsAscii s) : ∃ out, btoa s = some out :=
  btoa_isSome s (fun c hc => Nat.lt_trans (h c hc) (by decide))

/-! ## Tokens -/

theorem lit_dot : lit "." = [46] := by decide

/-- For a payload whose serialisation is ASCII, `encodeToken` returns the three
base64 segments joined by dots, the second being `btoa` of the serialised
payload. -/
theorem encodeToken_of_isAscii (p : JsVal) (hp : IsAscii p.stringify) :
    ∃ header payload signature,
      btoa p.stringify = some payload ∧ 46 ∉ header ∧ 46 ∉ payload ∧
      encodeToken p = some (header ++ 46 :: (payload ++ 46 :: signature)) := by
  have hheader : btoa (JsVal.obj [(lit "alg", .str (lit "HS256")),
      (lit "typ", .str (lit "JWT"))]).stringify = some (lit "eyJhbGciOiJIUzI1NiIsInR5cCI6IkpXVCJ9") := by
    decide
  obtain ⟨payload, hpayload⟩ := btoa_isSome_of_isAscii _ hp
  have hpc := btoa_chars _ _ hpayload
  have hhc := btoa_chars _ _ hheader
  have hsecret : IsAscii JWT_SECRET := by
    unfold IsAscii
    decide
  obtain ⟨signature, hsig⟩ := btoa_isSome_of_isAscii
    (lit "eyJhbGciOiJIUzI1NiIsInR5cCI6IkpXVCJ9" ++ payload ++ JWT_SECRET)
    (isAscii_append (isAscii_append (fun c hc => (hhc c hc).1) (fun c hc => (hpc c hc).1))
      hsecret)
  refine ⟨lit "eyJhbGciOiJIUzI1NiIsInR5cCI6IkpXVCJ9", payload, signature, hpayload,
    fun h => (hhc 46 h).2 rfl, fun h => (hpc 46 h).2 rfl, ?_⟩
  unfold encodeToken
  simp only [hheader, hpayload, hsig, lit_dot]
  simp

theorem decodeToken_of_segments (env : Builtins) (header payload signature text : JsString)
    (hh : 46 ∉ header) (hp : 46 ∉ payload) (hatob : atob payload = some text) :
    decodeToken env (header ++ 46 :: (payload ++ 46 :: signature)) =
      match env.jsonParse text with
      | none => .error (lit "Invalid token")
      | some decodedPayload => .ok decodedPayload := by
  unfold decodeToken
  rw [payloadSegment_of_segments header payload signature hh hp, hatob]

theorem isAsciiPayload_loginPayload (now : Int) :
    IsAsciiPayload (loginPayload (lit "admin@example.com") now) := by
  refine ⟨_, rfl, ?_⟩
  intro e he
  simp only [List.mem_cons, List.mem_singleton, List.not_mem_nil, or_false] at he
  rcases he with rfl | rfl | rfl | rfl
  · exact ⟨by show ∀ c ∈ lit "userId", c < 128; decide, Or.inr ⟨_, rfl⟩⟩
  · exact ⟨by show ∀ c ∈ lit "email", c < 128; decide,
      Or.inl ⟨_, rfl, by unfold IsAscii; decide⟩⟩
  · exact ⟨by show ∀ c ∈ lit "role", c < 128; decide,
      Or.inl ⟨_, rfl, by unfold IsAscii; decide⟩⟩
  · exact ⟨by show ∀ c ∈ lit "exp", c < 128; decide, Or.inr ⟨_, rfl⟩⟩

theorem authAPI_login_admin (now : Int) :
    ∃ token, encodeToken (loginPayload (lit "admin@example.com") now) = some token ∧
      authAPI.login adminCredentials now = .ok { user := adminUser, token := token } := by
  obtain ⟨header, payload, signature, -, -, -, henc⟩ :=
    encodeToken_of_isAscii _ (isAscii_stringify_payload _ (isAsciiPayload_loginPayload now))
  refine ⟨_, henc, ?_⟩
  unfold authAPI.login
  rw [if_pos ⟨rfl, rfl⟩]
  simp only [adminCredentials, henc]
  rfl

/-- C12. The call `authAPI.login` succeeds exactly for the email
`admin@example.com` with the password `password`; the state after
`login.fulfilled` is authenticated with a user of role `admin`; every other pair
fails with `Invalid credentials`, the thunk rejects with that message and leaves
the storage alone, and from the initial state `login.pending` followed by that
rejection gives an anonymous state. -/
theorem authAPI_login_spec (credentials : Credentials) (now : Int) :
    ((∃ session, authAPI.login credentials now = .ok session) ↔
      credentials.email = lit "admin@example.com" ∧ credentials.password = lit "password") ∧
    (∀ session, authAPI.login credentials now = .ok session →
      ∀ (state : AuthState) (storage : Storage),
        (login credentials now storage).2 = .loginFulfilled session ∧
        (authReducer state (login credentials now storage).2).isAuthenticated = true ∧
        (authReducer state (login credentials now storage).2).user = some session.user ∧
        session.user.role = .str (lit "admin")) ∧
    (¬ (credentials.email = lit "admin@example.com" ∧ credentials.password = lit "password") →
      authAPI.login credentials now = .error (lit "Invalid credentials") ∧
      ∀ storage : Storage,
        login credentials now storage = (storage, .loginRejected (lit "Invalid credentials")) ∧
        IsAnonymous (authReducer (authReducer authSlice.initialState .loginPending)
          (login credentials now storage).2) ∧
        (authReducer (authReducer authSlice.initialState .loginPending)
          (login credentials now storage).2).error = some (lit "Invalid credentials")) := by
  have hfail : ¬ (credentials.email = lit "admin@example.com" ∧
      credentials.password = lit "password") →
      authAPI.login credentials now = .error (lit "Invalid credentials") := by
    intro h
    unfold authAPI.login
    rw [if_neg h]
  have hok : credentials.email = lit "admin@example.com" ∧
      credentials.password = lit "password" →
      ∃ token, authAPI.login credentials now = .ok { user := adminUser, token := token } := by
    intro h
    obtain ⟨token, -, hlogin⟩ := authAPI_login_admin now
    have hc : credentials = adminCredentials := by
      cases credentials
      simp only [adminCredentials, Credentials.mk.injEq]
      exact h
    exact ⟨token, by rw [hc]; exact hlogin⟩
  refine ⟨⟨?_, ?_⟩, ?_, ?_⟩
  · rintro ⟨session, hs⟩
    by_contra hne
    rw [hfail hne] at hs
    exact absurd hs (by simp)
  · intro h
    obtain ⟨token, ht⟩ := hok h
    exact ⟨_, ht⟩
  · intro session hs state storage
    have hcred : credentials.email = lit "admin@example.com" ∧
        credentials.password = lit "password" := by
      by_contra hne
      rw [hfail hne] at hs
      exact absurd hs (by simp)
    obtain ⟨token, ht⟩ := hok hcred
    have hsession : session = { user := adminUser, token := token } := by
      rw [ht] at hs
      exact (Except.ok.inj hs).symm
    have hthunk : (login credentials now storage).2 = .loginFulfilled session := by
      unfold login
      rw [hs]
    refine ⟨hthunk, ?_, ?_, ?_⟩
    · rw [hthunk]
      rfl
    · rw [hthunk]
      rfl
    · rw [hsession]
      rfl
  · intro hne
    refine ⟨hfail hne, fun storage => ?_⟩
    have hthunk : login credentials now storage =
        (storage, .loginRejected (lit "Invalid credentials")) := by
      unfold login
      rw [hfail hne]
    refine ⟨hthunk, ?_, ?_⟩
    · rw [hthunk]
      exact ⟨rfl, rfl, rfl⟩
    · rw [hthunk]
      rfl

/-- Witness for C12: the administrator logs in at time 1000, and a wrong
password is rejected with `Invalid credentials`. -/
theorem authAPI_login_spec_witness :
    (∃ session, authAPI.login adminCredentials 1000 = .ok session) ∧
    authAPI.login { email := lit "admin@example.com", password := lit "Password" } 1000 =
      .error (lit "Invalid credentials") :=
  ⟨(authAPI_login_spec adminCredentials 1000).1.2 ⟨rfl, rfl⟩,
   ((authAPI_login_spec { email := lit "admin@example.com", password := lit "Password" }
      1000).2.2 (by decide)).1⟩

/-- C17. The thunk `logout` always settles as fulfilled, whatever the storage
holds; afterwards the storage has neither `authToken` nor `user` and its other
keys are untouched, and the state after `logout.fulfilled` is anonymous with
`loading = false` and `error = null`, from every state. -/
theorem logout_spec (state : AuthState) (storage : Storage) :
    (logout storage).2 = .logoutFulfilled ∧
    (logout storage).1.get (lit "authToken") = none ∧
    (logout storage).1.get (lit "user") = none ∧
    (∀ key, key ≠ lit "authToken" → key ≠ lit "user" →
      (logout storage).1.get key = storage.get key) ∧
    (authReducer (authReducer state .logoutPending) (logout storage).2).user = none ∧
    (authReducer (authReducer state .logoutPending) (logout storage).2).token = none ∧
    (authReducer (authReducer state .logoutPending) (logout storage).2).isAuthenticated = false ∧
    (authReducer (authReducer state .logoutPending) (logout storage).2).loading = false ∧
    (authReducer (authReducer state .logoutPending) (logout storage).2).error = none := by
  refine ⟨rfl, ?_, ?_, ?_, rfl, rfl, rfl, rfl, rfl⟩
  · show ((storage.delete (lit "authToken")).delete (lit "user")).get (lit "authToken") = none
    rw [JsMap.get_delete_of_ne _ (by decide), JsMap.get_delete_self]
  · exact JsMap.get_delete_self _ _
  · intro key h1 h2
    show ((storage.delete (lit "authToken")).delete (lit "user")).get key = storage.get key
    rw [JsMap.get_delete_of_ne _ (Ne.symm h2), JsMap.get_delete_of_ne _ (Ne.symm h1)]

theorem validateToken_of_decoded_obj (env : Builtins) (token : JsString) (now : Int)
    (fields : List (JsString × JsVal)) (h : decodeToken env token = .ok (.obj fields)) :
    authAPI.validateToken env token now =
      if ((JsVal.obj fields).prop (lit "exp")).truthy &&
          lessThanNow env ((JsVal.obj fields).prop (lit "exp")) now then
        .error (lit "Invalid or expired token")
      else
        .ok { id := (JsVal.obj fields).prop (lit "userId"),
              email := (JsVal.obj fields).prop (lit "email"),
              name := lit "Admin User", role := (JsVal.obj fields).prop (lit "role"),
              avatar := lit "https://i.pravatar.cc/150?img=1" } := by
  unfold authAPI.validateToken
  rw [h]

theorem decodeToken_nil (env : Builtins) : decodeToken env [] = .error (lit "Invalid token") := by
  have h : atob (payloadSegment []) = none := by decide
  unfold decodeToken
  rw [h]

/-- C16. For every payload of ASCII string and integer fields that
`JSON.parse` reads back from its serialisation, `encodeToken` returns a token
and `decodeToken` of that token is the payload. The token of a successful login
at time `t` decodes to `userId = 1`, the administrator email, `role = admin` and
`exp = t + 86400000`, and `validateToken` accepts it at every time up to
`t + 86400000`. -/
theorem decodeToken_encodeToken (env : Builtins) :
    (∀ p, IsAsciiPayload p → env.jsonParse p.stringify = some p →
      ∃ token, encodeToken p = some token ∧ decodeToken env token = .ok p) ∧
    (∀ t : Int,
      env.jsonParse (loginPayload (lit "admin@example.com") t).stringify =
        some (loginPayload (lit "admin@example.com") t) →
      ∃ token,
        authAPI.login adminCredentials t = .ok { user := adminUser, token := token } ∧
        decodeToken env token =
          .ok (.obj [(lit "userId", .num 1), (lit "email", .str (lit "admin@example.com")),
            (lit "role", .str (lit "admin")), (lit "exp", .num (t + 86400000))]) ∧
        ∀ now, now ≤ t + 86400000 → authAPI.validateToken env token now = .ok adminUser) := by
  have hround : ∀ p, IsAsciiPayload p → env.jsonParse p.stringify = some p →
      ∃ token, encodeToken p = some token ∧ decodeToken env token = .ok p := by
    intro p hp hjson
    obtain ⟨header, payload, signature, hbtoa, hh, hpl, henc⟩ :=
      encodeToken_of_isAscii p (isAscii_stringify_payload p hp)
    refine ⟨_, henc, ?_⟩
    rw [decodeToken_of_segments env header payload signature _ hh hpl
      (atob_btoa _ _ hbtoa), hjson]
  refine ⟨hround, ?_⟩
  intro t hjson
  obtain ⟨token, henc, hlogin⟩ := authAPI_login_admin t
  obtain ⟨token2, henc2, hdec⟩ := hround _ (isAsciiPayload_loginPayload t) hjson
  have htok : token2 = token := Option.some.inj (henc2.symm.trans henc)
  subst htok
  have hms : (24 * 60 * 60 * 1000 : Int) = 86400000 := by norm_num
  have hpayload : loginPayload (lit "admin@example.com") t =
      .obj [(lit "userId", .num 1), (lit "email", .str (lit "admin@example.com")),
        (lit "role", .str (lit "admin")), (lit "exp", .num (t + 86400000))] := by
    unfold loginPayload
    rw [hms]
  rw [hpayload] at hdec
  refine ⟨token2, hlogin, hdec, ?_⟩
  intro now hnow
  rw [validateToken_of_decoded_obj env token2 now _ hdec]
  have hexp : (JsVal.obj [(lit "userId", .num 1), (lit "email", .str (lit "admin@example.com")),
      (lit "role", .str (lit "admin")), (lit "exp", .num (t + 86400000))]).prop (lit "exp") =
      .num (t + 86400000) := rfl
  rw [hexp]
  have hnot : lessThanNow env (.num (t + 86400000)) now = false := by
    simp only [lessThanNow, decide_eq_false_iff_not, not_lt]
    exact hnow
  rw [hnot, Bool.and_false]
  rfl

/-- Witness for C16: the token minted by the login at time 1000 decodes to the
payload with `exp = 86401000` and is accepted at time 86401000. -/
theorem decodeToken_encodeToken_witness :
    ∃ token,
      authAPI.login adminCredentials 1000 = .ok { user := adminUser, token := token } ∧
      decodeToken sampleBuiltins token =
        .ok (.obj [(lit "userId", .num 1), (lit "email", .str (lit "admin@example.com")),
          (lit "role", .str (lit "admin")), (lit "exp", .num (1000 + 86400000))]) ∧
      authAPI.validateToken sampleBuiltins token 86401000 = .ok adminUser := by
  obtain ⟨token, h1, h2, h3⟩ := (decodeToken_encodeToken sampleBuiltins).2 1000
    (by simp only [sampleBuiltins, if_true])
  exact ⟨token, h1, h2, h3 86401000 (by norm_num)⟩

/-- C15. The outcome of `validateToken` depends on the token only through the
second dot-separated segment: two tokens with the same second segment give the
same user or the same failure at the same time, whatever their header and
signature segments are. -/
theorem validateToken_ignores_signature (env : Builtins) (now : Int) :
    (∀ t1 t2 : JsString, (split 46 t1)[1]? = (split 46 t2)[1]? →
      authAPI.validateToken env t1 now = authAPI.validateToken env t2 now) ∧
    (∀ header1 header2 payload signature1 signature2 : JsString,
      46 ∉ header1 → 46 ∉ header2 → 46 ∉ payload →
      authAPI.validateToken env (header1 ++ 46 :: (payload ++ 46 :: signature1)) now =
        authAPI.validateToken env (header2 ++ 46 :: (payload ++ 46 :: signature2)) now) := by
  have hseg : ∀ t1 t2 : JsString, payloadSegment t1 = payloadSegment t2 →
      authAPI.validateToken env t1 now = authAPI.validateToken env t2 now := by
    intro t1 t2 h
    have hdec : decodeToken env t1 = decodeToken env t2 := by
      unfold decodeToken
      rw [h]
    unfold authAPI.validateToken
    rw [hdec]
  constructor
  · intro t1 t2 h
    apply hseg
    unfold payloadSegment
    rw [h]
  · intro header1 header2 payload signature1 signature2 h1 h2 hp
    apply hseg
    rw [payloadSegment_of_segments _ _ _ h1 hp, payloadSegment_of_segments _ _ _ h2 hp]

/-- Witness for C15: two tokens that share only the payload segment are judged
alike. -/
theorem validateToken_ignores_signature_witness :
    authAPI.validateToken sampleBuiltins (lit "header.eyJleHAiOjUwMH0=.signature") 1000 =
      authAPI.validateToken sampleBuiltins (lit "x.eyJleHAiOjUwMH0=.") 1000 :=
  (validateToken_ignores_signature sampleBuiltins 1000).1 _ _ (by decide)

/-! ## Restoring a session -/

theorem split_of_not_mem (sep : Nat) (s : JsString) (h : sep ∉ s) : split sep s = [s] := by
  induction s with
  | nil => rfl
  | cons c s ih =>
    have hc : c ≠ sep := fun heq => h (by simp [heq])
    rw [split, if_neg hc, ih (fun hmem => h (List.mem_cons_of_mem _ hmem))]

theorem checkAuth_of_error (env : Builtins) (now : Int) (storage : Storage)
    (token message : JsString) (hget : storage.get (lit "authToken") = some token)
    (hval : authAPI.validateToken env token now = .error message) :
    ∃ m, checkAuth env now storage =
      ((storage.delete (lit "authToken")).delete (lit "user"), .checkAuthRejected m) := by
  unfold checkAuth
  rw [hget]
  cases token with
  | nil => exact ⟨_, rfl⟩
  | cons c t =>
    simp only [hval]
    exact ⟨_, rfl⟩

theorem checkAuth_cleared (storage : Storage) :
    ((storage.delete (lit "authToken")).delete (lit "user")).get (lit "authToken") = none ∧
    ((storage.delete (lit "authToken")).delete (lit "user")).get (lit "user") = none := by
  constructor
  · rw [JsMap.get_delete_of_ne _ (by decide), JsMap.get_delete_self]
  · exact JsMap.get_delete_self _ _

/-- C13. The payload segment `eyJleHAiOjB9` is the base64 text of an object
whose `exp` is 0, an expiry earlier than the time 1000; yet `validateToken`
returns a user, `checkAuth` fulfils and keeps the storage, and the state becomes
authenticated: the test `decoded.exp && decoded.exp < Date.now()` skips the
comparison for the falsy expiry 0. -/
theorem validateToken_accepts_zero_expiry :
    decodeToken sampleBuiltins (lit "h.eyJleHAiOjB9.s") = .ok (.obj [(lit "exp", .num 0)]) ∧
    (0 : Int) < 1000 ∧
    authAPI.validateToken sampleBuiltins (lit "h.eyJleHAiOjB9.s") 1000 =
      .ok { id := .undefined, email := .undefined, name := lit "Admin User",
            role := .undefined, avatar := lit "https://i.pravatar.cc/150?img=1" } ∧
    (checkAuth sampleBuiltins 1000
        [(lit "authToken", lit "h.eyJleHAiOjB9.s"), (lit "user", lit "u")]).1 =
      [(lit "authToken", lit "h.eyJleHAiOjB9.s"), (lit "user", lit "u")] ∧
    (authReducer authSlice.initialState
      (checkAuth sampleBuiltins 1000
        [(lit "authToken", lit "h.eyJleHAiOjB9.s"), (lit "user", lit "u")]).2).isAuthenticated =
      true := by
  have hatob : atob (payloadSegment (lit "h.eyJleHAiOjB9.s")) = some (lit "\x7b\"exp\":0\x7d") := by
    decide
  have hparse : sampleBuiltins.jsonParse (lit "\x7b\"exp\":0\x7d") =
      some (.obj [(lit "exp", .num 0)]) := by
    have hne : ¬ lit "\x7b\"exp\":0\x7d" =
        (loginPayload (lit "admin@example.com") 1000).stringify := by decide
    simp only [sampleBuiltins, if_neg hne, if_true]
  have hdec : decodeToken sampleBuiltins (lit "h.eyJleHAiOjB9.s") =
      .ok (.obj [(lit "exp", .num 0)]) := by
    unfold decodeToken
    rw [hatob]
    simp only [hparse]
  have hval : authAPI.validateToken sampleBuiltins (lit "h.eyJleHAiOjB9.s") 1000 =
      .ok { id := .undefined, email := .undefined, name := lit "Admin User",
            role := .undefined, avatar := lit "https://i.pravatar.cc/150?img=1" } := by
    rw [validateToken_of_decoded_obj _ _ _ _ hdec]
    rfl
  have hget : JsMap.get ([(lit "authToken", lit "h.eyJleHAiOjB9.s"), (lit "user", lit "u")] :
      Storage) (lit "authToken") = some (lit "h.eyJleHAiOjB9.s") := by decide
  have htok : lit "h.eyJleHAiOjB9.s" = 104 :: lit ".eyJleHAiOjB9.s" := by decide
  have hcheck : checkAuth sampleBuiltins 1000
      [(lit "authToken", lit "h.eyJleHAiOjB9.s"), (lit "user", lit "u")] =
      ([(lit "authToken", lit "h.eyJleHAiOjB9.s"), (lit "user", lit "u")],
        .checkAuthFulfilled
          { user := { id := .undefined, email := .undefined, name := lit "Admin User",
                      role := .undefined, avatar := lit "https://i.pravatar.cc/150?img=1" },
            token := lit "h.eyJleHAiOjB9.s" }) := by
    unfold checkAuth
    rw [hget]
    rw [htok] at hval ⊢
    simp only [hval]
  refine ⟨hdec, by decide, hval, ?_, ?_⟩
  · rw [hcheck]
  · rw [hcheck]
    rfl

/-- For a token whose decoded payload carries a non-zero expiry `exp` earlier
than the current time, `validateToken` fails with `Invalid or expired token`;
`checkAuth` rejects with that message, removes `authToken` and `user` from the
storage, and the state after `checkAuth.rejected` is anonymous. -/
theorem validateToken_expired (env : Builtins) (token : JsString) (now : Int)
    (decoded : JsVal) (e : Int) (hdec : decodeToken env token = .ok decoded)
    (hexp : decoded.prop (lit "exp") = .num e) (hne : e ≠ 0) (hlt : e < now) :
    authAPI.validateToken env token now = .error (lit "Invalid or expired token") ∧
    ∀ storage : Storage, storage.get (lit "authToken") = some token →
      checkAuth env now storage =
        ((storage.delete (lit "authToken")).delete (lit "user"),
          .checkAuthRejected (lit "Invalid or expired token")) ∧
      (checkAuth env now storage).1.get (lit "authToken") = none ∧
      (checkAuth env now storage).1.get (lit "user") = none ∧
      ∀ state : AuthState, IsAnonymous (authReducer state (checkAuth env now storage).2) := by
  have hval : authAPI.validateToken env token now = .error (lit "Invalid or expired token") := by
    cases decoded with
    | obj fields =>
      rw [validateToken_of_decoded_obj env token now fields hdec, hexp]
      have h1 : (JsVal.num e).truthy = true := by
        simp [JsVal.truthy, hne]
      have h2 : lessThanNow env (.num e) now = true := by
        simp [lessThanNow, hlt]
      rw [h1, h2]
      rfl
    | undefined => exact absurd hexp (by simp [JsVal.prop])
    | null => exact absurd hexp (by simp [JsVal.prop])
    | bool b => exact absurd hexp (by simp [JsVal.prop])
    | num n => exact absurd hexp (by simp [JsVal.prop])
    | str s => exact absurd hexp (by simp [JsVal.prop])
    | arr items => exact absurd hexp (by simp [JsVal.prop])
  refine ⟨hval, ?_⟩
  intro storage hget
  have hcheck : checkAuth env now storage =
      ((storage.delete (lit "authToken")).delete (lit "user"),
        .checkAuthRejected (lit "Invalid or expired token")) := by
    unfold checkAuth
    rw [hget]
    cases token with
    | nil =>
      rw [decodeToken_nil] at hdec
      exact absurd hdec (by simp)
    | cons c t => simp only [hval]
  rw [hcheck]
  exact ⟨rfl, (checkAuth_cleared storage).1, (checkAuth_cleared storage).2,
    fun _ => ⟨rfl, rfl, rfl⟩⟩

/-- A token whose payload is an object with `exp = 500` is rejected at time
1000 and the storage is cleared. -/
theorem validateToken_expired_witness :
    authAPI.validateToken sampleBuiltins (lit "h.eyJleHAiOjUwMH0=.s") 1000 =
      .error (lit "Invalid or expired token") ∧
    (checkAuth sampleBuiltins 1000
        [(lit "authToken", lit "h.eyJleHAiOjUwMH0=.s"), (lit "user", lit "u")]).1 = [] := by
  have hatob : atob (payloadSegment (lit "h.eyJleHAiOjUwMH0=.s")) =
      some (lit "\x7b\"exp\":500\x7d") := by decide
  have hparse : sampleBuiltins.jsonParse (lit "\x7b\"exp\":500\x7d") =
      some (.obj [(lit "exp", .num 500)]) := by
    have hne : ¬ lit "\x7b\"exp\":500\x7d" =
        (loginPayload (lit "admin@example.com") 1000).stringify := by decide
    have hne2 : ¬ lit "\x7b\"exp\":500\x7d" = lit "\x7b\"exp\":0\x7d" := by decide
    simp only [sampleBuiltins, if_neg hne, if_neg hne2, if_true]
  have hdec : decodeToken sampleBuiltins (lit "h.eyJleHAiOjUwMH0=.s") =
      .ok (.obj [(lit "exp", .num 500)]) := by
    unfold decodeToken
    rw [hatob]
    simp only [hparse]
  have h := validateToken_expired sampleBuiltins (lit "h.eyJleHAiOjUwMH0=.s") 1000
    (.obj [(lit "exp", .num 500)]) 500 hdec rfl (by decide) (by decide)
  refine ⟨h.1, ?_⟩
  rw [(h.2 [(lit "authToken", lit "h.eyJleHAiOjUwMH0=.s"), (lit "user", lit "u")]
    (by decide)).1]
  decide

/-- Counterexample for C14: the payload segment `e30=` is the base64 text of
the empty object, which is JSON but no session payload; `checkAuth` does not
reject it: it fulfils with a user whose id, email and role are `undefined`,
keeps the storage, and the state becomes authenticated. -/
theorem checkAuth_accepts_empty_object :
    decodeToken sampleBuiltins (lit "x.e30=.y") = .ok (.obj []) ∧
    checkAuth sampleBuiltins 1000 [(lit "authToken", lit "x.e30=.y"), (lit "user", lit "u")] =
      ([(lit "authToken", lit "x.e30=.y"), (lit "user", lit "u")],
        .checkAuthFulfilled
          { user := { id := .undefined, email := .undefined, name := lit "Admin User",
                      role := .undefined, avatar := lit "https://i.pravatar.cc/150?img=1" },
            token := lit "x.e30=.y" }) ∧
    (authReducer authSlice.initialState
      (checkAuth sampleBuiltins 1000
        [(lit "authToken", lit "x.e30=.y"), (lit "user", lit "u")]).2).isAuthenticated = true := by
  have hatob : atob (payloadSegment (lit "x.e30=.y")) = some (lit "\x7b\x7d") := by decide
  have hparse : sampleBuiltins.jsonParse (lit "\x7b\x7d") = some (.obj []) := by
    have hne : ¬ lit "\x7b\x7d" =
        (loginPayload (lit "admin@example.com") 1000).stringify := by decide
    have hne2 : ¬ lit "\x7b\x7d" = lit "\x7b\"exp\":0\x7d" := by decide
    have hne3 : ¬ lit "\x7b\x7d" = lit "\x7b\"exp\":500\x7d" := by decide
    simp only [sampleBuiltins, if_neg hne, if_neg hne2, if_neg hne3, if_true]
  have hdec : decodeToken sampleBuiltins (lit "x.e30=.y") = .ok (.obj []) := by
    unfold decodeToken
    rw [hatob]
    simp only [hparse]
  have hval : authAPI.validateToken sampleBuiltins (lit "x.e30=.y") 1000 =
      .ok { id := .undefined, email := .undefined, name := lit "Admin User",
            role := .undefined, avatar := lit "https://i.pravatar.cc/150?img=1" } := by
    rw [validateToken_of_decoded_obj _ _ _ _ hdec]
    rfl
  have hget : JsMap.get ([(lit "authToken", lit "x.e30=.y"), (lit "user", lit "u")] : Storage)
      (lit "authToken") = some (lit "x.e30=.y") := by decide
  have htok : lit "x.e30=.y" = 120 :: lit ".e30=.y" := by decide
  have hcheck : checkAuth sampleBuiltins 1000
      [(lit "authToken", lit "x.e30=.y"), (lit "user", lit "u")] =
      ([(lit "authToken", lit "x.e30=.y"), (lit "user", lit "u")],
        .checkAuthFulfilled
          { user := { id := .undefined, email := .undefined, name := lit "Admin User",
                      role := .undefined, avatar := lit "https://i.pravatar.cc/150?img=1" },
            token := lit "x.e30=.y" }) := by
    unfold checkAuth
    rw [hget]
    rw [htok] at hval ⊢
    simp only [hval]
  refine ⟨hdec, hcheck, ?_⟩
  rw [hcheck]
  rfl

/-- C14, amended. Whatever the storage holds, `checkAuth` settles: it fulfils
with a user and the stored token and keeps the storage, or it rejects with a
message and removes `authToken` and `user`. It rejects, and the state after
`checkAuth.rejected` is anonymous, whenever the token is absent or empty, its
second segment is not valid base64 (a token without a dot, whose second segment
is missing, is such a token), the decoded text is not JSON, the JSON value is
`null`, or the value carries a non-zero numeric `exp` earlier than the current
time. It fulfils whenever the segment decodes to a value other than `null`
that has no `exp` or a numeric `exp` not earlier than the current time; the
user's id, email and role are read from the value as they are. -/
theorem checkAuth_spec (env : Builtins) (now : Int) (storage : Storage) :
    ((∃ user token, storage.get (lit "authToken") = some token ∧
        checkAuth env now storage =
          (storage, .checkAuthFulfilled { user := user, token := token })) ∨
      ∃ message, checkAuth env now storage =
        ((storage.delete (lit "authToken")).delete (lit "user"),
          .checkAuthRejected message)) ∧
    ((storage.get (lit "authToken") = none ∨ storage.get (lit "authToken") = some [] ∨
        ∃ token, storage.get (lit "authToken") = some token ∧
          (atob (payloadSegment token) = none ∨
            ∃ text, atob (payloadSegment token) = some text ∧
              (env.jsonParse text = none ∨ env.jsonParse text = some .null))) →
      (∃ message, checkAuth env now storage =
        ((storage.delete (lit "authToken")).delete (lit "user"),
          .checkAuthRejected message)) ∧
      (checkAuth env now storage).1.get (lit "authToken") = none ∧
      (checkAuth env now storage).1.get (lit "user") = none ∧
      ∀ state : AuthState, IsAnonymous (authReducer state (checkAuth env now storage).2)) ∧
    (∀ token : JsString, 46 ∉ token → atob (payloadSegment token) = none) ∧
    (∀ (token : JsString) (decoded : JsVal) (e : Int),
      storage.get (lit "authToken") = some token → decodeToken env token = .ok decoded →
      decoded.prop (lit "exp") = .num e → e ≠ 0 → e < now →
      (∃ message, checkAuth env now storage =
        ((storage.delete (lit "authToken")).delete (lit "user"),
          .checkAuthRejected message)) ∧
      (checkAuth env now storage).1.get (lit "authToken") = none ∧
      (checkAuth env now storage).1.get (lit "user") = none ∧
      ∀ state : AuthState, IsAnonymous (authReducer state (checkAuth env now storage).2)) ∧
    (∀ (token : JsString) (decoded : JsVal),
      storage.get (lit "authToken") = some token → decodeToken env token = .ok decoded →
      decoded ≠ .null → decoded ≠ .undefined →
      (decoded.prop (lit "exp") = .undefined ∨
        ∃ e : Int, decoded.prop (lit "exp") = .num e ∧ now ≤ e) →
      checkAuth env now storage =
        (storage, .checkAuthFulfilled
          { user := { id := decoded.prop (lit "userId"), email := decoded.prop (lit "email"),
                      name := lit "Admin User", role := decoded.prop (lit "role"),
                      avatar := lit "https://i.pravatar.cc/150?img=1" },
            token := token })) := by
  have hrej : (∃ message, checkAuth env now storage =
        ((storage.delete (lit "authToken")).delete (lit "user"),
          .checkAuthRejected message)) →
      (∃ message, checkAuth env now storage =
        ((storage.delete (lit "authToken")).delete (lit "user"),
          .checkAuthRejected message)) ∧
      (checkAuth env now storage).1.get (lit "authToken") = none ∧
      (checkAuth env now storage).1.get (lit "user") = none ∧
      ∀ state : AuthState, IsAnonymous (authReducer state (checkAuth env now storage).2) := by
    rintro ⟨message, h⟩
    refine ⟨⟨message, h⟩, ?_⟩
    rw [h]
    exact ⟨(checkAuth_cleared storage).1, (checkAuth_cleared storage).2,
      fun _ => ⟨rfl, rfl, rfl⟩⟩
  have hnone : storage.get (lit "authToken") = none →
      ∃ message, checkAuth env now storage =
        ((storage.delete (lit "authToken")).delete (lit "user"),
          .checkAuthRejected message) := by
    intro h
    unfold checkAuth
    rw [h]
    exact ⟨_, rfl⟩
  have hempty : storage.get (lit "authToken") = some [] →
      ∃ message, checkAuth env now storage =
        ((storage.delete (lit "authToken")).delete (lit "user"),
          .checkAuthRejected message) := by
    intro h
    unfold checkAuth
    rw [h]
    exact ⟨_, rfl⟩
  refine ⟨?_, ?_, ?_, ?_, ?_⟩
  · cases hget : storage.get (lit "authToken") with
    | none => exact Or.inr (hnone hget)
    | some token =>
      cases hval : authAPI.validateToken env token now with
      | error message => exact Or.inr (checkAuth_of_error env now storage token message hget hval)
      | ok user =>
        cases token with
        | nil => exact Or.inr (hempty hget)
        | cons c t =>
          refine Or.inl ⟨user, c :: t, rfl, ?_⟩
          unfold checkAuth
          rw [hget]
          simp only [hval]
  · rintro (h | h | ⟨token, hget, h⟩)
    · exact hrej (hnone h)
    · exact hrej (hempty h)
    · apply hrej
      have hval : authAPI.validateToken env token now =
          .error (lit "Invalid or expired token") := by
        unfold authAPI.validateToken decodeToken
        rcases h with h | ⟨text, htext, h | h⟩
        · rw [h]
        · rw [htext]
          simp only [h]
        · rw [htext]
          simp only [h]
      exact checkAuth_of_error env now storage token _ hget hval
  · intro token h
    have hseg : payloadSegment token = lit "undefined" := by
      unfold payloadSegment
      rw [split_of_not_mem 46 token h]
      rfl
    rw [hseg]
    decide
  · intro token decoded e hget hdec hexp hne hlt
    apply hrej
    exact ⟨_, ((validateToken_expired env token now decoded e hdec hexp hne hlt).2
      storage hget).1⟩
  · intro token decoded hget hdec hnull hundef hexp
    have hval : authAPI.validateToken env token now =
        .ok { id := decoded.prop (lit "userId"), email := decoded.prop (lit "email"),
              name := lit "Admin User", role := decoded.prop (lit "role"),
              avatar := lit "https://i.pravatar.cc/150?img=1" } := by
      cases decoded with
      | undefined => exact absurd rfl hundef
      | null => exact absurd rfl hnull
      | obj fields =>
        rw [validateToken_of_decoded_obj env token now fields hdec]
        rcases hexp with hexp | ⟨e, hexp, hle⟩
        · rw [hexp]
          rfl
        · rw [hexp]
          have hfalse : lessThanNow env (.num e) now = false := by
            simp [lessThanNow, hle]
          rw [hfalse, Bool.and_false]
          rfl
      | bool b =>
        unfold authAPI.validateToken
        rw [hdec]
        rfl
      | num n =>
        unfold authAPI.validateToken
        rw [hdec]
        rfl
      | str t =>
        unfold authAPI.validateToken
        rw [hdec]
        rfl
      | arr items =>
        unfold authAPI.validateToken
        rw [hdec]
        rfl
    unfold checkAuth
    rw [hget]
    cases token with
    | nil =>
      rw [decodeToken_nil] at hdec
      exact absurd hdec (by simp)
    | cons c t => simp only [hval]

/-- Witness for C14, amended: a stored token without a dot is rejected and the
storage is cleared. -/
theorem checkAuth_spec_witness :
    (∃ message, checkAuth sampleBuiltins 1000
        [(lit "authToken", lit "garbage"), (lit "user", lit "u")] =
      ([], .checkAuthRejected message)) ∧
    IsAnonymous (authReducer authSlice.initialState
      (checkAuth sampleBuiltins 1000
        [(lit "authToken", lit "garbage"), (lit "user", lit "u")]).2) := by
  have h := checkAuth_spec sampleBuiltins 1000
    [(lit "authToken", lit "garbage"), (lit "user", lit "u")]
  have h2 := h.2.1 (Or.inr (Or.inr ⟨lit "garbage", by decide,
    Or.inl (h.2.2.1 (lit "garbage") (by decide))⟩))
  refine ⟨?_, h2.2.2.2 _⟩
  obtain ⟨message, hm⟩ := h2.1
  exact ⟨message, hm.trans (by
    have hs : JsMap.delete (JsMap.delete ([(lit "authToken", lit "garbage"),
      (lit "user", lit "u")] : Storage) (lit "authToken")) (lit "user") = [] := by decide
    rw [hs])⟩

/-! ## Rounding to a double -/

theorem roundHalfEven_bounds (q : ℚ) :
    (roundHalfEven q : ℚ) ≤ q + 1 / 2 ∧ q - 1 / 2 ≤ roundHalfEven q := by
  have h1 := Int.floor_le q
  have h2 := Int.lt_floor_add_one q
  unfold roundHalfEven
  split_ifs <;> push_cast <;> constructor <;> linarith

theorem roundHalfEven_nonneg (q : ℚ) (h : 0 ≤ q) : 0 ≤ roundHalfEven q := by
  have hf : 0 ≤ ⌊q⌋ := Int.floor_nonneg.2 h
  unfold roundHalfEven
  split_ifs <;> omega

theorem roundHalfEven_intCast (n : Int) : roundHalfEven (n : ℚ) = n := by
  unfold roundHalfEven
  simp

theorem log_eq_of_bounds (x : ℚ) (e : Int) (hlo : 2 ^ e ≤ x) (hhi : x < 2 ^ (e + 1)) :
    Int.log 2 x = e := by
  have hpos : 0 < x := lt_of_lt_of_le (zpow_pos (by norm_num) e) hlo
  have h1 := (Int.zpow_le_iff_le_log (by norm_num : 1 < 2) hpos).1 (by simpa using hlo)
  have h2 := (Int.lt_zpow_iff_log_lt (by norm_num : 1 < 2) hpos).1 (by simpa using hhi)
  omega

theorem toDouble_zero : toDouble 0 = 0 := by
  unfold toDouble
  rw [zero_div, show roundHalfEven 0 = 0 from roundHalfEven_intCast 0]
  simp

theorem toDouble_nonneg (x : ℚ) (h : 0 ≤ x) : 0 ≤ toDouble x := by
  unfold toDouble
  have hu : (0 : ℚ) < 2 ^ (max (Int.log 2 |x|) (-1022) - 52) := zpow_pos (by norm_num) _
  exact mul_nonneg (by exact_mod_cast roundHalfEven_nonneg _ (div_nonneg h hu.le)) hu.le

theorem toDouble_le (x : ℚ) (hpos : 0 < x) :
    toDouble x ≤ x + 2 ^ (max (Int.log 2 x) (-1022) - 53) := by
  unfold toDouble
  rw [abs_of_pos hpos]
  have hu : (0 : ℚ) < 2 ^ (max (Int.log 2 x) (-1022) - 52) := zpow_pos (by norm_num) _
  have hsplit : (2 : ℚ) ^ (max (Int.log 2 x) (-1022) - 52) =
      2 ^ (max (Int.log 2 x) (-1022) - 53) * 2 := by
    rw [← zpow_add_one₀ (by norm_num : (2 : ℚ) ≠ 0)]
    congr 1
    omega
  have hn := (roundHalfEven_bounds (x / 2 ^ (max (Int.log 2 x) (-1022) - 52))).1
  have hmul := mul_le_mul_of_nonneg_right hn hu.le
  rw [add_mul, div_mul_cancel₀ _ hu.ne'] at hmul
  refine hmul.trans (le_of_eq ?_)
  rw [hsplit]
  ring

theorem toDouble_eq (x : ℚ) (e n : Int) (hlo : 2 ^ e ≤ x) (hhi : x < 2 ^ (e + 1))
    (he : -1022 ≤ e) (hn : roundHalfEven (x / 2 ^ (e - 52)) = n) :
    toDouble x = n * 2 ^ (e - 52) := by
  have hpos : 0 < x := lt_of_lt_of_le (zpow_pos (by norm_num) e) hlo
  unfold toDouble
  rw [abs_of_pos hpos, log_eq_of_bounds x e hlo hhi, max_eq_left he, hn]

theorem isDouble_le (r : ℚ) (hd : IsDouble r) (h1 : r < 1) :
    r ≤ 1 - 2 ^ (-53 : Int) := by
  have hc : (2 : ℚ) ^ (-53 : Int) = 1 / 9007199254740992 := by norm_num
  rw [hc]
  by_cases hhalf : r < 1 / 2
  · linarith
  · have hlo : (2 : ℚ) ^ (-1 : Int) ≤ r := by
      have : (2 : ℚ) ^ (-1 : Int) = 1 / 2 := by norm_num
      rw [this]
      linarith
    have hhi : r < (2 : ℚ) ^ ((-1 : Int) + 1) := by
      have : (2 : ℚ) ^ ((-1 : Int) + 1) = 1 := by norm_num
      rw [this]
      exact h1
    have heq := toDouble_eq r (-1) _ hlo hhi (by decide) rfl
    have h53 : (2 : ℚ) ^ ((-1 : Int) - 52) = 1 / 9007199254740992 := by norm_num
    unfold IsDouble at hd
    rw [hd, h53] at heq
    obtain ⟨n, hn⟩ : ∃ n : Int, r = n * (1 / 9007199254740992) := ⟨_, heq⟩
    have hlt : (n : ℚ) < 9007199254740992 := by
      rw [hn] at h1
      linarith
    have hle : n ≤ 9007199254740991 := by
      have : n < 9007199254740992 := by exact_mod_cast hlt
      omega
    have hle' : (n : ℚ) ≤ 9007199254740991 := by exact_mod_cast hle
    rw [hn]
    linarith

theorem toDouble_mul_lt (r k : ℚ) (hd : IsDouble r) (h0 : 0 ≤ r) (h1 : r < 1) (hk : 1 ≤ k) :
    0 ≤ toDouble (r * k) ∧ toDouble (r * k) < k := by
  have hk0 : 0 < k := lt_of_lt_of_le one_pos hk
  refine ⟨toDouble_nonneg _ (mul_nonneg h0 hk0.le), ?_⟩
  rcases eq_or_lt_of_le (mul_nonneg h0 hk0.le) with hx | hx
  · rw [← hx, toDouble_zero]
    exact hk0
  · have hr := isDouble_le r hd h1
    have hc : (2 : ℚ) ^ (-53 : Int) = 1 / 9007199254740992 := by norm_num
    rw [hc] at hr
    have hxk : r * k ≤ (1 - 1 / 9007199254740992) * k := mul_le_mul_of_nonneg_right hr hk0.le
    have hle := toDouble_le (r * k) hx
    generalize toDouble (r * k) = d at hle ⊢
    generalize r * k = x at hx hxk hle
    by_cases hL : -1022 ≤ Int.log 2 x
    · rw [max_eq_left hL] at hle
      have hlog : (2 : ℚ) ^ Int.log 2 x ≤ x := by
        simpa using Int.zpow_log_le_self (by norm_num : 1 < 2) hx
      have hsplit : (2 : ℚ) ^ (Int.log 2 x - 53) =
          2 ^ Int.log 2 x * (1 / 9007199254740992) := by
        rw [sub_eq_add_neg, zpow_add₀ (by norm_num : (2 : ℚ) ≠ 0), hc]
      rw [hsplit] at hle
      generalize (2 : ℚ) ^ Int.log 2 x = p at hlog hle
      nlinarith
    · rw [max_eq_right (by omega)] at hle
      have hlt : x < (2 : ℚ) ^ (Int.log 2 x + 1) := by
        simpa using Int.lt_zpow_succ_log_self (by norm_num : 1 < 2) x
      have h1 : (2 : ℚ) ^ (Int.log 2 x + 1) ≤ 2 ^ (-2 : Int) :=
        zpow_le_zpow_right₀ (by norm_num) (by omega)
      have h2 : (2 : ℚ) ^ ((-1022 : Int) - 53) ≤ 2 ^ (-2 : Int) :=
        zpow_le_zpow_right₀ (by norm_num) (by decide)
      have h3 : (2 : ℚ) ^ (-2 : Int) = 1 / 4 := by norm_num
      rw [h3] at h1 h2
      generalize (2 : ℚ) ^ (Int.log 2 x + 1) = p at hlt h1
      generalize (2 : ℚ) ^ ((-1022 : Int) - 53) = q at hle h2
      linarith

theorem floor_toDouble_mul (r : ℚ) (k : Int) (hd : IsDouble r) (h0 : 0 ≤ r) (h1 : r < 1)
    (hk : 1 ≤ k) : 0 ≤ ⌊toDouble (r * k)⌋ ∧ ⌊toDouble (r * k)⌋ < k := by
  have h := toDouble_mul_lt r k hd h0 h1 (by exact_mod_cast hk)
  exact ⟨Int.floor_nonneg.2 h.1, Int.floor_lt.2 h.2⟩

/-! ## Object literals -/

theorem objGet_defineProp_self (o : JsObject JsVal) (key : JsString) (value : JsVal) :
    objGet (defineProp o key value) key = some value :=
  JsMap.get_set_self o key value

theorem objGet_defineProp_of_ne (o : JsObject JsVal) (key other : JsString) (value : JsVal)
    (h : other ≠ key) : objGet (defineProp o other value) key = objGet o key :=
  JsMap.get_set_of_ne o value h

theorem objGet_eq_none_iff {V : Type} (o : JsObject V) (key : JsString) :
    objGet o key = none ↔ key ∉ o.map Prod.fst := by
  induction o with
  | nil => simp [objGet]
  | cons e o ih =>
    rw [objGet_cons, List.map_cons, List.mem_cons]
    by_cases he : e.1 = key
    · simp [he]
    · rw [if_neg he, ih]
      constructor
      · rintro h (h2 | h2)
        · exact he h2.symm
        · exact h h2
      · intro h h2
        exact h (Or.inr h2)

theorem objGet_foldl_defineProp (source : JsObject JsVal) (keys : List JsString)
    (target : JsObject JsVal) (key : JsString) :
    objGet (keys.foldl
      (fun acc k => defineProp acc k ((objGet source k).getD .undefined)) target) key =
      if key ∈ keys then some ((objGet source key).getD .undefined) else objGet target key := by
  induction keys generalizing target with
  | nil => simp
  | cons k keys ih =>
    rw [List.foldl_cons, ih]
    by_cases hmem : key ∈ keys
    · rw [if_pos hmem, if_pos (List.mem_cons_of_mem _ hmem)]
    · rw [if_neg hmem]
      by_cases hk : k = key
      · subst hk
        rw [if_pos (List.mem_cons_self _ _), objGet_defineProp_self]
      · rw [if_neg (by simp [hmem, Ne.symm hk]), objGet_defineProp_of_ne _ _ _ _ hk]

/-- A property read after a spread: the property of the source when it has
one, else the property of the object under construction. -/
theorem objGet_spreadInto (target source : JsObject JsVal) (key : JsString) :
    objGet (spreadInto target source) key =
      match objGet source key with
      | some v => some v
      | none => objGet target key := by
  unfold spreadInto
  rw [objGet_foldl_defineProp]
  cases hs : objGet source key with
  | none =>
    have hnot : key ∉ ownKeys source := by
      rw [(ownKeys_perm source).mem_iff]
      exact (objGet_eq_none_iff source key).1 hs
    rw [if_neg hnot]
  | some v =>
    have hin : key ∈ ownKeys source := by
      rw [(ownKeys_perm source).mem_iff]
      by_contra hnot
      rw [(objGet_eq_none_iff source key).2 hnot] at hs
      exact absurd hs (by simp)
    rw [if_pos hin]
    rfl

/-! ## Data enrichment -/

theorem indexArray_three (a b c : JsVal) (i : Int) (h0 : 0 ≤ i) (h3 : i < 3) :
    indexArray [a, b, c] i = a ∨ indexArray [a, b, c] i = b ∨ indexArray [a, b, c] i = c := by
  have hcases : i = 0 ∨ i = 1 ∨ i = 2 := by omega
  rcases hcases with rfl | rfl | rfl
  · exact Or.inl rfl
  · exact Or.inr (Or.inl rfl)
  · exact Or.inr (Or.inr rfl)

theorem floor_draw_bounds (r : ℚ) (hd : IsDouble r) (h0 : 0 ≤ r) (h1 : r < 1) :
    0 ≤ ⌊mulDouble r 3⌋ ∧ ⌊mulDouble r 3⌋ < 3 := by
  simpa [mulDouble] using floor_toDouble_mul r 3 hd h0 h1 (by decide)

theorem api_enhancePost_fields (env : Builtins) (now : Int) (r : Draws)
    (post record : JsObject JsVal) (h : api.enhancePost env now r post = some record) :
    objGet record (lit "status") =
        some (indexArray [.str (lit "published"), .str (lit "draft"), .str (lit "archived")]
          ⌊mulDouble r.status 3⌋) ∧
      ∃ excerpt, api.excerptOf (readProp post (lit "body")) = some excerpt ∧
        objGet record (lit "excerpt") = some excerpt := by
  unfold api.enhancePost at h
  cases hex : api.excerptOf (readProp post (lit "body")) with
  | none =>
    rw [hex] at h
    exact absurd h (by simp)
  | some excerpt =>
    rw [hex] at h
    simp only [Option.some.injEq] at h
    subst h
    refine ⟨?_, excerpt, rfl, ?_⟩
    · rw [objGet_defineProp_of_ne _ _ _ _ (by decide), objGet_defineProp_of_ne _ _ _ _ (by decide),
        objGet_defineProp_of_ne _ _ _ _ (by decide), objGet_defineProp_of_ne _ _ _ _ (by decide),
        objGet_defineProp_of_ne _ _ _ _ (by decide), objGet_defineProp_self]
    · rw [objGet_defineProp_of_ne _ _ _ _ (by decide), objGet_defineProp_self]

theorem jsonPlaceholder_enhancePost_fields (env : Builtins) (now : Int) (r : Draws)
    (post record : JsObject JsVal) (h : jsonPlaceholder.enhancePost env now r post = some record) :
    objGet record (lit "status") =
        some (indexArray [.str (lit "published"), .str (lit "draft"), .str (lit "archived")]
          ⌊mulDouble r.status 3⌋) ∧
      ∃ excerpt, jsonPlaceholder.excerptOf (readProp post (lit "body")) = some excerpt ∧
        objGet record (lit "excerpt") = some excerpt := by
  unfold jsonPlaceholder.enhancePost at h
  cases hex : jsonPlaceholder.excerptOf (readProp post (lit "body")) with
  | none =>
    rw [hex] at h
    exact absurd h (by simp)
  | some excerpt =>
    rw [hex] at h
    simp only [Option.some.injEq] at h
    subst h
    refine ⟨?_, excerpt, rfl, ?_⟩
    · rw [objGet_defineProp_of_ne _ _ _ _ (by decide), objGet_defineProp_of_ne _ _ _ _ (by decide),
        objGet_defineProp_of_ne _ _ _ _ (by decide), objGet_defineProp_of_ne _ _ _ _ (by decide),
        objGet_defineProp_of_ne _ _ _ _ (by decide), objGet_defineProp_self]
    · rw [objGet_defineProp_of_ne _ _ _ _ (by decide), objGet_defineProp_self]

theorem api_excerptOf_str (b : JsString) :
    api.excerptOf (.str b) = some (.str (b.take 150 ++ lit "...")) := by
  have hlit : lit "..." = [46, 46, 46] := by decide
  simp [api.excerptOf, orElse, JsVal.truthy, hlit]

theorem enhancePost_isSome (env : Builtins) (now : Int) (r : Draws) (post : JsObject JsVal)
    (b : JsString) (hbody : readProp post (lit "body") = .str b) :
    (∃ record, api.enhancePost env now r post = some record) ∧
    (∃ record, jsonPlaceholder.enhancePost env now r post = some record) := by
  constructor
  · unfold api.enhancePost
    rw [hbody, api_excerptOf_str]
    exact ⟨_, rfl⟩
  · unfold jsonPlaceholder.enhancePost
    rw [hbody]
    exact ⟨_, rfl⟩

theorem isDouble_sample_status : IsDouble sampleDraws.status := by
  have hx : sampleDraws.status = 6004799503160661 / 9007199254740992 := rfl
  unfold IsDouble
  rw [hx, toDouble_eq _ (-1) 6004799503160661 (by norm_num) (by norm_num) (by decide)
    (by
      have hq : (6004799503160661 / 9007199254740992 : ℚ) / 2 ^ ((-1 : Int) - 52) =
          ((6004799503160661 : Int) : ℚ) := by norm_num
      rw [hq, roundHalfEven_intCast])]
  norm_num

theorem mulDouble_sample_status : mulDouble sampleDraws.status 3 = 2 := by
  have hx : sampleDraws.status = 6004799503160661 / 9007199254740992 := rfl
  unfold mulDouble
  rw [hx, toDouble_eq _ 0 9007199254740992 (by norm_num) (by norm_num) (by decide)
    (by
      have hq : (6004799503160661 / 9007199254740992 * 3 : ℚ) / 2 ^ ((0 : Int) - 52) =
          18014398509481983 / 2 := by norm_num
      have hf : ⌊(18014398509481983 / 2 : ℚ)⌋ = 9007199254740991 := by
        rw [Int.floor_eq_iff]
        norm_num
      rw [hq]
      unfold roundHalfEven
      rw [hf]
      norm_num)]
  norm_num

/-- C18. For a random draw `r`, a double with `0 <= r < 1`, the index
`floor(r * 3)`, taken of the product as rounded to a double, is 0, 1 or 2, so
the status of every enriched post, by `enhancePost` of `api.js` and by the
enrichment of `getPosts`, is one of `published`, `draft` and `archived`; and a
raw post with a string body is enriched by both. -/
theorem enhancePost_status (env : Builtins) (now : Int) (r : Draws) (post : JsObject JsVal)
    (hd : IsDouble r.status) (h0 : 0 ≤ r.status) (h1 : r.status < 1) :
    (0 ≤ ⌊mulDouble r.status 3⌋ ∧ ⌊mulDouble r.status 3⌋ < 3) ∧
    (∀ record, api.enhancePost env now r post = some record →
      objGet record (lit "status") = some (.str (lit "published")) ∨
      objGet record (lit "status") = some (.str (lit "draft")) ∨
      objGet record (lit "status") = some (.str (lit "archived"))) ∧
    (∀ record, jsonPlaceholder.enhancePost env now r post = some record →
      objGet record (lit "status") = some (.str (lit "published")) ∨
      objGet record (lit "status") = some (.str (lit "draft")) ∨
      objGet record (lit "status") = some (.str (lit "archived"))) ∧
    (∀ b, readProp post (lit "body") = .str b →
      (∃ record, api.enhancePost env now r post = some record) ∧
      (∃ record, jsonPlaceholder.enhancePost env now r post = some record)) := by
  have hb := floor_draw_bounds r.status hd h0 h1
  have hidx := indexArray_three (.str (lit "published")) (.str (lit "draft"))
    (.str (lit "archived")) ⌊mulDouble r.status 3⌋ hb.1 hb.2
  refine ⟨hb, ?_, ?_, fun b hbody => enhancePost_isSome env now r post b hbody⟩
  · intro record h
    rw [(api_enhancePost_fields env now r post record h).1]
    rcases hidx with h | h | h
    · exact Or.inl (by rw [h])
    · exact Or.inr (Or.inl (by rw [h]))
    · exact Or.inr (Or.inr (by rw [h]))
  · intro record h
    rw [(jsonPlaceholder_enhancePost_fields env now r post record h).1]
    rcases hidx with h | h | h
    · exact Or.inl (by rw [h])
    · exact Or.inr (Or.inl (by rw [h]))
    · exact Or.inr (Or.inr (by rw [h]))

/-- Witness for C18: the draw 0.6666666666666666, the double nearest to 2/3.
Its exact product with 3 lies half a unit in the last place below 2 and is
rounded to 2, so the index is 2 and the status `archived`. -/
theorem enhancePost_status_witness :
    IsDouble sampleDraws.status ∧ 0 ≤ sampleDraws.status ∧ sampleDraws.status < 1 ∧
    sampleDraws.status * 3 < 2 ∧ mulDouble sampleDraws.status 3 = 2 ∧
    ∃ record, api.enhancePost sampleBuiltins 100000000000 sampleDraws samplePost = some record ∧
      objGet record (lit "status") = some (.str (lit "archived")) := by
  have hd : IsDouble sampleDraws.status := isDouble_sample_status
  have h0 : 0 ≤ sampleDraws.status := by norm_num [sampleDraws]
  have h1 : sampleDraws.status < 1 := by norm_num [sampleDraws]
  have h := enhancePost_status sampleBuiltins 100000000000 sampleDraws samplePost hd h0 h1
  obtain ⟨record, hrecord⟩ := (h.2.2.2 (lit "A short body") rfl).1
  refine ⟨hd, h0, h1, by norm_num [sampleDraws], mulDouble_sample_status, record, hrecord, ?_⟩
  rw [(api_enhancePost_fields _ _ _ _ _ hrecord).1, mulDouble_sample_status]
  rfl

/-- C19. For a raw post whose body is a string, the excerpt of the enriched
post, by `enhancePost` of `api.js` and by the enrichment of `getPosts`, is the
first `min(150, length)` code units of the body followed by `...`, hence at most
153 code units long. -/
theorem enhancePost_excerpt (env : Builtins) (now : Int) (r : Draws) (post : JsObject JsVal)
    (b : JsString) (hbody : readProp post (lit "body") = .str b) :
    (∃ record, api.enhancePost env now r post = some record ∧
      objGet record (lit "excerpt") = some (.str (b.take 150 ++ lit "..."))) ∧
    (∃ record, jsonPlaceholder.enhancePost env now r post = some record ∧
      objGet record (lit "excerpt") = some (.str (b.take 150 ++ lit "..."))) ∧
    (∃ tail, b = b.take 150 ++ tail) ∧
    (b.take 150).length = min 150 b.length ∧
    (b.take 150 ++ lit "...").length ≤ 153 := by
  obtain ⟨⟨record1, h1⟩, ⟨record2, h2⟩⟩ := enhancePost_isSome env now r post b hbody
  refine ⟨⟨record1, h1, ?_⟩, ⟨record2, h2, ?_⟩, ⟨b.drop 150, (List.take_append_drop 150 b).symm⟩,
    List.length_take _ _, ?_⟩
  · obtain ⟨excerpt, hex, hget⟩ := (api_enhancePost_fields env now r post record1 h1).2
    rw [hbody, api_excerptOf_str] at hex
    rw [hget, ← hex]
  · obtain ⟨excerpt, hex, hget⟩ := (jsonPlaceholder_enhancePost_fields env now r post record2 h2).2
    rw [hbody] at hex
    rw [hget, ← hex]
    rfl
  · have hlit : (lit "...").length = 3 := by decide
    rw [List.length_append, List.length_take, hlit]
    omega

/-- Witness for C19: the body `A short body` gives the excerpt
`A short body...`. -/
theorem enhancePost_excerpt_witness :
    ∃ record, api.enhancePost sampleBuiltins 100000000000 sampleDraws samplePost = some record ∧
      objGet record (lit "excerpt") = some (.str (lit "A short body...")) := by
  obtain ⟨record, h, hex⟩ :=
    (enhancePost_excerpt sampleBuiltins 100000000000 sampleDraws samplePost
      (lit "A short body") rfl).1
  refine ⟨record, h, hex.trans ?_⟩
  have : List.take 150 (lit "A short body") ++ lit "..." = lit "A short body..." := by decide
  rw [this]

/-! ## Creating a post -/

theorem objGet_spread_after_id (draft : JsObject JsVal) (idValue : JsVal) (key : JsString)
    (hkey : key ≠ lit "id") :
    objGet (spreadInto (defineProp [] (lit "id") idValue) draft) key = objGet draft key := by
  rw [objGet_spreadInto]
  cases hd : objGet draft key with
  | some v => rfl
  | none =>
    simp only []
    rw [objGet_defineProp_of_ne _ _ _ _ (Ne.symm hkey)]
    rfl

theorem isCreatedFrom_newPost (draft : JsObject JsVal) (idValue createdAt updatedAt tags
    excerpt author : JsVal) :
    IsCreatedFrom draft
      (defineProp (defineProp (defineProp (defineProp (defineProp (defineProp (defineProp
        (defineProp (defineProp
          (spreadInto (defineProp [] (lit "id") idValue) draft)
          (lit "userId") (.num 1))
          (lit "createdAt") createdAt)
          (lit "updatedAt") updatedAt)
          (lit "status") (.str (lit "published")))
          (lit "views") (.num 0))
          (lit "likes") (.num 0))
          (lit "tags") tags)
          (lit "excerpt") excerpt)
          (lit "author") author) := by
  refine ⟨?_, ?_, ?_, ?_, ?_⟩
  · rw [objGet_defineProp_of_ne _ _ _ _ (by decide), objGet_defineProp_of_ne _ _ _ _ (by decide),
      objGet_defineProp_of_ne _ _ _ _ (by decide), objGet_defineProp_of_ne _ _ _ _ (by decide),
      objGet_defineProp_of_ne _ _ _ _ (by decide), objGet_defineProp_of_ne _ _ _ _ (by decide),
      objGet_defineProp_of_ne _ _ _ _ (by decide), objGet_defineProp_of_ne _ _ _ _ (by decide),
      objGet_defineProp_of_ne _ _ _ _ (by decide), objGet_spread_after_id _ _ _ (by decide)]
  · rw [objGet_defineProp_of_ne _ _ _ _ (by decide), objGet_defineProp_of_ne _ _ _ _ (by decide),
      objGet_defineProp_of_ne _ _ _ _ (by decide), objGet_defineProp_of_ne _ _ _ _ (by decide),
      objGet_defineProp_of_ne _ _ _ _ (by decide), objGet_defineProp_of_ne _ _ _ _ (by decide),
      objGet_defineProp_of_ne _ _ _ _ (by decide), objGet_defineProp_of_ne _ _ _ _ (by decide),
      objGet_defineProp_of_ne _ _ _ _ (by decide), objGet_spread_after_id _ _ _ (by decide)]
  · rw [objGet_defineProp_of_ne _ _ _ _ (by decide), objGet_defineProp_of_ne _ _ _ _ (by decide),
      objGet_defineProp_of_ne _ _ _ _ (by decide), objGet_defineProp_of_ne _ _ _ _ (by decide),
      objGet_defineProp_self]
  · rw [objGet_defineProp_of_ne _ _ _ _ (by decide), objGet_defineProp_of_ne _ _ _ _ (by decide),
      objGet_defineProp_of_ne _ _ _ _ (by decide), objGet_defineProp_self]
  · rw [objGet_defineProp_of_ne _ _ _ _ (by decide), objGet_defineProp_of_ne _ _ _ _ (by decide),
      objGet_defineProp_of_ne _ _ _ _ (by decide), objGet_defineProp_of_ne _ _ _ _ (by decide),
      objGet_defineProp_of_ne _ _ _ _ (by decide), objGet_defineProp_self]

theorem draftExcerptOf_isSome (body : JsVal)
    (hbody : body = .undefined ∨ ∃ s, body = .str s) :
    ∃ excerpt, jsonPlaceholder.draftExcerptOf body = some excerpt := by
  rcases hbody with rfl | ⟨s, rfl⟩
  · exact ⟨_, rfl⟩
  · unfold jsonPlaceholder.draftExcerptOf
    split
    · exact ⟨_, rfl⟩
    · exact ⟨_, rfl⟩

theorem api_excerptOf_isSome (body : JsVal)
    (hbody : body = .undefined ∨ ∃ s, body = .str s) :
    ∃ excerpt, api.excerptOf body = some excerpt := by
  rcases hbody with rfl | ⟨s, rfl⟩
  · exact ⟨_, rfl⟩
  · exact ⟨_, rfl⟩

theorem get_invalidateCache_posts_key {α V : Type} (cache : Cache α)
    (quote : JsString → JsString) (ser : V → Option JsString) :
    (invalidateCache (some (lit "/posts")) cache).get
      (getCacheKey quote ser (lit "/posts") []) = none := by
  rw [invalidateCache_some,
    JsMap.get_filter_keys cache (fun k => !includes k (lit "/posts"))]
  have hinc : includes (getCacheKey quote ser (lit "/posts") []) (lit "/posts") = true := by
    rw [includes_iff]
    unfold getCacheKey
    exact ⟨[], _, by rw [List.nil_append, List.append_assoc]⟩
  simp [hinc]

/-- C20. For every draft whose body is absent or a string, whatever other
fields it carries, `createPost` returns a record that keeps the title and body
of the draft and has `views = 0`, `likes = 0` and `status = "published"`, in
`jsonPlaceholder.js` and in `api.js`; the cache left by the former holds no
entry under the posts list key; and the fulfilled `addEntry` puts its payload
first in the collection, the prior items following in order. -/
theorem createPost_spec {α : Type} (env : Builtins) (now : Int) (draft : JsObject JsVal)
    (cache : Cache α)
    (hbody : readProp draft (lit "body") = .undefined ∨
      ∃ s, readProp draft (lit "body") = .str s) :
    (∃ record,
      jsonPlaceholder.createPost env now draft cache =
        some (record, invalidateCache (some (lit "/posts")) cache) ∧
      IsCreatedFrom draft record) ∧
    (∃ record, api.createPost env now draft = some record ∧ IsCreatedFrom draft record) ∧
    (∀ (V : Type) (quote : JsString → JsString) (ser : V → Option JsString),
      (invalidateCache (some (lit "/posts")) cache).get
        (getCacheKey quote ser (lit "/posts") []) = none) ∧
    (∀ (ρ : Type) (state : EntriesState ρ) (payload : Entry ρ),
      (entriesReducer state (.addEntryFulfilled payload)).items = payload :: state.items) ∧
    (∀ (record : JsObject JsVal) (entry : Entry (JsObject JsVal)),
      entryOfRecord record = some entry → entry.rest = record) := by
  refine ⟨?_, ?_, ?_, fun _ _ _ => rfl, ?_⟩
  · obtain ⟨excerpt, hex⟩ := draftExcerptOf_isSome _ hbody
    unfold jsonPlaceholder.createPost
    rw [hex]
    exact ⟨_, rfl, isCreatedFrom_newPost draft _ _ _ _ _ _⟩
  · obtain ⟨excerpt, hex⟩ := api_excerptOf_isSome _ hbody
    unfold api.createPost
    rw [hex]
    exact ⟨_, rfl, isCreatedFrom_newPost draft _ _ _ _ _ _⟩
  · intro V quote ser
    exact get_invalidateCache_posts_key cache quote ser
  · intro record entry h
    unfold entryOfRecord at h
    split at h
    · rw [← Option.some.inj h]
    · exact absurd h (by simp)

/-- Witness for C20: the draft with title `T`, body `B` and its own status,
views and likes is created at time 1000 while the posts list is cached; the
record has the defaults, the cache is empty afterwards, and the store entry made
of the record is the first item. -/
theorem createPost_spec_witness :
    ∃ record,
      jsonPlaceholder.createPost sampleBuiltins 1000 sampleDraft
        ([(lit "/posts?\x7b\x7d", { data := 42, timestamp := 0 })] : Cache Nat) =
          some (record, []) ∧
      objGet record (lit "title") = some (.str (lit "T")) ∧
      objGet record (lit "views") = some (.num 0) ∧
      objGet record (lit "status") = some (.str (lit "published")) ∧
      ∃ entry, entryOfRecord record = some entry ∧ entry.id = 1000 ∧
        (entriesReducer (initialState : EntriesState (JsObject JsVal))
          (.addEntryFulfilled entry)).items = [entry] := by
  obtain ⟨⟨record, hrecord, hfields⟩, -, -, hadd, -⟩ :=
    createPost_spec sampleBuiltins 1000 sampleDraft
      ([(lit "/posts?\x7b\x7d", { data := 42, timestamp := 0 })] : Cache Nat)
      (Or.inr ⟨lit "B", rfl⟩)
  have hcache : invalidateCache (some (lit "/posts"))
      ([(lit "/posts?\x7b\x7d", { data := 42, timestamp := 0 })] : Cache Nat) = [] := by
    decide
  rw [hcache] at hrecord
  have hrec := hrecord
  unfold jsonPlaceholder.createPost at hrec
  have hex : jsonPlaceholder.draftExcerptOf (readProp sampleDraft (lit "body")) =
      some (.str (lit "B...")) := rfl
  rw [hex] at hrec
  simp only [Option.some.injEq, Prod.mk.injEq] at hrec
  refine ⟨record, hrecord, hfields.1.trans rfl, hfields.2.2.1, hfields.2.2.2.2, ?_⟩
  rw [← hrec.1]
  exact ⟨_, rfl, rfl, hadd _ _ _⟩

/-! ## Messages for HTTP errors -/

/-- Counterexample for C22: the statuses 501 and 504 lie between 500 and 599, and
`getErrorMessage` gives them the generic message `An error occurred`, which is
none of the three server and gateway messages. -/
theorem getErrorMessage_504_is_generic :
    getErrorMessage 504 = lit "An error occurred" ∧
    getErrorMessage 501 = lit "An error occurred" ∧
    getErrorMessage 504 ≠ lit "Server error - please try again later" ∧
    getErrorMessage 504 ≠ lit "Bad gateway - service temporarily unavailable" ∧
    getErrorMessage 504 ≠ lit "Service unavailable - please try again later" := by
  decide

/-- C22, amended. The function `getErrorMessage` maps 400, 401, 403, 404 and 429
to their messages, 500, 502 and 503 to the server, gateway and unavailable
messages, and every other status, among them every other status from 500 to
599, to `An error occurred`. -/
theorem getErrorMessage_table :
    getErrorMessage 400 = lit "Bad request - please check your input" ∧
    getErrorMessage 401 = lit "Unauthorized - please log in again" ∧
    getErrorMessage 403 =
      lit "Forbidden - you do not have permission to perform this action" ∧
    getErrorMessage 404 = lit "Resource not found" ∧
    getErrorMessage 429 = lit "Too many requests - please try again later" ∧
    getErrorMessage 500 = lit "Server error - please try again later" ∧
    getErrorMessage 502 = lit "Bad gateway - service temporarily unavailable" ∧
    getErrorMessage 503 = lit "Service unavailable - please try again later" ∧
    ∀ status : Int, status ∉ [400, 401, 403, 404, 429, 500, 502, 503] →
      getErrorMessage status = lit "An error occurred" := by
  refine ⟨rfl, rfl, rfl, rfl, rfl, rfl, rfl, rfl, ?_⟩
  intro status h
  simp only [List.mem_cons, List.mem_singleton, List.not_mem_nil, or_false, not_or] at h
  obtain ⟨h1, h2, h3, h4, h5, h6, h7, h8⟩ := h
  unfold getErrorMessage
  rw [if_neg h1, if_neg h2, if_neg h3, if_neg h4, if_neg h5, if_neg h6, if_neg h7, if_neg h8]

/-! ## Validation of a password -/

/-- C26. The function `validatePassword` accepts a string exactly when its
length is at least 6 and at most 128, and rejects the empty string with
`Password is required`; a password of exactly 128 characters is accepted, though
the message of the upper bound says `must be less than 128 characters`. -/
theorem validatePassword_accepts_length_128 :
    (∀ p : JsString, (validatePassword p).isValid = true ↔ 6 ≤ p.length ∧ p.length ≤ 128) ∧
    validatePassword [] = { isValid := false, message := lit "Password is required" } ∧
    (List.replicate 128 97).length = 128 ∧
    validatePassword (List.replicate 128 97) =
      { isValid := true, message := lit "Password is valid" } ∧
    validatePassword (List.replicate 129 97) =
      { isValid := false, message := lit "Password must be less than 128 characters" } := by
  refine ⟨?_, by decide, List.length_replicate 128 97, ?_, ?_⟩
  · intro p
    unfold validatePassword
    cases p with
    | nil => simp
    | cons c p =>
      simp only [List.isEmpty_cons, Bool.false_eq_true, if_false]
      split_ifs with h1 h2
      · simp only [Bool.false_eq_true, false_iff]
        omega
      · simp only [Bool.false_eq_true, false_iff]
        omega
      · simp only [true_iff]
        omega
  · unfold validatePassword
    rw [if_neg (by simp), if_neg (by simp), if_neg (by simp)]
  · unfold validatePassword
    rw [if_neg (by simp), if_neg (by simp), if_pos (by simp)]

/-! ## Relative time -/

theorem formatRelativeTime_of_days (time now : Int)
    (h7 : 7 ≤ (now - time) / 1000 / 60 / 60 / 24) :
    formatRelativeTime (.valid time) now =
      if (now - time) / 1000 / 60 / 60 / 24 / 7 < 4 then
        agoText ((now - time) / 1000 / 60 / 60 / 24 / 7) (lit "week")
      else if (now - time) / 1000 / 60 / 60 / 24 / 30 < 12 then
        agoText ((now - time) / 1000 / 60 / 60 / 24 / 30) (lit "month")
      else agoText ((now - time) / 1000 / 60 / 60 / 24 / 365) (lit "year") := by
  have e1 : ∀ a : Int, a.fdiv 1000 = a / 1000 := fun a => Int.fdiv_eq_ediv a (by decide)
  have e2 : ∀ a : Int, a.fdiv 60 = a / 60 := fun a => Int.fdiv_eq_ediv a (by decide)
  have e3 : ∀ a : Int, a.fdiv 24 = a / 24 := fun a => Int.fdiv_eq_ediv a (by decide)
  have e4 : ∀ a : Int, a.fdiv 7 = a / 7 := fun a => Int.fdiv_eq_ediv a (by decide)
  have e5 : ∀ a : Int, a.fdiv 30 = a / 30 := fun a => Int.fdiv_eq_ediv a (by decide)
  have e6 : ∀ a : Int, a.fdiv 365 = a / 365 := fun a => Int.fdiv_eq_ediv a (by decide)
  unfold formatRelativeTime
  simp only [e1, e2, e3, e4, e5, e6]
  rw [if_neg (by omega), if_neg (by omega), if_neg (by omega), if_neg (by omega)]

/-- C28. A valid date from 28 up to 30 days before now is shown as
`0 months ago`, and one from 360 up to 365 days before now as `0 years ago`:
four weeks are no longer below four, and the months and the years are the days
divided by 30 and by 365. A date 59 seconds before now or in the future is
`Just now`, and dates one minute, two hours, 27 days and 30 days before now
have the stated form. -/
theorem formatRelativeTime_zero_months :
    (∀ time now : Int, 28 * (24 * 60 * 60 * 1000) ≤ now - time →
      now - time < 30 * (24 * 60 * 60 * 1000) →
      formatRelativeTime (.valid time) now = lit "0 months ago") ∧
    (∀ time now : Int, 360 * (24 * 60 * 60 * 1000) ≤ now - time →
      now - time < 365 * (24 * 60 * 60 * 1000) →
      formatRelativeTime (.valid time) now = lit "0 years ago") ∧
    formatRelativeTime (.valid 0) (28 * 24 * 60 * 60 * 1000) = lit "0 months ago" ∧
    formatRelativeTime (.valid 0) (360 * 24 * 60 * 60 * 1000) = lit "0 years ago" ∧
    formatRelativeTime (.valid 0) (27 * 24 * 60 * 60 * 1000) = lit "3 weeks ago" ∧
    formatRelativeTime (.valid 0) (30 * 24 * 60 * 60 * 1000) = lit "1 month ago" ∧
    formatRelativeTime (.valid 0) 59999 = lit "Just now" ∧
    formatRelativeTime (.valid 5000) 0 = lit "Just now" ∧
    formatRelativeTime (.valid 0) 60000 = lit "1 minute ago" ∧
    formatRelativeTime (.valid 0) (2 * 60 * 60 * 1000) = lit "2 hours ago" := by
  refine ⟨?_, ?_, by decide, by decide, by decide, by decide, by decide, by decide, by decide,
    by decide⟩
  · intro time now h1 h2
    rw [formatRelativeTime_of_days time now (by omega), if_neg (by omega), if_pos (by omega)]
    have h0 : (now - time) / 1000 / 60 / 60 / 24 / 30 = 0 := by omega
    rw [h0]
    decide
  · intro time now h1 h2
    rw [formatRelativeTime_of_days time now (by omega), if_neg (by omega), if_neg (by omega)]
    have h0 : (now - time) / 1000 / 60 / 60 / 24 / 365 = 0 := by omega
    rw [h0]
    decide

/-! ## The auth slice: `isAuthenticated` against `user` and `token` -/

/-- C29. After a fulfilled login, a rejected login leaves the user and the
token in the state and sets `isAuthenticated` to false, so the state reached
from the initial one by `login.fulfilled`, `login.pending`, `login.rejected` has
a user and a token and is not authenticated; the same holds when a session
restored by `checkAuth` is followed by a rejected login. -/
theorem loginRejected_keeps_user_and_token :
    ([AuthAction.loginFulfilled adminSession, AuthAction.loginPending,
        AuthAction.loginRejected (lit "Invalid credentials")].foldl authReducer
      authSlice.initialState).isAuthenticated = false ∧
    ([AuthAction.loginFulfilled adminSession, AuthAction.loginPending,
        AuthAction.loginRejected (lit "Invalid credentials")].foldl authReducer
      authSlice.initialState).user.isSome = true ∧
    ([AuthAction.loginFulfilled adminSession, AuthAction.loginPending,
        AuthAction.loginRejected (lit "Invalid credentials")].foldl authReducer
      authSlice.initialState).token = some (lit "token") ∧
    ([AuthAction.checkAuthPending, AuthAction.loginPending,
        AuthAction.checkAuthFulfilled adminSession,
        AuthAction.loginRejected (lit "Invalid credentials")].foldl authReducer
      authSlice.initialState).isAuthenticated = false ∧
    ([AuthAction.checkAuthPending, AuthAction.loginPending,
        AuthAction.checkAuthFulfilled adminSession,
        AuthAction.loginRejected (lit "Invalid credentials")].foldl authReducer
      authSlice.initialState).token = some (lit "token") :=
  ⟨rfl, rfl, rfl, rfl, rfl⟩

theorem authReducer_keeps_session_of_authenticated (state : AuthState) (action : AuthAction)
    (h : state.isAuthenticated = true → state.user.isSome = true ∧ state.token.isSome = true) :
    (authReducer state action).isAuthenticated = true →
      (authReducer state action).user.isSome = true ∧
        (authReducer state action).token.isSome = true := by
  cases action <;> simp [authReducer] <;> exact h

/-- One direction of the relation holds in every reachable state: an
authenticated state has a user and a token. -/
theorem authenticated_has_session (actions : List AuthAction) :
    (actions.foldl authReducer authSlice.initialState).isAuthenticated = true →
      (actions.foldl authReducer authSlice.initialState).user.isSome = true ∧
        (actions.foldl authReducer authSlice.initialState).token.isSome = true := by
  have hgen : ∀ (actions : List AuthAction) (state : AuthState),
      (state.isAuthenticated = true → state.user.isSome = true ∧ state.token.isSome = true) →
      (actions.foldl authReducer state).isAuthenticated = true →
        (actions.foldl authReducer state).user.isSome = true ∧
          (actions.foldl authReducer state).token.isSome = true := by
    intro actions
    induction actions with
    | nil => exact fun state h => h
    | cons action actions ih =>
      intro state h
      exact ih _ (authReducer_keeps_session_of_authenticated state action h)
  exact hgen actions _ (fun h => absurd h (by simp [authSlice.initialState]))

/-! ## The tags of an enriched post -/

theorem floor_tags_bounds (r : ℚ) (hd : IsDouble r) (h0 : 0 ≤ r) (h1 : r < 1) :
    0 ≤ ⌊mulDouble r 6⌋ ∧ ⌊mulDouble r 6⌋ < 6 := by
  simpa [mulDouble] using floor_toDouble_mul r 6 hd h0 h1 (by decide)

theorem floor_mulDouble_sample_tags : ⌊mulDouble sampleDraws.tags 6⌋ = 5 := by
  have hx : sampleDraws.tags = 8998192055486251 / 9007199254740992 := rfl
  unfold mulDouble
  rw [hx, toDouble_eq _ 2 6748644041614688 (by norm_num) (by norm_num) (by decide)
    (by
      have hq : (8998192055486251 / 9007199254740992 * 6 : ℚ) / 2 ^ ((2 : Int) - 52) =
          26994576166458753 / 4 := by norm_num
      have hf : ⌊(26994576166458753 / 4 : ℚ)⌋ = 6748644041614688 := by
        rw [Int.floor_eq_iff]
        norm_num
      rw [hq]
      unfold roundHalfEven
      rw [hf]
      norm_num)]
  rw [Int.floor_eq_iff]
  norm_num

theorem api_enhancePost_tags (env : Builtins) (now : Int) (r : Draws)
    (post record : JsObject JsVal) (h : api.enhancePost env now r post = some record) :
    objGet record (lit "tags") =
      some (indexArray [.str (lit "technology"), .str (lit "programming"),
        .str (lit "web development"), .str (lit "react"), .str (lit "javascript"),
        .str (lit "tutorial")] ⌊mulDouble r.tags 6⌋) := by
  unfold api.enhancePost at h
  cases hex : api.excerptOf (readProp post (lit "body")) with
  | none =>
    rw [hex] at h
    exact absurd h (by simp)
  | some excerpt =>
    rw [hex] at h
    simp only [Option.some.injEq] at h
    subst h
    rw [objGet_defineProp_of_ne _ _ _ _ (by decide), objGet_defineProp_of_ne _ _ _ _ (by decide),
      objGet_defineProp_self]

theorem jsonPlaceholder_enhancePost_tags (env : Builtins) (now : Int) (r : Draws)
    (post record : JsObject JsVal)
    (h : jsonPlaceholder.enhancePost env now r post = some record) :
    objGet record (lit "tags") =
      some (indexArray [.str (lit "technology"), .str (lit "programming"),
        .str (lit "web development"), .str (lit "react"), .str (lit "javascript"),
        .str (lit "tutorial")] ⌊mulDouble r.tags 6⌋) := by
  unfold jsonPlaceholder.enhancePost at h
  cases hex : jsonPlaceholder.excerptOf (readProp post (lit "body")) with
  | none =>
    rw [hex] at h
    exact absurd h (by simp)
  | some excerpt =>
    rw [hex] at h
    simp only [Option.some.injEq] at h
    subst h
    rw [objGet_defineProp_of_ne _ _ _ _ (by decide), objGet_defineProp_of_ne _ _ _ _ (by decide),
      objGet_defineProp_self]

theorem tags_is_string (r : ℚ) (hd : IsDouble r) (h0 : 0 ≤ r) (h1 : r < 1) :
    ∃ t, indexArray [.str (lit "technology"), .str (lit "programming"),
        .str (lit "web development"), .str (lit "react"), .str (lit "javascript"),
        .str (lit "tutorial")] ⌊mulDouble r 6⌋ = .str t ∧
      t ∈ [lit "technology", lit "programming", lit "web development", lit "react",
        lit "javascript", lit "tutorial"] := by
  have hb := floor_tags_bounds r hd h0 h1
  have hcases : ⌊mulDouble r 6⌋ = 0 ∨ ⌊mulDouble r 6⌋ = 1 ∨ ⌊mulDouble r 6⌋ = 2 ∨
      ⌊mulDouble r 6⌋ = 3 ∨ ⌊mulDouble r 6⌋ = 4 ∨ ⌊mulDouble r 6⌋ = 5 := by omega
  rcases hcases with h | h | h | h | h | h <;> rw [h]
  · exact ⟨_, rfl, by decide⟩
  · exact ⟨_, rfl, by decide⟩
  · exact ⟨_, rfl, by decide⟩
  · exact ⟨_, rfl, by decide⟩
  · exact ⟨_, rfl, by decide⟩
  · exact ⟨_, rfl, by decide⟩

/-- C25. The enrichment of both clients sets `tags` to one string, the element
of the six known tags at index `floor(r * 6)` for the draw `r`, a double with
`0 <= r < 1`, and never to a list: for the sample post and the draw 0.999 the
field is the string `tutorial`. -/
theorem enhancePost_tags_is_one_string :
    (∀ (env : Builtins) (now : Int) (r : Draws) (post record : JsObject JsVal),
      IsDouble r.tags → 0 ≤ r.tags → r.tags < 1 →
      (api.enhancePost env now r post = some record ∨
        jsonPlaceholder.enhancePost env now r post = some record) →
      ∃ t, objGet record (lit "tags") = some (.str t) ∧
        t ∈ [lit "technology", lit "programming", lit "web development", lit "react",
          lit "javascript", lit "tutorial"]) ∧
    (∃ record, api.enhancePost sampleBuiltins 100000000000 sampleDraws samplePost = some record ∧
      objGet record (lit "tags") = some (.str (lit "tutorial"))) ∧
    (∃ record,
      jsonPlaceholder.enhancePost sampleBuiltins 100000000000 sampleDraws samplePost =
        some record ∧
      objGet record (lit "tags") = some (.str (lit "tutorial"))) := by
  have hfloor := floor_mulDouble_sample_tags
  refine ⟨?_, ?_, ?_⟩
  · intro env now r post record hd h0 h1 h
    obtain ⟨t, ht, hmem⟩ := tags_is_string r.tags hd h0 h1
    rcases h with h | h
    · exact ⟨t, (api_enhancePost_tags env now r post record h).trans (congrArg some ht), hmem⟩
    · exact ⟨t, (jsonPlaceholder_enhancePost_tags env now r post record h).trans
        (congrArg some ht), hmem⟩
  · obtain ⟨record, h⟩ :=
      (enhancePost_isSome sampleBuiltins 100000000000 sampleDraws samplePost
        (lit "A short body") rfl).1
    refine ⟨record, h, (api_enhancePost_tags _ _ _ _ _ h).trans ?_⟩
    rw [hfloor]
    rfl
  · obtain ⟨record, h⟩ :=
      (enhancePost_isSome sampleBuiltins 100000000000 sampleDraws samplePost
        (lit "A short body") rfl).2
    refine ⟨record, h, (jsonPlaceholder_enhancePost_tags _ _ _ _ _ h).trans ?_⟩
    rw [hfloor]
    rfl

/-! ## The two implementations of `createPost` -/

theorem api_createPost_excerpt (env : Builtins) (now : Int) (draft record : JsObject JsVal)
    (h : api.createPost env now draft = some record) :
    ∃ excerpt, api.excerptOf (readProp draft (lit "body")) = some excerpt ∧
      objGet record (lit "excerpt") = some excerpt := by
  unfold api.createPost at h
  cases hex : api.excerptOf (readProp draft (lit "body")) with
  | none =>
    rw [hex] at h
    exact absurd h (by simp)
  | some excerpt =>
    rw [hex] at h
    simp only [Option.some.injEq] at h
    subst h
    exact ⟨excerpt, rfl, by
      rw [objGet_defineProp_of_ne _ _ _ _ (by decide), objGet_defineProp_self]⟩

theorem jsonPlaceholder_createPost_excerpt {α : Type} (env : Builtins) (now : Int)
    (draft record : JsObject JsVal) (cache cache2 : Cache α)
    (h : jsonPlaceholder.createPost env now draft cache = some (record, cache2)) :
    ∃ excerpt, jsonPlaceholder.draftExcerptOf (readProp draft (lit "body")) = some excerpt ∧
      objGet record (lit "excerpt") = some excerpt := by
  unfold jsonPlaceholder.createPost at h
  cases hex : jsonPlaceholder.draftExcerptOf (readProp draft (lit "body")) with
  | none =>
    rw [hex] at h
    exact absurd h (by simp)
  | some excerpt =>
    rw [hex] at h
    simp only [Option.some.injEq, Prod.mk.injEq] at h
    obtain ⟨h, -⟩ := h
    subst h
    exact ⟨excerpt, rfl, by
      rw [objGet_defineProp_of_ne _ _ _ _ (by decide), objGet_defineProp_self]⟩

/-- C27. The two implementations of `createPost` differ in the excerpt of a
draft without a body or with the empty body: `api.js` gives the texts
`undefined...` and `...`, `jsonPlaceholder.js` gives the empty string for both.
Both calls return a record, at every time and for every builtin table. -/
theorem createPost_excerpts_differ :
    (∀ (env : Builtins) (now : Int) (draft : JsObject JsVal) (cache : Cache Nat),
      readProp draft (lit "body") = .undefined →
      (∃ record, api.createPost env now draft = some record ∧
        objGet record (lit "excerpt") = some (.str (lit "undefined..."))) ∧
      (∃ record cache2, jsonPlaceholder.createPost env now draft cache = some (record, cache2) ∧
        objGet record (lit "excerpt") = some (.str []))) ∧
    (∀ (env : Builtins) (now : Int) (draft : JsObject JsVal) (cache : Cache Nat),
      readProp draft (lit "body") = .str [] →
      (∃ record, api.createPost env now draft = some record ∧
        objGet record (lit "excerpt") = some (.str (lit "..."))) ∧
      (∃ record cache2, jsonPlaceholder.createPost env now draft cache = some (record, cache2) ∧
        objGet record (lit "excerpt") = some (.str []))) ∧
    (∃ record, api.createPost sampleBuiltins 1000 [(lit "title", .str (lit "T"))] = some record ∧
      objGet record (lit "excerpt") = some (.str (lit "undefined..."))) ∧
    (∃ record,
      jsonPlaceholder.createPost sampleBuiltins 1000 [(lit "title", .str (lit "T"))]
        ([] : Cache Nat) = some (record, []) ∧
      objGet record (lit "excerpt") = some (.str [])) := by
  have hgen : ∀ (env : Builtins) (now : Int) (draft : JsObject JsVal) (cache : Cache Nat)
      (e1 e2 : JsVal), api.excerptOf (readProp draft (lit "body")) = some e1 →
      jsonPlaceholder.draftExcerptOf (readProp draft (lit "body")) = some e2 →
      (∃ record, api.createPost env now draft = some record ∧
        objGet record (lit "excerpt") = some e1) ∧
      (∃ record cache2, jsonPlaceholder.createPost env now draft cache = some (record, cache2) ∧
        objGet record (lit "excerpt") = some e2) := by
    intro env now draft cache e1 e2 h1 h2
    constructor
    · have hsome : ∃ record, api.createPost env now draft = some record := by
        unfold api.createPost
        rw [h1]
        exact ⟨_, rfl⟩
      obtain ⟨record, hrecord⟩ := hsome
      obtain ⟨excerpt, hex, hget⟩ := api_createPost_excerpt env now draft record hrecord
      rw [h1] at hex
      exact ⟨record, hrecord, hget.trans hex.symm⟩
    · have hsome : ∃ record cache2,
          jsonPlaceholder.createPost env now draft cache = some (record, cache2) := by
        unfold jsonPlaceholder.createPost
        rw [h2]
        exact ⟨_, _, rfl⟩
      obtain ⟨record, cache2, hrecord⟩ := hsome
      obtain ⟨excerpt, hex, hget⟩ :=
        jsonPlaceholder_createPost_excerpt env now draft record cache cache2 hrecord
      rw [h2] at hex
      exact ⟨record, cache2, hrecord, hget.trans hex.symm⟩
  refine ⟨?_, ?_, ?_, ?_⟩
  · intro env now draft cache hbody
    exact hgen env now draft cache _ _ (by rw [hbody]; rfl) (by rw [hbody]; rfl)
  · intro env now draft cache hbody
    exact hgen env now draft cache _ _ (by rw [hbody]; rfl) (by rw [hbody]; rfl)
  · exact (hgen sampleBuiltins 1000 [(lit "title", .str (lit "T"))] [] _ _ rfl rfl).1
  · obtain ⟨record, cache2, h, hex⟩ :=
      (hgen sampleBuiltins 1000 [(lit "title", .str (lit "T"))] [] _ _ rfl rfl).2
    have hc : cache2 = [] := by
      unfold jsonPlaceholder.createPost at h
      have hd : jsonPlaceholder.draftExcerptOf
          (readProp [(lit "title", JsVal.str (lit "T"))] (lit "body")) = some (.str []) := rfl
      rw [hd] at h
      simp only [Option.some.injEq, Prod.mk.injEq] at h
      rw [← h.2]
      rfl
    subst hc
    exact ⟨record, h, hex⟩

/-! ## Distinct ids in the collection -/

theorem set_eq_self_of_getElem {α : Type} (l : List α) (i : Nat) (h : i < l.length) (a : α)
    (ha : l.get ⟨i, h⟩ = a) : l.set i a = l := by
  induction l generalizing i with
  | nil => rfl
  | cons x l ih =>
    cases i with
    | zero =>
      simp only [List.get_eq_getElem, List.getElem_cons_zero] at ha
      rw [List.set_cons_zero, ha]
    | succ i =>
      simp only [List.get_eq_getElem, List.getElem_cons_succ] at ha
      rw [List.set_cons_succ, ih i (Nat.lt_of_succ_lt_succ h) (by simpa using ha)]

theorem ids_updateEntryFulfilled {ρ : Type} (state : EntriesState ρ) (payload : Entry ρ) :
    (updateEntryFulfilled state payload).items.map (fun item => item.id) =
      state.items.map (fun item => item.id) := by
  unfold updateEntryFulfilled
  cases hfind : state.items.findIdx? (fun item => item.id == payload.id) with
  | none => rfl
  | some index =>
    obtain ⟨hlt, hp, -⟩ := List.findIdx?_eq_some_iff_getElem.1 hfind
    simp only [List.map_set]
    apply set_eq_self_of_getElem _ _ (by simpa using hlt)
    simp only [List.get_eq_getElem, List.getElem_map]
    exact eq_of_beq hp

theorem findIdx?_append_cons {α : Type} (p : α → Bool) (front : List α) (e : α)
    (back : List α) (hfront : ∀ x ∈ front, p x = false) (he : p e = true) :
    (front ++ e :: back).findIdx? p = some front.length := by
  rw [List.findIdx?_append, List.findIdx?_eq_none_iff.2 hfront, List.findIdx?_cons, if_pos he]
  simp

theorem set_length_append_cons {α : Type} (front : List α) (e a : α) (back : List α) :
    (front ++ e :: back).set front.length a = front ++ a :: back := by
  induction front with
  | nil => rfl
  | cons x front ih =>
    rw [List.cons_append, List.length_cons, List.set_cons_succ, ih, List.cons_append]

/-- Counterexample for C24: two drafts created in the same millisecond get the
same id `Date.now()`, and adding the second record to a collection that holds
the first gives one with the id 1000 twice. -/
theorem addEntryFulfilled_duplicates_id :
    ∃ record entry, api.createPost sampleBuiltins 1000 sampleDraft = some record ∧
      entryOfRecord record = some entry ∧
      ((entriesReducer (initialState : EntriesState (JsObject JsVal))
        (.addEntryFulfilled entry)).items.map (fun item => item.id)).Nodup ∧
      (entriesReducer (entriesReducer (initialState : EntriesState (JsObject JsVal))
        (.addEntryFulfilled entry)) (.addEntryFulfilled entry)).items.map
          (fun item => item.id) = [1000, 1000] ∧
      ¬ ((entriesReducer (entriesReducer (initialState : EntriesState (JsObject JsVal))
        (.addEntryFulfilled entry)) (.addEntryFulfilled entry)).items.map
          (fun item => item.id)).Nodup := by
  refine ⟨_, _, rfl, rfl, ?_, rfl, ?_⟩
  · exact List.nodup_singleton _
  · intro h
    exact (List.nodup_cons.1 h).1 (List.mem_singleton.2 rfl)

/-- C24, amended. For a collection with pairwise distinct ids, the ids are
again pairwise distinct after a fulfilled update and after a fulfilled delete,
with any payload; after a fulfilled add they are pairwise distinct exactly when
the id of the added record is not yet in the collection. -/
theorem ids_nodup_preserved {ρ : Type} (state : EntriesState ρ)
    (h : (state.items.map (fun item => item.id)).Nodup) :
    (∀ payload : Entry ρ,
      ((entriesReducer state (.addEntryFulfilled payload)).items.map
        (fun item => item.id)).Nodup ↔
      payload.id ∉ state.items.map (fun item => item.id)) ∧
    (∀ payload : Entry ρ,
      ((entriesReducer state (.updateEntryFulfilled payload)).items.map
        (fun item => item.id)).Nodup) ∧
    (∀ payload : Int,
      ((entriesReducer state (.deleteEntryFulfilled payload)).items.map
        (fun item => item.id)).Nodup) := by
  refine ⟨?_, ?_, ?_⟩
  · intro payload
    show ((payload :: state.items).map (fun item => item.id)).Nodup ↔ _
    rw [List.map_cons, List.nodup_cons]
    exact ⟨fun hn => hn.1, fun hn => ⟨hn, h⟩⟩
  · intro payload
    show ((updateEntryFulfilled state payload).items.map (fun item => item.id)).Nodup
    rw [ids_updateEntryFulfilled]
    exact h
  · intro payload
    show ((state.items.filter (fun item => item.id != payload)).map
      (fun item => item.id)).Nodup
    exact h.sublist ((List.filter_sublist _).map _)

/-- Witness for C24: in the state with the entries 1, 7 and 9, an update of
entry 7 and a delete of entry 9 keep the ids distinct, an add of an entry with
the id 7 does not, and an add of an entry with the id 8 does. -/
theorem ids_nodup_preserved_witness :
    (storeWithSeven.items.map (fun item => item.id)).Nodup ∧
    ¬ ((entriesReducer storeWithSeven (.addEntryFulfilled
        { id := 7, title := [], body := [], rest := [] })).items.map
          (fun item => item.id)).Nodup ∧
    ((entriesReducer storeWithSeven (.addEntryFulfilled
        { id := 8, title := [], body := [], rest := [] })).items.map
          (fun item => item.id)).Nodup ∧
    ((entriesReducer storeWithSeven (.updateEntryFulfilled
        { id := 7, title := [], body := [], rest := [] })).items.map
          (fun item => item.id)).Nodup ∧
    ((entriesReducer storeWithSeven (.deleteEntryFulfilled 9)).items.map
      (fun item => item.id)).Nodup := by
  have hnodup : (storeWithSeven.items.map (fun item => item.id)).Nodup := by
    show ([1, 7, 9] : List Int).Nodup
    decide
  have h := ids_nodup_preserved storeWithSeven hnodup
  refine ⟨hnodup, ?_, ?_, h.2.1 _, h.2.2 9⟩
  · rw [h.1]
    show ¬ (7 : Int) ∉ ([1, 7, 9] : List Int)
    decide
  · rw [h.1]
    show (8 : Int) ∉ ([1, 7, 9] : List Int)
    decide

/-! ## Updating an entry -/

theorem objGet_objWithout (o : JsObject JsVal) (key other : JsString) :
    objGet (objWithout o other) key = if key = other then none else objGet o key := by
  induction o with
  | nil =>
    unfold objWithout
    split_ifs <;> rfl
  | cons e o ih =>
    unfold objWithout at ih ⊢
    rw [List.filter_cons]
    by_cases he : e.1 = other
    · have hb : (!(e.1 == other)) = false := by simp [he]
      rw [hb]
      simp only [Bool.false_eq_true, if_false]
      rw [ih, objGet_cons]
      by_cases hk : key = other
      · rw [if_pos hk, if_pos hk]
      · rw [if_neg hk, if_neg hk, if_neg (fun h => hk (h.symm.trans he))]
    · have hb : (!(e.1 == other)) = true := by simp [he]
      rw [hb]
      simp only [if_true]
      rw [objGet_cons, objGet_cons, ih]
      by_cases hk : key = other
      · rw [if_pos hk, if_pos hk, if_neg (fun h => he (h.trans hk))]
      · rw [if_neg hk, if_neg hk]

theorem objGet_updateEntry (env : Builtins) (now : Int) (arg : JsObject JsVal) :
    objGet (updateEntry env now arg) (lit "updatedAt") = some (.str (env.toISOString now)) ∧
    objGet (updateEntry env now arg) (lit "id") = some (readProp arg (lit "id")) ∧
    ∀ key, key ≠ lit "id" → key ≠ lit "updatedAt" →
      objGet (updateEntry env now arg) key = objGet arg key := by
  unfold updateEntry api.updatePost
  refine ⟨objGet_defineProp_self _ _ _, ?_, ?_⟩
  · rw [objGet_defineProp_of_ne _ _ _ _ (by decide), objGet_spreadInto, objGet_objWithout,
      if_pos rfl]
    exact objGet_defineProp_self _ _ _
  · intro key hid hupdated
    rw [objGet_defineProp_of_ne _ _ _ _ (Ne.symm hupdated), objGet_spreadInto,
      objGet_objWithout, if_neg hid]
    cases hk : objGet arg key with
    | some v => rfl
    | none =>
      simp only []
      rw [objGet_defineProp_of_ne _ _ _ _ (Ne.symm hid)]
      rfl

theorem entryOfRecord_eq_some (record : JsObject JsVal) (entry : Entry (JsObject JsVal))
    (h : entryOfRecord record = some entry) :
    readProp record (lit "id") = .num entry.id ∧ entry.rest = record := by
  unfold entryOfRecord at h
  split at h
  · rename_i id title body hid _ _
    rw [← Option.some.inj h]
    exact ⟨hid, rfl⟩
  · exact absurd h (by simp)

/-- Counterexample for C21: entry 7 of the store has the status `draft` and 12
views; after `updateEntry` with a new title and body fulfils, the stored entry
7 is the returned record, which has neither a status nor views, nor a creation
time. -/
theorem updateEntry_drops_unmentioned_fields :
    objGet enrichedRecord (lit "status") = some (.str (lit "draft")) ∧
    objGet sampleUpdate (lit "status") = none ∧
    ∃ payload, entryOfRecord (updateEntry sampleBuiltins 5000 sampleUpdate) = some payload ∧
      (entriesReducer storeWithSeven (.updateEntryFulfilled payload)).items.map
        (fun item => item.rest) =
        [recordOne,
          [(lit "id", .num 7), (lit "title", .str (lit "New title")),
            (lit "body", .str (lit "New body")), (lit "updatedAt", .str (lit "5000"))],
          recordNine] ∧
      objGet payload.rest (lit "status") = none ∧
      objGet payload.rest (lit "views") = none ∧
      objGet payload.rest (lit "createdAt") = none :=
  ⟨rfl, rfl, _, rfl, rfl, rfl, rfl, rfl⟩

theorem findIdx?_map_congr {α β : Type} (f : α → β) (q : β → Bool) (p : α → Bool)
    (l : List α) (h : ∀ x ∈ l, q (f x) = p x) (start : Nat) :
    (l.map f).findIdx? q start = l.findIdx? p start := by
  induction l generalizing start with
  | nil => rfl
  | cons x l ih =>
    rw [List.map_cons, List.findIdx?_cons, List.findIdx?_cons, h x (List.mem_cons_self _ _),
      ih (fun y hy => h y (List.mem_cons_of_mem _ hy))]

/-- The two embeddings of `updateEntry.fulfilled` agree: on entries whose
record carries their numeric id, the reducer on entries and the reducer on
records replace the same item. -/
theorem updateEntryFulfilled_map_rest (state : EntriesState (JsObject JsVal))
    (payload : Entry (JsObject JsVal))
    (hitems : ∀ x ∈ state.items, readProp x.rest (lit "id") = .num x.id)
    (hpayload : readProp payload.rest (lit "id") = .num payload.id) :
    (updateEntryFulfilled state payload).items.map (fun item => item.rest) =
      updateEntryFulfilledRecords (state.items.map (fun item => item.rest)) payload.rest := by
  unfold updateEntryFulfilled updateEntryFulfilledRecords
  rw [findIdx?_map_congr (fun item : Entry (JsObject JsVal) => item.rest) _
    (fun item => item.id == payload.id) state.items
    (fun x hx => by rw [hitems x hx, hpayload]; rfl) 0]
  cases state.items.findIdx? (fun item => item.id == payload.id) with
  | none => rfl
  | some index => exact List.map_set

theorem readProp_updateArgument_id (i : Int) (p : JsObject JsVal)
    (hp : objGet p (lit "id") = none ∨ objGet p (lit "id") = some (.num i)) :
    readProp (updateArgument (.num i) p) (lit "id") = .num i := by
  unfold readProp updateArgument
  rw [objGet_spreadInto]
  rcases hp with hp | hp
  · rw [hp]
    simp only []
    rw [objGet_defineProp_self]
    rfl
  · rw [hp]
    rfl

/-- C21, amended. When the collection holds an entry `e` with the numeric id
`i`, no entry before it has that id, and `updateEntry` is called with
`{ id: i, ...p }` for a patch `p` that does not change the id, the fulfilled
update puts the returned record in the place of `e` and leaves all other
entries and the order as they are. The returned record has the id `i`,
`updatedAt` set to the current time, and under every other key exactly what the
patch has under it; a field of `e` the patch does not mention is not kept. -/
theorem updateEntry_replaces_entry (env : Builtins) (now : Int) (i : Int)
    (p e : JsObject JsVal) (front back : List (JsObject JsVal))
    (he : readProp e (lit "id") = .num i)
    (hfront : ∀ x ∈ front, strictEq (readProp x (lit "id")) (.num i) = false)
    (hp : objGet p (lit "id") = none ∨ objGet p (lit "id") = some (.num i)) :
    updateEntryFulfilledRecords (front ++ e :: back)
        (updateEntry env now (updateArgument (.num i) p)) =
      front ++ updateEntry env now (updateArgument (.num i) p) :: back ∧
    objGet (updateEntry env now (updateArgument (.num i) p)) (lit "id") = some (.num i) ∧
    objGet (updateEntry env now (updateArgument (.num i) p)) (lit "updatedAt") =
      some (.str (env.toISOString now)) ∧
    ∀ key, key ≠ lit "id" → key ≠ lit "updatedAt" →
      objGet (updateEntry env now (updateArgument (.num i) p)) key = objGet p key := by
  have harg := readProp_updateArgument_id i p hp
  obtain ⟨hupdated, hrecid, hkeys⟩ := objGet_updateEntry env now (updateArgument (.num i) p)
  rw [harg] at hrecid
  have hread : readProp (updateEntry env now (updateArgument (.num i) p)) (lit "id") =
      .num i := by
    unfold readProp
    rw [hrecid]
    rfl
  refine ⟨?_, hrecid, hupdated, ?_⟩
  · unfold updateEntryFulfilledRecords
    rw [hread, findIdx?_append_cons _ front e back hfront (by rw [he]; simp [strictEq])]
    exact set_length_append_cons front e _ back
  · intro key hid hupd
    rw [hkeys key hid hupd]
    exact objGet_spread_after_id p (.num i) key hid

/-- Witness for C21: entry 7 of the sample collection is updated at time 5000
with a patch that holds a status only; the stored record then has the id, the
status and the update time, and no title. -/
theorem updateEntry_replaces_entry_witness :
    updateEntryFulfilledRecords [recordOne, enrichedRecord, recordNine]
        (updateEntry sampleBuiltins 5000 (updateArgument (.num 7) statusPatch)) =
      [recordOne,
        [(lit "id", .num 7), (lit "status", .str (lit "archived")),
          (lit "updatedAt", .str (lit "5000"))],
        recordNine] ∧
    objGet (updateEntry sampleBuiltins 5000 (updateArgument (.num 7) statusPatch))
      (lit "title") = none := by
  have h := updateEntry_replaces_entry sampleBuiltins 5000 7 statusPatch enrichedRecord
    [recordOne] [recordNine] rfl
    (by
      intro x hx
      rw [List.mem_singleton.1 hx]
      rfl)
    (Or.inl rfl)
  refine ⟨h.1.trans rfl, (h.2.2.2 (lit "title") (by decide) (by decide)).trans rfl⟩

/-! ## Notifications: the delay and the id of the removal -/

theorem digitChar_le (k : Nat) (h : k < 10) : (Nat.digitChar k).toNat ≤ 57 := by
  interval_cases k <;> decide

theorem toDigitsCore_le (fuel n : Nat) (ds : List Char)
    (hds : ∀ c ∈ ds, c.toNat ≤ 57) : ∀ c ∈ Nat.toDigitsCore 10 fuel n ds, c.toNat ≤ 57 := by
  induction fuel generalizing n ds with
  | zero => simpa [Nat.toDigitsCore] using hds
  | succ fuel ih =>
    have hcons : ∀ c ∈ Nat.digitChar (n % 10) :: ds, c.toNat ≤ 57 := by
      intro c hc
      rcases List.mem_cons.1 hc with h | h
      · rw [h]
        exact digitChar_le _ (Nat.mod_lt _ (by decide))
      · exact hds c h
    unfold Nat.toDigitsCore
    simp only []
    split
    · exact hcons
    · exact ih _ _ hcons

theorem natToString_ne_id (n : Nat) : natToString n ≠ lit "id" := by
  intro h
  have hmem : 105 ∈ natToString n := by
    rw [h]
    decide
  unfold natToString Nat.toDigits at hmem
  obtain ⟨d, hd, hd105⟩ := List.mem_map.1 hmem
  have := toDigitsCore_le _ _ [] (fun _ h => absurd h (List.not_mem_nil _)) d hd
  omega

theorem objGet_spreadSource_id (notification : JsVal) (h : HasNoOwnId notification) :
    objGet (spreadSource notification) (lit "id") = none := by
  cases notification with
  | str s =>
    rw [objGet_eq_none_iff]
    intro hmem
    simp only [spreadSource, List.map_map, List.mem_map, Function.comp] at hmem
    obtain ⟨e, -, he⟩ := hmem
    exact natToString_ne_id _ he
  | obj fields => exact h
  | undefined => exact absurd h id
  | null => exact absurd h id
  | bool b => exact absurd h id
  | num n => exact absurd h id
  | arr items => exact absurd h id

theorem showNotification_of_hasNoOwnId (defaultType : JsString) (delay : Int)
    (notification : JsVal) (now : Int) (h : HasNoOwnId notification) :
    ∃ shown, showNotification defaultType delay notification now = some shown ∧
      shown.delay = delay ∧ shown.removeId = .num now ∧
      objGet shown.payload (lit "id") = some (.num now) := by
  have hsrc := objGet_spreadSource_id notification h
  cases notification with
  | str s =>
    refine ⟨_, rfl, rfl, rfl, ?_⟩
    show objGet (spreadInto _ (spreadSource (.str s))) (lit "id") = _
    rw [objGet_spreadInto, hsrc]
    simp only []
    rw [objGet_defineProp_of_ne _ _ _ _ (by decide), objGet_defineProp_of_ne _ _ _ _ (by decide),
      objGet_defineProp_self]
  | obj fields =>
    refine ⟨_, rfl, rfl, rfl, ?_⟩
    show objGet (spreadInto _ (spreadSource (.obj fields))) (lit "id") = _
    rw [objGet_spreadInto, hsrc]
    simp only []
    rw [objGet_defineProp_of_ne _ _ _ _ (by decide), objGet_defineProp_of_ne _ _ _ _ (by decide),
      objGet_defineProp_self]
  | undefined => exact absurd h id
  | null => exact absurd h id
  | bool b => exact absurd h id
  | num n => exact absurd h id
  | arr items => exact absurd h id

theorem removesAdded_of_id (env : Builtins) (added now : Int)
    (notifications : List (JsObject JsVal)) (shown : Shown)
    (hremove : shown.removeId = .num now)
    (hid : objGet shown.payload (lit "id") = some (.num now)) :
    RemovesAdded env added notifications shown := by
  have hread : readProp (spreadInto (defineProp (defineProp [] (lit "id") (.num added))
      (lit "timestamp") (.str (env.toISOString added))) shown.payload) (lit "id") =
      .num now := by
    unfold readProp
    rw [objGet_spreadInto, hid]
    rfl
  refine ⟨_, rfl, hread.trans hremove.symm, ?_⟩
  unfold removeNotification
  rw [List.filter_append, hremove]
  have hfilter : List.filter (fun notification =>
      !strictEq (readProp notification (lit "id")) (.num now))
      [spreadInto (defineProp (defineProp [] (lit "id") (.num added))
        (lit "timestamp") (.str (env.toISOString added))) shown.payload] = [] := by
    rw [List.filter_cons, hread]
    simp [strictEq]
  rw [hfilter, List.append_nil]

theorem shown_of_hasNoOwnId (env : Builtins) (defaultType : JsString) (delay : Int)
    (notification : JsVal) (now added : Int) (notifications : List (JsObject JsVal))
    (h : HasNoOwnId notification) :
    ∃ shown, showNotification defaultType delay notification now = some shown ∧
      shown.delay = delay ∧ RemovesAdded env added notifications shown := by
  obtain ⟨shown, hshown, hdelay, hremove, hid⟩ :=
    showNotification_of_hasNoOwnId defaultType delay notification now h
  exact ⟨shown, hshown, hdelay, removesAdded_of_id env added now notifications shown hremove hid⟩

theorem hasNoOwnId_hook (type : JsString) (message : JsVal) :
    HasNoOwnId (.obj [(lit "type", .str type), (lit "message", message)]) := by
  show objGet _ (lit "id") = none
  have h1 : lit "type" ≠ lit "id" := by decide
  have h2 : lit "message" ≠ lit "id" := by decide
  rw [objGet_cons, if_neg h1, objGet_cons, if_neg h2]
  rfl

/-- Counterexample for C23. The creator `showWarningNotification` starts a timer
of 6000 ms, while the callback `showWarning` of the hook shows a notification
of the same kind `warning` with a timer of 5000 ms, so the duration is not a
function of the kind. And for an argument with an `id` of its own, the id of
the added notification is that id, while the timer removes the id `Date.now()`
and so leaves the notification in the list. -/
theorem showWarningNotification_delay_6000 :
    (∃ shown,
      showWarningNotification (.obj [(lit "type", .str (lit "warning")),
        (lit "message", .str (lit "Careful"))]) 1000 = some shown ∧
      shown.delay = 6000 ∧ readProp shown.payload (lit "type") = .str (lit "warning")) ∧
    (∃ shown, useNotifications.showWarning (.str (lit "Careful")) 1000 = some shown ∧
      shown.delay = 5000 ∧ readProp shown.payload (lit "type") = .str (lit "warning")) ∧
    (∃ shown n,
      showSuccessNotification (.obj [(lit "id", .num 1),
        (lit "message", .str (lit "Saved"))]) 1000 = some shown ∧
      shown.removeId = .num 1000 ∧
      addNotification sampleBuiltins 1000 [] shown.payload = [n] ∧
      readProp n (lit "id") = .num 1 ∧
      removeNotification [n] shown.removeId = [n]) :=
  ⟨⟨_, rfl, rfl, rfl⟩, ⟨_, rfl, rfl, rfl⟩, ⟨_, _, rfl, rfl, rfl, rfl, rfl⟩⟩

/-- C23, amended. For a notification argument without an `id` of its own (a
string, or an object without the key `id`), each creator returns, starts one
timer, and the id the timer removes is the id of the notification added to the
list. The delay is that of the creator: 5000 ms for `showSuccessNotification`
and `showInfoNotification`, 7000 ms for `showErrorNotification` and 6000 ms for
`showWarningNotification`. The callbacks of the hook `useNotifications` use
5000 ms for success, info and warning and 7000 ms for error. -/
theorem showNotification_delay_and_id (env : Builtins) (notification : JsVal)
    (now added : Int) (notifications : List (JsObject JsVal))
    (h : HasNoOwnId notification) :
    (∃ shown, showSuccessNotification notification now = some shown ∧
      shown.delay = 5000 ∧ RemovesAdded env added notifications shown) ∧
    (∃ shown, showErrorNotification notification now = some shown ∧
      shown.delay = 7000 ∧ RemovesAdded env added notifications shown) ∧
    (∃ shown, showInfoNotification notification now = some shown ∧
      shown.delay = 5000 ∧ RemovesAdded env added notifications shown) ∧
    (∃ shown, showWarningNotification notification now = some shown ∧
      shown.delay = 6000 ∧ RemovesAdded env added notifications shown) ∧
    ∀ message : JsVal,
      (∃ shown, useNotifications.showSuccess message now = some shown ∧
        shown.delay = 5000 ∧ RemovesAdded env added notifications shown) ∧
      (∃ shown, useNotifications.showError message now = some shown ∧
        shown.delay = 7000 ∧ RemovesAdded env added notifications shown) ∧
      (∃ shown, useNotifications.showInfo message now = some shown ∧
        shown.delay = 5000 ∧ RemovesAdded env added notifications shown) ∧
      (∃ shown, useNotifications.showWarning message now = some shown ∧
        shown.delay = 5000 ∧ RemovesAdded env added notifications shown) := by
  refine ⟨shown_of_hasNoOwnId env _ _ notification now added notifications h,
    shown_of_hasNoOwnId env _ _ notification now added notifications h,
    shown_of_hasNoOwnId env _ _ notification now added notifications h,
    shown_of_hasNoOwnId env _ _ notification now added notifications h, ?_⟩
  intro message
  exact ⟨shown_of_hasNoOwnId env (lit "success") 5000 _ now added notifications
      (hasNoOwnId_hook (lit "success") message),
    shown_of_hasNoOwnId env (lit "error") 7000 _ now added notifications
      (hasNoOwnId_hook (lit "error") message),
    shown_of_hasNoOwnId env (lit "success") 5000 _ now added notifications
      (hasNoOwnId_hook (lit "info") message),
    shown_of_hasNoOwnId env (lit "success") 5000 _ now added notifications
      (hasNoOwnId_hook (lit "warning") message)⟩

/-- Witness for C23: the text `Saved` shown as an error at time 1000 while the
list is empty. -/
theorem showNotification_delay_and_id_witness :
    HasNoOwnId (.str (lit "Saved")) ∧
    ∃ shown, showErrorNotification (.str (lit "Saved")) 1000 = some shown ∧
      shown.delay = 7000 ∧ RemovesAdded sampleBuiltins 1001 [] shown :=
  ⟨trivial,
    (showNotification_delay_and_id sampleBuiltins (.str (lit "Saved")) 1000 1001 []
      trivial).2.1⟩

/-! ## The filter of the table hook against the selector -/

theorem includes_nil_left (p : JsString) (hp : p ≠ []) : includes [] p = false := by
  cases p with
  | nil => exact absurd rfl hp
  | cons c p => rfl

theorem field_matches (toLowerCase : JsString → JsString) (hnil : toLowerCase [] = [])
    (text term : JsString) (hterm : toLowerCase term ≠ []) :
    ((JsVal.str text).truthy &&
      includes (toLowerCase (JsVal.str text).toStr) (toLowerCase term)) =
      includes (toLowerCase text) (toLowerCase term) := by
  have hstr : (JsVal.str text).toStr = text := by simp [JsVal.toStr]
  rw [hstr]
  cases text with
  | nil =>
    rw [hnil, includes_nil_left _ hterm]
    rfl
  | cons c text => rfl

/-- C30. For a collection whose items hold their title and body as strings,
the memo `filteredData` of `useTable` with the search fields `title` and `body`
returns the same list as `selectFilteredEntries` on the same collection and
term. The lower-casing is a parameter that maps the empty string to itself and
a non-empty string to a non-empty one, as `toLowerCase` does. -/
theorem filteredData_eq_selectFilteredEntries (toLowerCase : JsString → JsString)
    (hnil : toLowerCase [] = []) (hne : ∀ s, s ≠ [] → toLowerCase s ≠ [])
    (state : EntriesState (JsObject JsVal))
    (hfields : ∀ e ∈ state.items,
      readProp e.rest (lit "title") = .str e.title ∧
      readProp e.rest (lit "body") = .str e.body) :
    filteredData toLowerCase [lit "title", lit "body"]
        (state.items.map (fun item => item.rest)) state.searchTerm =
      (selectFilteredEntries toLowerCase state).map (fun item => item.rest) := by
  unfold filteredData selectFilteredEntries filterEntries
  by_cases hterm : state.searchTerm.isEmpty = true
  · rw [if_pos hterm, if_pos hterm]
  · rw [if_neg hterm, if_neg hterm, List.filter_map]
    congr 1
    apply List.filter_congr
    intro e he
    have hlower : toLowerCase state.searchTerm ≠ [] := by
      apply hne
      intro h
      exact hterm (by rw [h]; rfl)
    simp only [Function.comp, List.any_cons, List.any_nil, Bool.or_false]
    rw [(hfields e he).1, (hfields e he).2,
      field_matches toLowerCase hnil _ _ hlower, field_matches toLowerCase hnil _ _ hlower]

/-- Witness for C30: the sample store with the search term `HELLO`; entry 1
has an empty title, entry 7 matches in the title and entry 9 in the body. -/
theorem filteredData_eq_selectFilteredEntries_witness :
    filteredData toLowerCaseAscii [lit "title", lit "body"]
        (searchState.items.map (fun item => item.rest)) searchState.searchTerm =
      (selectFilteredEntries toLowerCaseAscii searchState).map (fun item => item.rest) ∧
    (selectFilteredEntries toLowerCaseAscii searchState).map (fun item => item.id) = [7, 9] := by
  refine ⟨filteredData_eq_selectFilteredEntries toLowerCaseAscii rfl ?_ searchState ?_, ?_⟩
  · intro s hs h
    apply hs
    unfold toLowerCaseAscii at h
    exact List.map_eq_nil_iff.1 h
  · intro e he
    have hitems : searchState.items =
        [{ id := 1, title := [], body := lit "b", rest := recordOne },
          { id := 7, title := lit "Hello", body := lit "A short body", rest := enrichedRecord },
          { id := 9, title := lit "c", body := lit "say hello", rest := recordNine }] := rfl
    rw [hitems] at he
    simp only [List.mem_cons, List.mem_singleton, List.not_mem_nil, or_false] at he
    rcases he with rfl | rfl | rfl
    · exact ⟨rfl, rfl⟩
    · exact ⟨rfl, rfl⟩
    · exact ⟨rfl, rfl⟩
  · decide

end BOD
